import Mathlib

/-! dynamic-device-scaler: the decision engine of `internal/utils/node_utils.go`

A shallow embedding of the failure evaluator, the reclaim evaluator, the node
label synchronizer and their helpers, followed by the properties proved about
them.

Conventions of the embedding
* a Go slice is a `List`; a Go map is an association list under an `Option`,
  `none` being the nil map (reads of a nil map give the zero value, a store
  into it panics);
* `int`, `int64` and instants of time are `Int` (instants and durations in
  nanoseconds); the only arithmetic that can leave the 64-bit range,
  `Time.Sub`, saturates as the library does;
* the control-plane store is a record of its answers (`KubeClient`,
  `Clientset`), one answer per kind of call and per argument;
* a function that mutates through a pointer returns the value the pointee has
  when the function returns.
-/

namespace DDS

/-! ## Errors -/

/-- Error values. `external` is an error handed back by the store client, the
clientset or the time library; `errorf` is `fmt.Errorf` with a constant text;
`wrap` is `fmt.Errorf` with a format that ends in the cause. -/
inductive Err where
  | external (msg : String)
  | errorf (text : String)
  | wrap (format : String) (cause : Err)
deriving DecidableEq, Repr

/-! ## Go maps -/

/-- A Go `map[string]ν`: `none` is the nil map. -/
abbrev GoMap (ν : Type) := Option (List (String × ν))

/-- Lookup `v, ok := m[k]`; a nil map has no key. -/
def GoMap.get {ν : Type} (m : GoMap ν) (k : String) : Option ν :=
  match m with
  | none => none
  | some kvs => kvs.lookup k

/-- Store `m[k] = v`; `none` stands for the run-time panic
"assignment to entry in nil map". -/
def GoMap.store {ν : Type} (m : GoMap ν) (k : String) (v : ν) : Option (GoMap ν) :=
  match m with
  | none => none
  | some kvs => some (some ((k, v) :: kvs))

/-- Removal `delete(m, k)`; on a nil map it does nothing. -/
def GoMap.delete {ν : Type} (m : GoMap ν) (k : String) : GoMap ν :=
  match m with
  | none => none
  | some kvs => some (kvs.filter (fun kv => !(kv.1 == k)))

/-- Read `m[k]` of a `map[string]bool`: the zero value `false` when the key is
missing or the map is nil. -/
def GoMap.flag (m : GoMap Bool) (k : String) : Bool :=
  (m.get k).getD false

/-! ## Data model -/

/-- `types.ResourceClaimDevice`. -/
structure ResourceClaimDevice where
  Name : String
  Model : String
  State : String
  UsedByPod : Bool
deriving DecidableEq, Repr

/-- `types.ResourceClaimInfo`; `CreationTimestamp` is the instant it denotes. -/
structure ResourceClaimInfo where
  Name : String
  NodeName : String
  CreationTimestamp : Int
  Namespace : String
  Devices : List ResourceClaimDevice
deriving DecidableEq, Repr

/-- One element of `NodeInfo.Models`, with the two fields the code reads. -/
structure ModelConstraints where
  Model : String
  MaxDevice : Int
deriving DecidableEq, Repr

/-- `types.NodeInfo`, with the two fields the code reads. -/
structure NodeInfo where
  Name : String
  Models : List ModelConstraints
deriving DecidableEq, Repr

/-- `cr.Spec.Resource` of a `ComposabilityRequest`. -/
structure ScalarResourceDetails where
  Model : String
  Size : Int
deriving DecidableEq, Repr

/-- `cr.Spec` of a `ComposabilityRequest`. -/
structure ComposabilityRequestSpec where
  Resource : ScalarResourceDetails
deriving DecidableEq, Repr

/-- `cdioperator.ComposabilityRequest`, a pending provisioning request. -/
structure ComposabilityRequest where
  Spec : ComposabilityRequestSpec
deriving DecidableEq, Repr

/-- `resource.Spec` of a `ComposableResource`. -/
structure ComposableResourceSpec where
  Model : String
  TargetNode : String
deriving DecidableEq, Repr

/-- `resource.Status` of a `ComposableResource`. -/
structure ComposableResourceStatus where
  State : String
deriving DecidableEq, Repr

/-- `cdioperator.ComposableResource`, a live device object. -/
structure ComposableResource where
  Name : String
  Annotations : GoMap String
  Spec : ComposableResourceSpec
  Status : ComposableResourceStatus
deriving DecidableEq, Repr

/-- A device entry of a resource slice. -/
structure SliceDevice where
  Name : String
deriving DecidableEq, Repr

/-- `rs.Spec` of a `ResourceSlice`. -/
structure ResourceSliceSpec where
  Devices : List SliceDevice
deriving DecidableEq, Repr

/-- `resourceapi.ResourceSlice`. -/
structure ResourceSlice where
  Spec : ResourceSliceSpec
deriving DecidableEq, Repr

/-- `metav1.Condition`, with the two fields the code sets (`Type_` is the
field `Type`). -/
structure Condition where
  Type_ : String
  Status : String
deriving DecidableEq, Repr

/-- A device entry of `rc.Status.Devices` of a claim object. -/
structure AllocatedDeviceStatus where
  Device : String
  Conditions : List Condition
deriving DecidableEq, Repr

/-- `rc.Status` of a claim object. -/
structure ResourceClaimStatus where
  Devices : List AllocatedDeviceStatus
deriving DecidableEq, Repr

/-- `resourceapi.ResourceClaim`, the claim object held by the store. -/
structure ResourceClaim where
  Name : String
  Namespace : String
  Status : ResourceClaimStatus
deriving DecidableEq, Repr

/-- The answers of the control-plane store to the calls made through
`kubeClient`: the three `List` calls, `Get` of a claim object by name and
namespace, and `Update` of a live device (`none` is a nil error). -/
structure KubeClient where
  ListComposabilityRequest : Except Err (List ComposabilityRequest)
  ListComposableResource : Except Err (List ComposableResource)
  ListResourceSlice : Except Err (List ResourceSlice)
  Get : String → String → Except Err ResourceClaim
  Update : ComposableResource → Option Err
  CountRead : Option Err

/-- The wall clock and the RFC3339 codec of the time library: `now` is what
`time.Now()` reads during the pass, `parse` is `time.Parse(time.RFC3339, ·)`
and `format` is `Time.Format(time.RFC3339)`. -/
structure Clock where
  now : Int
  parse : String → Except Err Int
  format : Int → String

/-! ## Sorting -/

/-- The instant `t` is after the instant `u` (`t.After(u)`). -/
def After (t u : Int) : Bool := decide (u < t)

/-- The statement `data.Swap(i, j)` on the slice `d`. Both indices are inside
the slice wherever the sort swaps; outside it the slice is left as it is. -/
def swapAt {α : Type} (d : List α) (i j : Nat) : List α :=
  match d[i]?, d[j]? with
  | some x, some y => (d.set i y).set j x
  | _, _ => d

/-- The test `data.Less(i, j)`, that is `less` on the elements at `i` and `j`. -/
def lessAt {α : Type} (less : α → α → Bool) (d : List α) (i j : Nat) : Bool :=
  match d[i]?, d[j]? with
  | some x, some y => less x y
  | _, _ => false

/-- Inner loop of `insertionSort_func`,
`for j := i; j > a && data.Less(j, j-1); j-- { data.Swap(j, j-1) }`, by
recursion on `j`. -/
def insertionShift {α : Type} (less : α → α → Bool) (a : Nat) : Nat → List α → List α
  | 0, d => d
  | j + 1, d =>
    if j + 1 > a && lessAt less d (j + 1) j then insertionShift less a j (swapAt d (j + 1) j)
    else d

/-- `insertionSort_func(data, a, b)`: `for i := a + 1; i < b; i++ { ... }`. -/
def insertionSortFunc {α : Type} (less : α → α → Bool) (d : List α) (a b : Nat) : List α :=
  (List.range' (a + 1) (b - (a + 1))).foldl (fun d i => insertionShift less a i d) d

/-- `siftDown_func(data, lo, hi, first)`, the loop over `root` starting at
`lo`. The first argument bounds the number of rounds; `root` grows in every
round, so `hi` rounds are enough. -/
def siftDownFunc {α : Type} (less : α → α → Bool) (first hi : Nat) :
    Nat → List α → Nat → List α
  | 0, d, _ => d
  | fuel + 1, d, root =>
    if 2 * root + 1 ≥ hi then d
    else
      let child :=
        if 2 * root + 1 + 1 < hi &&
            lessAt less d (first + (2 * root + 1)) (first + (2 * root + 1) + 1) then
          2 * root + 1 + 1
        else 2 * root + 1
      if !lessAt less d (first + root) (first + child) then d
      else siftDownFunc less first hi fuel (swapAt d (first + root) (first + child)) child

/-- `heapSort_func(data, a, b)`: the heap is built with
`for i := (hi - 1) / 2; i >= 0; i--`, then emptied with
`for i := hi - 1; i >= 0; i--`. -/
def heapSortFunc {α : Type} (less : α → α → Bool) (d : List α) (a b : Nat) : List α :=
  let first := a
  let lo := 0
  let hi := b - a
  let d := (List.range ((hi - 1) / 2 + 1)).reverse.foldl
    (fun d i => siftDownFunc less first hi hi d i) d
  (List.range hi).reverse.foldl
    (fun d i => siftDownFunc less first i i (swapAt d first (first + i)) lo) d

/-- `sortedHint`, the hint of `choosePivot_func`. -/
inductive SortedHint where
  | unknownHint
  | increasingHint
  | decreasingHint
deriving DecidableEq, Repr

/-- `order2_func(data, a, b, swaps)`: the two indices in order, and the
counter of swaps. -/
def order2Func {α : Type} (less : α → α → Bool) (d : List α) (a b swaps : Nat) :
    Nat × Nat × Nat :=
  if lessAt less d b a then (b, a, swaps + 1) else (a, b, swaps)

/-- `median_func(data, a, b, c, swaps)`: the index of the median and the
counter of swaps. -/
def medianFunc {α : Type} (less : α → α → Bool) (d : List α) (a b c swaps : Nat) : Nat × Nat :=
  let r1 := order2Func less d a b swaps
  let r2 := order2Func less d r1.2.1 c r1.2.2
  let r3 := order2Func less d r1.1 r2.1 r2.2.2
  (r3.2.1, r3.2.2)

/-- `medianAdjacent_func(data, a, swaps)`. -/
def medianAdjacentFunc {α : Type} (less : α → α → Bool) (d : List α) (a swaps : Nat) :
    Nat × Nat :=
  medianFunc less d (a - 1) a (a + 1) swaps

/-- `choosePivot_func(data, a, b)`: the pivot index and the hint. -/
def choosePivotFunc {α : Type} (less : α → α → Bool) (d : List α) (a b : Nat) :
    Nat × SortedHint :=
  let l := b - a
  let i := a + l / 4 * 1
  let j := a + l / 4 * 2
  let k := a + l / 4 * 3
  let r :=
    if l ≥ 8 then
      if l ≥ 50 then
        let ri := medianAdjacentFunc less d i 0
        let rj := medianAdjacentFunc less d j ri.2
        let rk := medianAdjacentFunc less d k rj.2
        medianFunc less d ri.1 rj.1 rk.1 rk.2
      else medianFunc less d i j k 0
    else (j, 0)
  if r.2 = 0 then (r.1, .increasingHint)
  else if r.2 = 4 * 3 then (r.1, .decreasingHint)
  else (r.1, .unknownHint)

/-- `reverseRange_func`, the loop `for i < j { data.Swap(i, j); i++; j-- }`;
the first argument bounds the number of rounds. -/
def reverseLoop {α : Type} : Nat → List α → Nat → Nat → List α
  | 0, d, _, _ => d
  | fuel + 1, d, i, j => if i < j then reverseLoop fuel (swapAt d i j) (i + 1) (j - 1) else d

/-- `reverseRange_func(data, a, b)`. -/
def reverseRangeFunc {α : Type} (d : List α) (a b : Nat) : List α :=
  reverseLoop (b - a) d a (b - 1)

/-- A loop `for i <= j && p(i) { i++ }`; the first argument bounds the number
of rounds. Returns `i`. -/
def scanUp (p : Nat → Bool) (j : Nat) : Nat → Nat → Nat
  | 0, i => i
  | fuel + 1, i => if i ≤ j && p i then scanUp p j fuel (i + 1) else i

/-- A loop `for i <= j && p(j) { j-- }`, by recursion on `j`; `i` is at least
1 wherever the sort runs it, so at `j = 0` the loop has ended. Returns `j`. -/
def scanDown (p : Nat → Bool) (i : Nat) : Nat → Nat
  | 0 => 0
  | j + 1 => if i ≤ j + 1 && p (j + 1) then scanDown p i j else j + 1

/-- The loop `for { ...; if i > j { break }; data.Swap(i, j); i++; j-- }` of
`partition_func`; the first argument bounds the number of rounds. Returns the
slice and `j`. -/
def partitionLoop {α : Type} (less : α → α → Bool) (a : Nat) :
    Nat → List α → Nat → Nat → List α × Nat
  | 0, d, _, j => (d, j)
  | fuel + 1, d, i, j =>
    let i2 := scanUp (fun i => lessAt less d i a) j (j + 1 - i) i
    let j2 := scanDown (fun j => !lessAt less d j a) i2 j
    if i2 > j2 then (d, j2)
    else partitionLoop less a fuel (swapAt d i2 j2) (i2 + 1) (j2 - 1)

/-- `partition_func(data, a, b, pivot)`: the slice, the new pivot index and
whether the slice was already partitioned. -/
def partitionFunc {α : Type} (less : α → α → Bool) (d : List α) (a b pivot : Nat) :
    List α × Nat × Bool :=
  let d := swapAt d a pivot
  let i := scanUp (fun i => lessAt less d i a) (b - 1) (b - 1 + 1 - (a + 1)) (a + 1)
  let j := scanDown (fun j => !lessAt less d j a) i (b - 1)
  if i > j then (swapAt d j a, j, true)
  else
    let r := partitionLoop less a (b - a) (swapAt d i j) (i + 1) (j - 1)
    (swapAt r.1 r.2 a, r.2, false)

/-- The loop of `partitionEqual_func`; the first argument bounds the number of
rounds. Returns the slice and `i`. -/
def partitionEqualLoop {α : Type} (less : α → α → Bool) (a : Nat) :
    Nat → List α → Nat → Nat → List α × Nat
  | 0, d, i, _ => (d, i)
  | fuel + 1, d, i, j =>
    let i2 := scanUp (fun i => !lessAt less d a i) j (j + 1 - i) i
    let j2 := scanDown (fun j => lessAt less d a j) i2 j
    if i2 > j2 then (d, i2)
    else partitionEqualLoop less a fuel (swapAt d i2 j2) (i2 + 1) (j2 - 1)

/-- `partitionEqual_func(data, a, b, pivot)`: the slice and the new pivot
index. -/
def partitionEqualFunc {α : Type} (less : α → α → Bool) (d : List α) (a b pivot : Nat) :
    List α × Nat :=
  partitionEqualLoop less a (b - a) (swapAt d a pivot) (a + 1) (b - 1)

/-- The loop `for i < b && !data.Less(i, i-1) { i++ }` of
`partialInsertionSort_func`; the first argument bounds the number of rounds.
Returns `i`. -/
def scanOrdered {α : Type} (less : α → α → Bool) (d : List α) (b : Nat) : Nat → Nat → Nat
  | 0, i => i
  | fuel + 1, i =>
    if i < b && !lessAt less d i (i - 1) then scanOrdered less d b fuel (i + 1) else i

/-- The loop `for j := i - 1; j >= 1; j-- { if !data.Less(j, j-1) { break };
data.Swap(j, j-1) }`, by recursion on `j`. -/
def shiftSmaller {α : Type} (less : α → α → Bool) : Nat → List α → List α
  | 0, d => d
  | j + 1, d => if !lessAt less d (j + 1) j then d else shiftSmaller less j (swapAt d (j + 1) j)

/-- The loop `for j := i + 1; j < b; j++ { if !data.Less(j, j-1) { break };
data.Swap(j, j-1) }`; the first argument bounds the number of rounds. -/
def shiftGreater {α : Type} (less : α → α → Bool) (b : Nat) : Nat → Nat → List α → List α
  | 0, _, d => d
  | fuel + 1, j, d =>
    if j < b then
      if !lessAt less d j (j - 1) then d
      else shiftGreater less b fuel (j + 1) (swapAt d j (j - 1))
    else d

/-- The loop `for j := 0; j < maxSteps; j++` of `partialInsertionSort_func`,
by recursion on the steps left: the slice, and whether it is sorted. -/
def partialInsertionLoop {α : Type} (less : α → α → Bool) (a b : Nat) :
    Nat → List α → Nat → List α × Bool
  | 0, d, _ => (d, false)
  | steps + 1, d, i =>
    let i2 := scanOrdered less d b (b - i) i
    if i2 = b then (d, true)
    else if b - a < 50 then (d, false)
    else
      let d1 := swapAt d i2 (i2 - 1)
      let d2 := if i2 - a ≥ 2 then shiftSmaller less (i2 - 1) d1 else d1
      let d3 := if b - i2 ≥ 2 then shiftGreater less b (b - (i2 + 1)) (i2 + 1) d2 else d2
      partialInsertionLoop less a b steps d3 i2

/-- `partialInsertionSort_func(data, a, b)`, with `maxSteps = 5` and
`shortestShifting = 50`. -/
def partialInsertionSortFunc {α : Type} (less : α → α → Bool) (d : List α) (a b : Nat) :
    List α × Bool :=
  partialInsertionLoop less a b 5 d (a + 1)

/-- `xorshift.Next` on a 64-bit word. -/
def xorshiftNext (r : Nat) : Nat :=
  let r1 := r ^^^ ((r <<< 13) % 2 ^ 64)
  let r2 := r1 ^^^ (r1 >>> 7)
  r2 ^^^ ((r2 <<< 17) % 2 ^ 64)

/-- `bits.Len`, by halving; the first argument bounds the number of
halvings. -/
def bitsLenAux : Nat → Nat → Nat
  | 0, _ => 0
  | fuel + 1, n => if n = 0 then 0 else bitsLenAux fuel (n / 2) + 1

/-- `bits.Len(uint(n))`: the number of bits needed to write `n`. -/
def bitsLen (n : Nat) : Nat := bitsLenAux n n

/-- `nextPowerOfTwo(length)`. -/
def nextPowerOfTwo (length : Nat) : Nat := 2 ^ bitsLen length

/-- `breakPatterns_func(data, a, b)`: three swaps around the middle with
places drawn from `xorshift`; the state of the loop is the generator and the
slice. -/
def breakPatternsFunc {α : Type} (d : List α) (a b : Nat) : List α :=
  let length := b - a
  if length ≥ 8 then
    let modulus := nextPowerOfTwo length
    let idx := a + (length / 4) * 2 - 1
    ((List.range 3).foldl (fun (st : Nat × List α) i =>
      let random := xorshiftNext st.1
      let other := random &&& (modulus - 1)
      let other := if other ≥ length then other - length else other
      (random, swapAt st.2 (idx - 1 + i) (a + other))) (length, d)).2
  else d

/-- `pdqsort_func(data, a, b, limit)`. The loop `for { ... }` and the two
recursive calls are one recursion; `wasBalanced` and `wasPartitioned` are the
loop variables, which a recursive call starts at `true`. The first argument
bounds the depth: every round and every call works on a shorter range, so
`b - a` is enough. -/
def pdqsortFunc {α : Type} (less : α → α → Bool) :
    Nat → List α → Nat → Nat → Nat → Bool → Bool → List α
  | 0, d, _, _, _, _, _ => d
  | fuel + 1, d, a, b, limit, wasBalanced, wasPartitioned =>
    let length := b - a
    if length ≤ 12 then insertionSortFunc less d a b
    else if limit = 0 then heapSortFunc less d a b
    else
      let d1 := if !wasBalanced then breakPatternsFunc d a b else d
      let limit1 := if !wasBalanced then limit - 1 else limit
      let c := choosePivotFunc less d1 a b
      let d2 := if c.2 = .decreasingHint then reverseRangeFunc d1 a b else d1
      let pivot := if c.2 = .decreasingHint then (b - 1) - (c.1 - a) else c.1
      let hint := if c.2 = .decreasingHint then SortedHint.increasingHint else c.2
      let p :=
        if wasBalanced && wasPartitioned && hint = .increasingHint then
          partialInsertionSortFunc less d2 a b
        else (d2, false)
      if p.2 then p.1
      else if a > 0 && !lessAt less p.1 (a - 1) pivot then
        let e := partitionEqualFunc less p.1 a b pivot
        pdqsortFunc less fuel e.1 e.2 b limit1 wasBalanced wasPartitioned
      else
        let q := partitionFunc less p.1 a b pivot
        let mid := q.2.1
        let leftLen := mid - a
        let rightLen := b - mid
        let balanceThreshold := length / 8
        if leftLen < rightLen then
          pdqsortFunc less fuel (pdqsortFunc less fuel q.1 a mid limit1 true true)
            (mid + 1) b limit1 (decide (leftLen ≥ balanceThreshold)) q.2.2
        else
          pdqsortFunc less fuel (pdqsortFunc less fuel q.1 (mid + 1) b limit1 true true)
            a mid limit1 (decide (rightLen ≥ balanceThreshold)) q.2.2

/-- The library's `sort.Slice(xs, less)`:
`pdqsort_func(lessSwap{less, swap}, 0, length, bits.Len(uint(length)))`. -/
def sortSlice {α : Type} (less : α → α → Bool) (xs : List α) : List α :=
  pdqsortFunc less xs.length xs 0 xs.length (bitsLen xs.length) true true

/-- `sortByTime`: sorts the claims with
`less(i, j) = claims[i].CreationTimestamp.After(claims[j].CreationTimestamp.Time)`. -/
def sortByTime (resourceClaims : List ResourceClaimInfo) : List ResourceClaimInfo :=
  sortSlice (fun a b => After a.CreationTimestamp b.CreationTimestamp) resourceClaims

/-! ## Policy stubs and the cooldown -/

/-- `isDeviceCoexistence`: whether two devices can coexist. The body is
`return true`. -/
def isDeviceCoexistence (_device1 _device2 : String) : Bool := true

/-- `time.Minute`, in nanoseconds. -/
def Minute : Int := 60 * 1000000000

/-- Largest `time.Duration` (`1<<63 - 1`). -/
def maxDuration : Int := 2 ^ 63 - 1

/-- Smallest `time.Duration` (`-1 << 63`). -/
def minDuration : Int := -(2 ^ 63)

/-- `t.Sub(u)`: the duration `t - u`, saturated to the range of
`time.Duration`. -/
def Sub (t u : Int) : Int :=
  if t - u > maxDuration then maxDuration
  else if t - u < minDuration then minDuration
  else t - u

/-- Key of the last-release annotation. -/
def lastUsedKey : String := "composable.test/last-used-time"

/-- `isLastUsedOverMinute`: the pair `(bool, error)` it returns. -/
def isLastUsedOverMinute (clock : Clock) (resource : ComposableResource) : Bool × Option Err :=
  match resource.Annotations with
  | none => (false, some (.errorf "annotations not found"))
  | some annotations =>
    match annotations.lookup lastUsedKey with
    | none => (false, some (.errorf ("annotation " ++ lastUsedKey ++ " not found")))
    | some lastUsedStr =>
      match clock.parse lastUsedStr with
      | .error err => (false, some (.wrap "failed to parse time: %v" err))
      | .ok lastUsedTime =>
        let duration := Sub clock.now lastUsedTime
        (decide (duration > Minute), none)

/-- `isResourceSliceRed`: lists the resource slices and walks their devices;
the body of the innermost `if device.Name == claimDeviceName` holds only a
comment, so the walk computes nothing and the function ends in
`return false, nil`. -/
def isResourceSliceRed (kubeClient : KubeClient) (claimDeviceName : String) : Bool × Option Err :=
  match kubeClient.ListResourceSlice with
  | .error err => (false, some (.wrap "failed to list ResourceClaims: %v" err))
  | .ok items =>
    let _walk : Unit := items.foldl
      (fun u rs => rs.Spec.Devices.foldl
        (fun u device => if device.Name = claimDeviceName then u else u) u) ()
    (false, none)

/-! ## Failing and rescheduling a claim -/

/-- A loop `for _, v := range xs { ... v.f = e ... }` whose body assigns only
to fields of the loop variable. Each iteration works on a copy `v` of the
element; the copy is dropped when the iteration ends and no element of `xs` is
stored to. The result is the slice after the loop together with the copies as
they stood at the end of their iterations. -/
def rangeByValue {α : Type} (xs : List α) (body : α → α) : List α × List α :=
  xs.foldl (fun st x => (st.1, st.2 ++ [body x])) (xs, [])

/-- What a call of `setDevicesFailed` or `setDevicesReschedule` leaves behind:
`claim` is `*resourceClaim` when the call returns, `err` the error returned,
`deviceCopies` the loop copies of the claim devices, `statusCopies` the loop
copies of the status entries of the fetched claim object. -/
structure SetDevicesResult where
  claim : ResourceClaimInfo
  err : Option Err
  deviceCopies : List ResourceClaimDevice
  statusCopies : List AllocatedDeviceStatus
deriving DecidableEq, Repr

/-- Common body of `setDevicesFailed` and `setDevicesReschedule`, which differ
in the state written and in the condition type: the loop over
`resourceClaim.Devices`, the `Get` of the claim object, and the loop over
`rc.Status.Devices`. -/
def setDevices (newState conditionType : String) (kubeClient : KubeClient)
    (resourceClaim : ResourceClaimInfo) : SetDevicesResult :=
  let devicesLoop := rangeByValue resourceClaim.Devices
    (fun device => if device.State = "Preparing" then { device with State := newState } else device)
  let resourceClaim := { resourceClaim with Devices := devicesLoop.1 }
  match kubeClient.Get resourceClaim.Name resourceClaim.Namespace with
  | .error err =>
    { claim := resourceClaim
      err := some (.wrap "failed to get ResourceClaim: %v" err)
      deviceCopies := devicesLoop.2
      statusCopies := [] }
  | .ok rc =>
    let newCondition : Condition := { Type_ := conditionType, Status := "True" }
    let statusLoop := rangeByValue rc.Status.Devices
      (fun device => { device with Conditions := device.Conditions ++ [newCondition] })
    { claim := resourceClaim
      err := none
      deviceCopies := devicesLoop.2
      statusCopies := statusLoop.2 }

/-- `setDevicesFailed`. -/
def setDevicesFailed (kubeClient : KubeClient) (resourceClaim : ResourceClaimInfo) :
    SetDevicesResult :=
  setDevices "Failed" "FabricDeviceFailed" kubeClient resourceClaim

/-- `setDevicesReschedule`. -/
def setDevicesReschedule (kubeClient : KubeClient) (resourceClaim : ResourceClaimInfo) :
    SetDevicesResult :=
  setDevices "Reschedule" "FabricDeviceReschedule" kubeClient resourceClaim

/-! ## The failure evaluator -/

/-- Modelled from the spec: `GetConfiguredDeviceCount` is called by the failure
evaluator and is not among the sources. The spec gives it as "counts, across
all supplied claims and all their devices regardless of device state, how many
devices of each model are configured". A model that has no device counts 0, as
a missing key of the Go map does. Its access to the store is the answer
`kubeClient.CountRead`. -/
def GetConfiguredDeviceCount (kubeClient : KubeClient)
    (resourceClaims : List ResourceClaimInfo) : Except Err (String → Int) :=
  match kubeClient.CountRead with
  | some err => .error err
  | none => .ok (fun model =>
      ((resourceClaims.map
        (fun rc => (rc.Devices.filter (fun device => device.Model = model)).length)).sum : Nat))

/-- A call of `setDevicesFailed` or `setDevicesReschedule` made by a pass:
the claim it was called on and what the call left behind. The value the call
returns is dropped by both passes. -/
structure Call where
  target : ResourceClaimInfo
  result : SetDevicesResult
deriving DecidableEq, Repr

/-- The slice after a call on the loop copy `rc` of element `i`: the copy
shares its `Devices` with the element, so the devices the call leaves are the
devices of the element. -/
def writeDevices (claims : List ResourceClaimInfo) (i : Nat)
    (devices : List ResourceClaimDevice) : List ResourceClaimInfo :=
  match claims[i]? with
  | none => claims
  | some c => claims.set i { c with Devices := devices }

/-- State of the failure pass: the claim slice and the calls made so far. -/
structure FailedState where
  claims : List ResourceClaimInfo
  calls : List Call
deriving DecidableEq, Repr

/-- The statement `setDevicesFailed(ctx, kubeClient, &rc)` on the copy `rc` of
element `i`. -/
def failClaim (kubeClient : KubeClient) (st : FailedState) (i : Nat)
    (rc : ResourceClaimInfo) : FailedState :=
  let r := setDevicesFailed kubeClient rc
  { claims := writeDevices st.claims i r.claim.Devices
    calls := st.calls ++ [{ target := rc, result := r }] }

/-- Intra-claim check for the device at index `i`: some other device of the
claim has a different model that cannot coexist with it. -/
def intraClaimVeto (rc : ResourceClaimInfo) (i : Nat) (rcDevice : ResourceClaimDevice) : Bool :=
  rc.Devices.enum.any (fun jd =>
    decide (i ≠ jd.1) && decide (rcDevice.Model ≠ jd.2.Model) &&
      !isDeviceCoexistence rcDevice.Model jd.2.Model)

/-- Check against the pending requests: a request of the same model asks for
more than some constraint of that model allows, or a request of positive size
has another model that cannot coexist. -/
def requestVeto (node : NodeInfo) (requests : List ComposabilityRequest)
    (rcDevice : ResourceClaimDevice) : Bool :=
  requests.any (fun request =>
    if rcDevice.Model = request.Spec.Resource.Model then
      node.Models.any (fun modelConstraint =>
        decide (modelConstraint.Model = rcDevice.Model) &&
          decide (request.Spec.Resource.Size > modelConstraint.MaxDevice))
    else if request.Spec.Resource.Size > 0 then
      !isDeviceCoexistence rcDevice.Model request.Spec.Resource.Model
    else false)

/-- Cross-claim check: a claim of another name has a `Preparing` device of a
different model that cannot coexist. -/
def crossClaimVeto (resourceClaims : List ResourceClaimInfo) (rc : ResourceClaimInfo)
    (rcDevice : ResourceClaimDevice) : Bool :=
  resourceClaims.any (fun rc2 =>
    decide (rc.Name ≠ rc2.Name) &&
      rc2.Devices.any (fun rc2Device =>
        decide (rc2Device.State = "Preparing") && decide (rcDevice.Model ≠ rc2Device.Model) &&
          !isDeviceCoexistence rcDevice.Model rc2Device.Model))

/-- Body of `outerLoop` for one claim: whether some branch reaches
`setDevicesFailed(...); continue outerLoop`. The three checks are pure and
every branch that fires does the same two statements, so the walk over the
devices is the disjunction of the checks over the `Preparing` devices. -/
def claimVetoed (node : NodeInfo) (requests : List ComposabilityRequest)
    (resourceClaims : List ResourceClaimInfo) (rc : ResourceClaimInfo) : Bool :=
  rc.Devices.enum.any (fun id =>
    decide (id.2.State = "Preparing") &&
      (intraClaimVeto rc id.1 id.2 || requestVeto node requests id.2 ||
        crossClaimVeto resourceClaims rc id.2))

/-- The first loop, `for _, rc := range resourceClaims`: element `i` is copied
into `rc` when its iteration starts. -/
def vetoLoop (kubeClient : KubeClient) (node : NodeInfo)
    (requests : List ComposabilityRequest) (st : FailedState) : FailedState :=
  (List.range st.claims.length).foldl (fun st i =>
    match st.claims[i]? with
    | none => st
    | some rc =>
      if claimVetoed node requests st.claims rc then failClaim kubeClient st i rc else st) st

/-- The loops `for _, rc := range resourceClaims { for _, device := range
rc.Devices { if device.Model == model { setDevicesFailed(&rc) } } }` of the
second pass. -/
def ceilingLoop (kubeClient : KubeClient) (model : String) (st : FailedState) : FailedState :=
  (List.range st.claims.length).foldl (fun st i =>
    match st.claims[i]? with
    | none => st
    | some rc =>
      rc.Devices.foldl (fun st device =>
        if device.Model = model then
          match st.claims[i]? with
          | none => st
          | some cur => failClaim kubeClient st i cur
        else st) st) st

/-- Result of the failure pass: the error returned (`none` is nil), the claim
slice as the caller finds it, and the calls of `setDevicesFailed`. -/
structure FailedPass where
  ret : Option Err
  claims : List ResourceClaimInfo
  calls : List Call
deriving DecidableEq, Repr

/-- `RescheduleFailedNotification`. -/
def RescheduleFailedNotification (kubeClient : KubeClient) (node : NodeInfo)
    (resourceClaims : List ResourceClaimInfo) : FailedPass :=
  match kubeClient.ListComposabilityRequest with
  | .error err => { ret := some err, claims := resourceClaims, calls := [] }
  | .ok requests =>
    let st := vetoLoop kubeClient node requests { claims := sortByTime resourceClaims, calls := [] }
    match GetConfiguredDeviceCount kubeClient st.claims with
    | .error err => { ret := some err, claims := st.claims, calls := st.calls }
    | .ok deviceCount =>
      let st := node.Models.foldl (fun st info =>
        node.Models.foldl (fun st modelConstraint =>
          if info.Model = modelConstraint.Model then
            if deviceCount info.Model > modelConstraint.MaxDevice then
              ceilingLoop kubeClient info.Model st
            else st
          else st) st) st
      { ret := none, claims := st.claims, calls := st.calls }

/-! ## The reclaim evaluator -/

/-- How a pass ends: it returns (`none` is a nil error) or the run-time
panics. -/
inductive Outcome where
  | returned (err : Option Err)
  | panicked (msg : String)
deriving DecidableEq, Repr

/-- The loop `for _, resource := range resourceList.Items` that looks for a
live device to reuse for `device`: the name of the first live device that gets
past every `continue`, that is the one the next statement,
`resourceUsed[resource.Name] = true`, is about; `none` when the loop runs to
its end. -/
def resourceLoop (clock : Clock) (resourceUsed : GoMap Bool) (device : ResourceClaimDevice) :
    List ComposableResource → Option String
  | [] => none
  | resource :: rest =>
    if resourceUsed.flag resource.Name then resourceLoop clock resourceUsed device rest
    else if device.Model = resource.Spec.Model ∧ device.Name = resource.Spec.TargetNode ∧
        resource.Status.State ≠ "Online" ∧ device.UsedByPod = false then
      let r := isLastUsedOverMinute clock resource
      if r.2.isSome || !r.1 then resourceLoop clock resourceUsed device rest
      else some resource.Name
    else resourceLoop clock resourceUsed device rest

/-- How the walk over the devices of one claim ends: `return err`, a panic,
`continue outerLoop` (with the reservation map as it then is), or the end of
the loop. -/
inductive Verdict where
  | abort (err : Err)
  | panic (msg : String)
  | skip (resourceUsed : GoMap Bool)
  | fallThrough
deriving DecidableEq, Repr

/-- The loop `for _, device := range rc.Devices` of `RescheduleNotification`. -/
def deviceLoop (kubeClient : KubeClient) (clock : Clock) (resourceUsed : GoMap Bool)
    (items : List ComposableResource) : List ResourceClaimDevice → Verdict
  | [] => .fallThrough
  | device :: rest =>
    if device.State = "Preparing" then
      match isResourceSliceRed kubeClient device.Name with
      | (_, some err) => .abort err
      | (isRed, none) =>
        if !isRed then .skip resourceUsed
        else
          match resourceLoop clock resourceUsed device items with
          | some name =>
            match resourceUsed.store name true with
            | none => .panic "assignment to entry in nil map"
            | some used => .skip used
          | none => deviceLoop kubeClient clock resourceUsed items rest
    else deviceLoop kubeClient clock resourceUsed items rest

/-- What the stamping loop leaves: the live devices (their annotation maps are
shared with the loop copies, so a stamp shows in them), the objects handed to
`kubeClient.Update`, and how the loop was left early, if it was. -/
structure StampResult where
  items : List ComposableResource
  updates : List ComposableResource
  stop : Option Outcome
deriving DecidableEq, Repr

/-- The loop after `setDevicesReschedule`: every reserved live device gets
the current time as its last-used annotation and is updated in the store. -/
def stampLoop (kubeClient : KubeClient) (clock : Clock) (resourceUsed : GoMap Bool) :
    List ComposableResource → StampResult
  | [] => { items := [], updates := [], stop := none }
  | resource :: rest =>
    if resourceUsed.flag resource.Name then
      let currentTime := clock.format clock.now
      match resource.Annotations.store lastUsedKey currentTime with
      | none =>
        { items := resource :: rest, updates := []
          stop := some (.panicked "assignment to entry in nil map") }
      | some annotations =>
        let resource := { resource with Annotations := annotations }
        match kubeClient.Update resource with
        | some err =>
          { items := resource :: rest, updates := [resource]
            stop := some (.returned (some (.wrap "failed to update ComposableResource: %w" err))) }
        | none =>
          let r := stampLoop kubeClient clock resourceUsed rest
          { items := resource :: r.items, updates := resource :: r.updates, stop := r.stop }
    else
      let r := stampLoop kubeClient clock resourceUsed rest
      { items := resource :: r.items, updates := r.updates, stop := r.stop }

/-- State of the reclaim pass: the claim slice, the calls of
`setDevicesReschedule`, the reservation map `resourceUsed`, the live devices
and the objects handed to `kubeClient.Update`. -/
structure ReclaimState where
  claims : List ResourceClaimInfo
  calls : List Call
  resourceUsed : GoMap Bool
  items : List ComposableResource
  updates : List ComposableResource
deriving DecidableEq, Repr

/-- The loop `outerLoop` of `RescheduleNotification` over the indices still to
visit. -/
def claimLoop (kubeClient : KubeClient) (clock : Clock) :
    List Nat → ReclaimState → ReclaimState × Outcome
  | [], st => (st, .returned none)
  | i :: rest, st =>
    match st.claims[i]? with
    | none => claimLoop kubeClient clock rest st
    | some rc =>
      match deviceLoop kubeClient clock st.resourceUsed st.items rc.Devices with
      | .abort err => (st, .returned (some err))
      | .panic msg => (st, .panicked msg)
      | .skip used => claimLoop kubeClient clock rest { st with resourceUsed := used }
      | .fallThrough =>
        let r := setDevicesReschedule kubeClient rc
        let s := stampLoop kubeClient clock st.resourceUsed st.items
        let st := { st with
          claims := writeDevices st.claims i r.claim.Devices
          calls := st.calls ++ [{ target := rc, result := r }]
          items := s.items
          updates := st.updates ++ s.updates }
        match s.stop with
        | some out => (st, out)
        | none => claimLoop kubeClient clock rest st

/-- Result of the reclaim pass. -/
structure ReclaimPass where
  ret : Outcome
  state : ReclaimState
deriving DecidableEq, Repr

/-- `RescheduleNotification`. The reservation map is declared by
`var resourceUsed map[string]bool`, which is the nil map. -/
def RescheduleNotification (kubeClient : KubeClient) (clock : Clock) (_node : NodeInfo)
    (resourceClaims : List ResourceClaimInfo) : ReclaimPass :=
  match kubeClient.ListComposableResource with
  | .error err =>
    { ret := .returned (some (.wrap "failed to list ComposableResourceList: %v" err))
      state := { claims := resourceClaims, calls := [], resourceUsed := none
                 items := [], updates := [] } }
  | .ok items =>
    let sorted := sortByTime resourceClaims
    let r := claimLoop kubeClient clock (List.range sorted.length)
      { claims := sorted, calls := [], resourceUsed := none, items := items, updates := [] }
    { ret := r.2, state := r.1 }

/-! ## The node label synchronizer -/

/-- One entry of the device table of the configuration. -/
structure DeviceInfo where
  Index : Int
  CDIModelName : String
  K8sDeviceName : String
  CannotCoexistWith : List Int
deriving DecidableEq, Repr

/-- The configuration read by `GetConfigMapInfo`. -/
structure ComposableDRASpec where
  DeviceInfos : List DeviceInfo
  LabelPrefix : String
deriving DecidableEq, Repr

/-- A node object, with its name and labels. -/
structure Node where
  Name : String
  Labels : GoMap String
deriving DecidableEq, Repr

/-- The answers obtained through `clientSet`: the configuration that
`GetConfigMapInfo(ctx, clientSet)` returns (that function is not among the
sources; its result is taken as given), `Nodes().Get` by name, and the error
of `Nodes().Update` (`none` is nil). -/
structure Clientset where
  GetConfigMapInfo : Except Err ComposableDRASpec
  GetNode : String → Except Err Node
  UpdateNode : Node → Option Err

/-- `notIn`: the target is not an element of the slice. -/
def notIn {α : Type} [DecidableEq α] (target : α) (slice : List α) : Bool :=
  !slice.contains target

/-- Result of the label pass: the error returned and the node object handed
to `Nodes().Update`, if the pass got that far. -/
structure LabelPass where
  ret : Option Err
  updateNode : Option Node
deriving DecidableEq, Repr

/-- The models collected in `devices`: those of the requests of positive size,
then those of the `Online` live devices, each once. -/
def presentModels (requests : List ComposabilityRequest) (resources : List ComposableResource) :
    List String :=
  let devices := requests.foldl (fun devices cr =>
    if cr.Spec.Resource.Size > 0 then
      if notIn cr.Spec.Resource.Model devices then devices ++ [cr.Spec.Resource.Model]
      else devices
    else devices) []
  resources.foldl (fun devices rs =>
    if rs.Status.State = "Online" then
      if notIn rs.Spec.Model devices then devices ++ [rs.Spec.Model] else devices
    else devices) devices

/-- The indices collected in `notCoexistID`. -/
def notCoexistIDs (devices : List String) (deviceInfos : List DeviceInfo) : List Int :=
  devices.foldl (fun notCoexistID device =>
    deviceInfos.foldl (fun notCoexistID deviceInfo =>
      if device = deviceInfo.CDIModelName then notCoexistID ++ deviceInfo.CannotCoexistWith
      else notCoexistID) notCoexistID) []

/-- The slices `addLabels` and `deleteLabels`. -/
def splitLabels (spec : ComposableDRASpec) (notCoexistID : List Int) :
    List String × List String :=
  spec.DeviceInfos.foldl (fun acc deviceInfo =>
    if notIn deviceInfo.Index notCoexistID then
      (acc.1 ++ [spec.LabelPrefix ++ "/" ++ deviceInfo.K8sDeviceName], acc.2)
    else
      (acc.1, acc.2 ++ [spec.LabelPrefix ++ "/" ++ deviceInfo.K8sDeviceName])) ([], [])

/-- The label map after the two loops over `addLabels` and `deleteLabels`; the
map has been allocated, so the stores cannot panic. -/
def applyLabels (labels : List (String × String)) (addLabels deleteLabels : List String) :
    List (String × String) :=
  let labels := addLabels.foldl (fun m label => (label, "true") :: m) labels
  deleteLabels.foldl (fun m label => m.filter (fun kv => !(kv.1 == label))) labels

/-- `UpdateNodeLabel`. -/
def UpdateNodeLabel (kubeClient : KubeClient) (clientSet : Clientset) (nodeInfo : NodeInfo) :
    LabelPass :=
  match kubeClient.ListComposabilityRequest with
  | .error err =>
    { ret := some (.wrap "failed to list composabilityRequestList: %v" err), updateNode := none }
  | .ok requests =>
    match kubeClient.ListComposableResource with
    | .error err =>
      { ret := some (.wrap "failed to list ComposableResourceList: %v" err), updateNode := none }
    | .ok resources =>
      let devices := presentModels requests resources
      match clientSet.GetConfigMapInfo with
      | .error err => { ret := some err, updateNode := none }
      | .ok composableDRASpec =>
        let notCoexistID := notCoexistIDs devices composableDRASpec.DeviceInfos
        let labels := splitLabels composableDRASpec notCoexistID
        match clientSet.GetNode nodeInfo.Name with
        | .error err => { ret := some (.wrap "failed to get node: %v" err), updateNode := none }
        | .ok node =>
          let current := match node.Labels with
            | none => []
            | some kvs => kvs
          let updateNode : Node :=
            { node with Labels := some (applyLabels current labels.1 labels.2) }
          match clientSet.UpdateNode updateNode with
          | some err =>
            { ret := some (.wrap "failed to update node labels: %v" err)
              updateNode := some updateNode }
          | none => { ret := none, updateNode := some updateNode }

/-! ## Inputs of the scenarios -/

/-- A store in which every call succeeds: no request, no live device, no
resource slice, and a claim object without device status for every name. -/
def quietClient : KubeClient :=
  { ListComposabilityRequest := .ok []
    ListComposableResource := .ok []
    ListResourceSlice := .ok []
    Get := fun name ns => .ok { Name := name, Namespace := ns, Status := { Devices := [] } }
    Update := fun _ => none
    CountRead := none }

/-- A `Preparing` device of the given name and model, not used by a pod. -/
def preparingDevice (name model : String) : ResourceClaimDevice :=
  { Name := name, Model := model, State := "Preparing", UsedByPod := false }

/-- A claim on `node1` in namespace `default` holding one `Preparing` device
of model `A`. -/
def claimOfA (name : String) (created : Int) : ResourceClaimInfo :=
  { Name := name, NodeName := "node1", CreationTimestamp := created, Namespace := "default"
    Devices := [preparingDevice ("gpu-" ++ name) "A"] }

/-- The node of the capacity scenario: at most two devices of model `A`. -/
def nodeTwoA : NodeInfo :=
  { Name := "node1", Models := [{ Model := "A", MaxDevice := 2 }] }

/-- The three claims of the capacity scenario. -/
def threeClaimsOfA : List ResourceClaimInfo :=
  [claimOfA "c1" 1, claimOfA "c2" 2, claimOfA "c3" 3]

/-- A store whose `Get` of a claim object fails and which holds one pending
request, for three devices of model `A`; every other call succeeds. -/
def getFailsClient : KubeClient :=
  { quietClient with
    ListComposabilityRequest := .ok [{ Spec := { Resource := { Model := "A", Size := 3 } } }]
    Get := fun _ _ => .error (.external "connection refused") }

/-- A clock reading `now` whose parser knows one RFC3339 text, the instant 0. -/
def clockAt (now : Int) : Clock :=
  { now := now
    parse := fun s =>
      if s = "1970-01-01T00:00:00Z" then .ok 0 else .error (.external "cannot parse")
    format := fun _ => "1970-01-01T00:00:00Z" }

/-- A live device of model `A` for `gpu-c1`, not `Online`, with the given
annotation map. -/
def liveDevice (name : String) (annotations : GoMap String) : ComposableResource :=
  { Name := name, Annotations := annotations
    Spec := { Model := "A", TargetNode := "gpu-c1" }, Status := { State := "Attaching" } }

/-- A live device last released at the instant 0. -/
def releasedAtZero : ComposableResource :=
  liveDevice "res-0" (some [(lastUsedKey, "1970-01-01T00:00:00Z")])

/-- The coexistence policy in the words of the spec: "two models cannot
coexist if either's configured exclusion set contains the other's index". The
exclusion sets and indices of a model are those of the table entries that
carry its name. -/
def specCanCoexist (table : List DeviceInfo) (a b : String) : Bool :=
  !(table.any (fun ea => decide (ea.CDIModelName = a) &&
      table.any (fun eb => decide (eb.CDIModelName = b) &&
        (ea.CannotCoexistWith.contains eb.Index || eb.CannotCoexistWith.contains ea.Index))))

/-- A table of two models in which `A` excludes `B`. -/
def tableAB : List DeviceInfo :=
  [ { Index := 0, CDIModelName := "A", K8sDeviceName := "a", CannotCoexistWith := [1] },
    { Index := 1, CDIModelName := "B", K8sDeviceName := "b", CannotCoexistWith := [] } ]

/-- The last-release metadata of a live device cannot be read: the annotation
map is absent, or lacks the last-used key, or holds a text that the RFC3339
parser rejects. -/
def lastUsedUnreadable (clock : Clock) (resource : ComposableResource) : Bool :=
  match resource.Annotations with
  | none => true
  | some annotations =>
    match annotations.lookup lastUsedKey with
    | none => true
    | some s =>
      match clock.parse s with
      | .error _ => true
      | .ok _ => false

/-- The claim has a device in state `Preparing`. -/
def hasPreparing (rc : ResourceClaimInfo) : Bool :=
  rc.Devices.any (fun device => decide (device.State = "Preparing"))

/-- A claim on `node1` whose only device is already `Bound`. -/
def boundClaim (name : String) (created : Int) : ResourceClaimInfo :=
  { Name := name, NodeName := "node1", CreationTimestamp := created, Namespace := "default"
    Devices := [{ Name := "gpu-" ++ name, Model := "A", State := "Bound", UsedByPod := true }] }

/-- A store that lists two live devices, one without annotations and one
released at the instant 0; every call succeeds. -/
def inventoryClient : KubeClient :=
  { quietClient with
    ListComposableResource := .ok [liveDevice "res-nil" none, releasedAtZero]
    ListResourceSlice := .ok [{ Spec := { Devices := [{ Name := "gpu-c1" }] } }]
    Get := fun name ns => .ok
      { Name := name, Namespace := ns
        Status := { Devices := [{ Device := "gpu-" ++ name, Conditions := [] }] } } }

/-- A model is present: some request of positive size asks for it, or some
live device of it is `Online`. -/
def modelPresent (requests : List ComposabilityRequest) (resources : List ComposableResource)
    (model : String) : Bool :=
  requests.any (fun cr =>
      decide (cr.Spec.Resource.Size > 0) && decide (cr.Spec.Resource.Model = model)) ||
    resources.any (fun rs => decide (rs.Status.State = "Online") && decide (rs.Spec.Model = model))

/-- An index is suppressed: it lies in `CannotCoexistWith` of a table entry
whose model name is present. -/
def indexSuppressed (requests : List ComposabilityRequest) (resources : List ComposableResource)
    (deviceInfos : List DeviceInfo) (index : Int) : Bool :=
  deviceInfos.any (fun e =>
    modelPresent requests resources e.CDIModelName && e.CannotCoexistWith.contains index)

/-- The label of a table entry, `LabelPrefix + "/" + K8sDeviceName`. -/
def labelOf (spec : ComposableDRASpec) (e : DeviceInfo) : String :=
  spec.LabelPrefix ++ "/" ++ e.K8sDeviceName

/-- A store with one pending request, for one device of model `A`, and no live
device. -/
def requestAClient : KubeClient :=
  { quietClient with
    ListComposabilityRequest := .ok [{ Spec := { Resource := { Model := "A", Size := 1 } } }] }

/-- The configuration of the label scenario: the table `tableAB` under the
label stem `composable.test`. -/
def specAB : ComposableDRASpec :=
  { DeviceInfos := tableAB, LabelPrefix := "composable.test" }

/-- A clientset that serves `specAB` and a node carrying the label of `B` and
an unrelated label, and accepts every update. -/
def clientsetAB : Clientset :=
  { GetConfigMapInfo := .ok specAB
    GetNode := fun name => .ok
      { Name := name, Labels := some [("composable.test/b", "true"), ("zone", "z1")] }
    UpdateNode := fun _ => none }

/-- A store whose three listings fail; the other calls succeed. -/
def listFailsClient : KubeClient :=
  { quietClient with
    ListComposabilityRequest := .error (.external "requests unavailable")
    ListComposableResource := .error (.external "resources unavailable")
    ListResourceSlice := .error (.external "slices unavailable") }

/-- The selection of the first pass in the words of the claim: the claim has a
device `d` in state `Preparing` such that some pending request has the model
of `d` and a requested size greater than `MaxDevice` of some node model
constraint for that model. -/
def capacityVetoed (node : NodeInfo) (requests : List ComposabilityRequest)
    (rc : ResourceClaimInfo) : Bool :=
  rc.Devices.any (fun d =>
    decide (d.State = "Preparing") &&
      requests.any (fun request =>
        decide (request.Spec.Resource.Model = d.Model) &&
          node.Models.any (fun modelConstraint =>
            decide (modelConstraint.Model = d.Model) &&
              decide (request.Spec.Resource.Size > modelConstraint.MaxDevice))))

/-- A device state moves forward only: a state other than `Preparing` is kept,
and `Preparing` is kept or becomes `target`. -/
def deviceForward (target : String) (before after : ResourceClaimDevice) : Prop :=
  (before.State ≠ "Preparing" → after.State = before.State) ∧
    (before.State = "Preparing" → after.State = "Preparing" ∨ after.State = target)

/-- A claim after a pass against the same claim before it: same name and
namespace, and device by device the state has moved forward only. -/
def claimForward (target : String) (before after : ResourceClaimInfo) : Prop :=
  before.Name = after.Name ∧ before.Namespace = after.Namespace ∧
    List.Forall₂ (deviceForward target) before.Devices after.Devices

/-- Thirteen claims, one more than the sort handles by insertion alone,
created at three instants in turn. -/
def thirteenClaims : List ResourceClaimInfo :=
  [ claimOfA "k0" 0,
    claimOfA "k1" 1,
    claimOfA "k2" 2,
    claimOfA "k3" 0,
    claimOfA "k4" 1,
    claimOfA "k5" 2,
    claimOfA "k6" 0,
    claimOfA "k7" 1,
    claimOfA "k8" 2,
    claimOfA "k9" 0,
    claimOfA "k10" 1,
    claimOfA "k11" 2,
    claimOfA "k12" 0 ]

/-! ## Notions for the proof of the sort -/

/-- The slice `d2` comes from `d` by swaps of places in `[a, b)`. -/
inductive SwapsIn {α : Type} (a b : Nat) : List α → List α → Prop where
  | refl (d : List α) : SwapsIn a b d d
  | step {d d2 : List α} (i j : Nat) : SwapsIn a b d d2 → a ≤ i → i < b → a ≤ j → j < b →
      SwapsIn a b d (swapAt d2 i j)

/-- The rank of the element at place `i`, 0 outside the slice. -/
def rankAt {α : Type} (rank : α → Int) (d : List α) (i : Nat) : Int :=
  match d[i]? with
  | some x => rank x
  | none => 0

/-- The places `[a, b)` of the slice are in non-decreasing rank. -/
def SortedIn {α : Type} (rank : α → Int) (d : List α) (a b : Nat) : Prop :=
  ∀ i j, a ≤ i → i < j → j < b → rankAt rank d i ≤ rankAt rank d j

/-- Nothing in `[a, b)` ranks below the element just before `a`, if there is
one. -/
def LowerBounded {α : Type} (rank : α → Int) (d : List α) (a b : Nat) : Prop :=
  a = 0 ∨ ∀ k, a ≤ k → k < b → rankAt rank d (a - 1) ≤ rankAt rank d k

/-- The heap kept at `first`, of size `hi`: from the node `lo` on, no child
ranks above its parent. -/
def HeapFrom {α : Type} (rank : α → Int) (d : List α) (first lo hi : Nat) : Prop :=
  ∀ r c, lo ≤ r → (c = 2 * r + 1 ∨ c = 2 * r + 2) → c < hi →
    rankAt rank d (first + c) ≤ rankAt rank d (first + r)

/-! ## Basic facts -/

theorem rangeByValue_fold {α : Type} (body : α → α) (xs : List α) (st : List α × List α) :
    xs.foldl (fun st x => (st.1, st.2 ++ [body x])) st = (st.1, st.2 ++ xs.map body) := by
  induction xs generalizing st with
  | nil => simp
  | cons x xs ih => simp [ih]

theorem rangeByValue_fst {α : Type} (xs : List α) (body : α → α) :
    (rangeByValue xs body).1 = xs := by
  simp [rangeByValue, rangeByValue_fold]

theorem rangeByValue_snd {α : Type} (xs : List α) (body : α → α) :
    (rangeByValue xs body).2 = xs.map body := by
  simp [rangeByValue, rangeByValue_fold]

theorem setDevices_claim (newState conditionType : String) (kubeClient : KubeClient)
    (rc : ResourceClaimInfo) : (setDevices newState conditionType kubeClient rc).claim = rc := by
  unfold setDevices
  simp only [rangeByValue_fst]
  split <;> rfl

theorem setDevicesFailed_claim (kubeClient : KubeClient) (rc : ResourceClaimInfo) :
    (setDevicesFailed kubeClient rc).claim = rc :=
  setDevices_claim _ _ _ _

theorem setDevicesReschedule_claim (kubeClient : KubeClient) (rc : ResourceClaimInfo) :
    (setDevicesReschedule kubeClient rc).claim = rc :=
  setDevices_claim _ _ _ _

theorem set_of_getElem? {α : Type} (xs : List α) (i : Nat) (x : α) (h : xs[i]? = some x) :
    xs.set i x = xs := by
  induction xs generalizing i with
  | nil => simp
  | cons y ys ih =>
    cases i with
    | zero => simp at h; simp [h]
    | succ n => simp at h; simp [ih n h]

theorem writeDevices_self (claims : List ResourceClaimInfo) (i : Nat) (rc : ResourceClaimInfo)
    (h : claims[i]? = some rc) : writeDevices claims i rc.Devices = claims := by
  unfold writeDevices
  rw [h]
  exact set_of_getElem? claims i rc h

theorem failClaim_claims (kubeClient : KubeClient) (st : FailedState) (i : Nat)
    (rc : ResourceClaimInfo) (h : st.claims[i]? = some rc) :
    (failClaim kubeClient st i rc).claims = st.claims := by
  simp [failClaim, setDevicesFailed_claim, writeDevices_self _ _ _ h]

theorem foldl_claims_invariant {β : Type} (f : FailedState → β → FailedState)
    (hf : ∀ st b, (f st b).claims = st.claims) (xs : List β) (st : FailedState) :
    (xs.foldl f st).claims = st.claims := by
  induction xs generalizing st with
  | nil => rfl
  | cons x xs ih => simp [List.foldl_cons, ih, hf]

theorem vetoLoop_claims (kubeClient : KubeClient) (node : NodeInfo)
    (requests : List ComposabilityRequest) (st : FailedState) :
    (vetoLoop kubeClient node requests st).claims = st.claims := by
  unfold vetoLoop
  apply foldl_claims_invariant
  intro st i
  split
  · rfl
  · next rc h =>
    split
    · exact failClaim_claims _ _ _ _ h
    · rfl

theorem ceilingLoop_claims (kubeClient : KubeClient) (model : String) (st : FailedState) :
    (ceilingLoop kubeClient model st).claims = st.claims := by
  unfold ceilingLoop
  apply foldl_claims_invariant
  intro st i
  split
  · rfl
  · next rc _ =>
    apply foldl_claims_invariant
    intro st device
    split
    · split
      · rfl
      · next cur h => exact failClaim_claims _ _ _ _ h
    · rfl

/-- The failure pass stores to no claim: when the listing of the requests
succeeds, the slice it leaves is the sorted input. -/
theorem RescheduleFailedNotification_claims (kubeClient : KubeClient) (node : NodeInfo)
    (resourceClaims : List ResourceClaimInfo) (requests : List ComposabilityRequest)
    (h : kubeClient.ListComposabilityRequest = .ok requests) :
    (RescheduleFailedNotification kubeClient node resourceClaims).claims =
      sortByTime resourceClaims := by
  unfold RescheduleFailedNotification
  rw [h]
  simp only
  split
  · simp [vetoLoop_claims]
  · simp only
    rw [foldl_claims_invariant, vetoLoop_claims]
    intro st info
    apply foldl_claims_invariant
    intro st mc
    split
    · split
      · exact ceilingLoop_claims _ _ _
      · rfl
    · rfl

/-! ## Sorting by creation time -/

theorem swapAt_length {α : Type} (d : List α) (i j : Nat) :
    (swapAt d i j).length = d.length := by
  unfold swapAt
  split <;> simp

theorem getElem?_swapAt {α : Type} (d : List α) (i j k : Nat) (hi : i < d.length)
    (hj : j < d.length) :
    (swapAt d i j)[k]? = if k = j then d[i]? else if k = i then d[j]? else d[k]? := by
  unfold swapAt
  rw [List.getElem?_eq_getElem hi, List.getElem?_eq_getElem hj]
  simp only [List.getElem?_set, List.length_set]
  by_cases hkj : k = j
  · subst hkj
    simp [hj]
  · by_cases hki : k = i
    · subst hki
      simp [hi, hkj, Ne.symm hkj]
    · simp [hkj, hki, Ne.symm hkj, Ne.symm hki]

theorem getElem?_swapAt_of_ne {α : Type} (d : List α) (i j k : Nat) (hi : k ≠ i) (hj : k ≠ j) :
    (swapAt d i j)[k]? = d[k]? := by
  unfold swapAt
  split
  · simp [List.getElem?_set, Ne.symm hi, Ne.symm hj]
  · rfl

theorem rankAt_swapAt {α : Type} (rank : α → Int) (d : List α) (i j k : Nat)
    (hi : i < d.length) (hj : j < d.length) :
    rankAt rank (swapAt d i j) k =
      if k = j then rankAt rank d i else if k = i then rankAt rank d j else rankAt rank d k := by
  unfold rankAt
  rw [getElem?_swapAt d i j k hi hj]
  by_cases h1 : k = j
  · simp [h1]
  · by_cases h2 : k = i
    · subst h2
      simp [h1]
    · simp [h1, h2]

theorem rankAt_swapAt_of_ne {α : Type} (rank : α → Int) (d : List α) (i j k : Nat)
    (hi : k ≠ i) (hj : k ≠ j) : rankAt rank (swapAt d i j) k = rankAt rank d k := by
  unfold rankAt
  rw [getElem?_swapAt_of_ne d i j k hi hj]

theorem lessAt_eq {α : Type} (less : α → α → Bool) (rank : α → Int)
    (hless : ∀ x y, less x y = decide (rank x < rank y)) (d : List α) (i j : Nat)
    (hi : i < d.length) (hj : j < d.length) :
    lessAt less d i j = decide (rankAt rank d i < rankAt rank d j) := by
  unfold lessAt rankAt
  rw [List.getElem?_eq_getElem hi, List.getElem?_eq_getElem hj]
  exact hless _ _

theorem cons_set_perm {α : Type} (t : List α) (j : Nat) (y h : α) (hy : t[j]? = some y) :
    (y :: t.set j h).Perm (h :: t) := by
  induction t generalizing j with
  | nil => simp at hy
  | cons z t ih =>
    cases j with
    | zero =>
      simp only [List.getElem?_cons_zero, Option.some.injEq] at hy
      subst hy
      simp only [List.set_cons_zero]
      exact List.Perm.swap _ _ _
    | succ j =>
      simp only [List.getElem?_cons_succ] at hy
      simp only [List.set_cons_succ]
      exact ((List.Perm.swap z y _).trans (List.Perm.cons z (ih j hy))).trans
        (List.Perm.swap h z t)

theorem set_set_perm_of_getElem? {α : Type} (d : List α) (i j : Nat) (x y : α)
    (hx : d[i]? = some x) (hy : d[j]? = some y) : ((d.set i y).set j x).Perm d := by
  induction d generalizing i j with
  | nil => simp at hx
  | cons h t ih =>
    cases i with
    | zero =>
      simp only [List.getElem?_cons_zero, Option.some.injEq] at hx
      subst hx
      cases j with
      | zero =>
        simp only [List.getElem?_cons_zero, Option.some.injEq] at hy
        subst hy
        simp
      | succ j =>
        simp only [List.getElem?_cons_succ] at hy
        simp only [List.set_cons_zero, List.set_cons_succ]
        exact cons_set_perm t j y h hy
    | succ i =>
      simp only [List.getElem?_cons_succ] at hx
      cases j with
      | zero =>
        simp only [List.getElem?_cons_zero, Option.some.injEq] at hy
        subst hy
        simp only [List.set_cons_zero, List.set_cons_succ]
        exact cons_set_perm t i x h hx
      | succ j =>
        simp only [List.getElem?_cons_succ] at hy
        simp only [List.set_cons_succ]
        exact List.Perm.cons h (ih i j hx hy)

theorem swapAt_perm {α : Type} (d : List α) (i j : Nat) : (swapAt d i j).Perm d := by
  unfold swapAt
  split
  · next x y hx hy => exact set_set_perm_of_getElem? d i j x y hx hy
  · exact List.Perm.refl _

theorem SwapsIn.length_eq {α : Type} {a b : Nat} {d d2 : List α} (h : SwapsIn a b d d2) :
    d2.length = d.length := by
  induction h with
  | refl => rfl
  | step i j _ _ _ _ _ ih => rw [swapAt_length, ih]

theorem SwapsIn.perm {α : Type} {a b : Nat} {d d2 : List α} (h : SwapsIn a b d d2) :
    d2.Perm d := by
  induction h with
  | refl => exact List.Perm.refl _
  | step i j _ _ _ _ _ ih => exact (swapAt_perm _ i j).trans ih

theorem SwapsIn.trans {α : Type} {a b : Nat} {d d2 d3 : List α} (h1 : SwapsIn a b d d2)
    (h2 : SwapsIn a b d2 d3) : SwapsIn a b d d3 := by
  induction h2 with
  | refl => exact h1
  | step i j _ hai hib haj hjb ih => exact SwapsIn.step i j ih hai hib haj hjb

theorem SwapsIn.mono {α : Type} {a b a2 b2 : Nat} {d d2 : List α} (h : SwapsIn a b d d2)
    (ha : a2 ≤ a) (hb : b ≤ b2) : SwapsIn a2 b2 d d2 := by
  induction h with
  | refl => exact SwapsIn.refl _
  | step i j _ hai hib haj hjb ih =>
    exact SwapsIn.step i j ih (by omega) (by omega) (by omega) (by omega)

theorem SwapsIn.one {α : Type} (a b : Nat) (d : List α) (i j : Nat) (hai : a ≤ i) (hib : i < b)
    (haj : a ≤ j) (hjb : j < b) : SwapsIn a b d (swapAt d i j) :=
  SwapsIn.step i j (SwapsIn.refl d) hai hib haj hjb

theorem SwapsIn.rankAt_outside {α : Type} (rank : α → Int) {a b : Nat} {d d2 : List α}
    (h : SwapsIn a b d d2) (k : Nat) (hk : k < a ∨ b ≤ k) :
    rankAt rank d2 k = rankAt rank d k := by
  induction h with
  | refl => rfl
  | step i j _ hai hib haj hjb ih =>
    rw [rankAt_swapAt_of_ne rank _ i j k (by omega) (by omega), ih]

theorem SwapsIn.rankAt_inside {α : Type} (rank : α → Int) {a b : Nat} {d d2 : List α}
    (h : SwapsIn a b d d2) (hb : b ≤ d.length) (P : Int → Prop)
    (hP : ∀ k, a ≤ k → k < b → P (rankAt rank d k)) :
    ∀ k, a ≤ k → k < b → P (rankAt rank d2 k) := by
  induction h with
  | refl => exact hP
  | step i j hs hai hib haj hjb ih =>
    intro k hak hkb
    have hlen := hs.length_eq
    rw [rankAt_swapAt rank _ i j k (by omega) (by omega)]
    split
    · exact ih i hai hib
    · split
      · exact ih j haj hjb
      · exact ih k hak hkb

theorem LowerBounded.of_swaps {α : Type} (rank : α → Int) {a b : Nat} {d d2 : List α}
    (h : LowerBounded rank d a b) (hs : SwapsIn a b d d2) (hb : b ≤ d.length) :
    LowerBounded rank d2 a b := by
  rcases h with h | h
  · exact Or.inl h
  · by_cases ha : a = 0
    · exact Or.inl ha
    · right
      rw [hs.rankAt_outside rank (a - 1) (by omega)]
      exact hs.rankAt_inside rank hb (fun r => rankAt rank d (a - 1) ≤ r) h

theorem rankAt_swapAt_left {α : Type} (rank : α → Int) (d : List α) (i j : Nat)
    (hi : i < d.length) (hj : j < d.length) :
    rankAt rank (swapAt d i j) i = rankAt rank d j := by
  rw [rankAt_swapAt rank d i j i hi hj]
  by_cases h : i = j
  · simp [h]
  · simp [h]

theorem rankAt_swapAt_right {α : Type} (rank : α → Int) (d : List α) (i j : Nat)
    (hi : i < d.length) (hj : j < d.length) :
    rankAt rank (swapAt d i j) j = rankAt rank d i := by
  rw [rankAt_swapAt rank d i j j hi hj]
  simp

theorem SortedIn.of_adjacent {α : Type} (rank : α → Int) (d : List α) (a b : Nat)
    (h : ∀ k, a ≤ k → k + 1 < b → rankAt rank d k ≤ rankAt rank d (k + 1)) :
    SortedIn rank d a b := by
  intro i j hai hij hjb
  induction j with
  | zero => omega
  | succ j ih =>
    by_cases hj : i = j
    · subst hj
      exact h i hai hjb
    · have h1 := ih (by omega) (by omega)
      have h2 := h j (by omega) hjb
      omega

theorem insertionShift_spec {α : Type} (less : α → α → Bool) (rank : α → Int)
    (hless : ∀ x y, less x y = decide (rank x < rank y)) (a i : Nat) :
    ∀ (j : Nat) (d : List α), a ≤ j → j ≤ i → i < d.length →
      SortedIn rank d a j → SortedIn rank d j (i + 1) →
      (∀ p q, a ≤ p → p < j → j < q → q ≤ i → rankAt rank d p ≤ rankAt rank d q) →
      SwapsIn a (i + 1) d (insertionShift less a j d) ∧
        SortedIn rank (insertionShift less a j d) a (i + 1) := by
  intro j
  induction j with
  | zero =>
    intro d ha _ _ _ h2 _
    have : a = 0 := by omega
    subst this
    exact ⟨SwapsIn.refl d, h2⟩
  | succ j ih =>
    intro d ha hji hlen h1 h2 h3
    unfold insertionShift
    rw [lessAt_eq less rank hless d (j + 1) j (by omega) (by omega)]
    by_cases hc : j + 1 > a ∧ rankAt rank d (j + 1) < rankAt rank d j
    · have hcond : (decide (j + 1 > a) && decide (rankAt rank d (j + 1) < rankAt rank d j))
          = true := by simp [hc.1, hc.2]
      rw [if_pos hcond]
      have hrj : rankAt rank (swapAt d (j + 1) j) j = rankAt rank d (j + 1) :=
        rankAt_swapAt_right rank d (j + 1) j (by omega) (by omega)
      have hrj1 : rankAt rank (swapAt d (j + 1) j) (j + 1) = rankAt rank d j :=
        rankAt_swapAt_left rank d (j + 1) j (by omega) (by omega)
      have hro : ∀ k, k ≠ j + 1 → k ≠ j →
          rankAt rank (swapAt d (j + 1) j) k = rankAt rank d k :=
        fun k h1 h2 => rankAt_swapAt_of_ne rank d (j + 1) j k h1 h2
      have hih := ih (swapAt d (j + 1) j) (by omega) (by omega)
        (by rw [swapAt_length]; exact hlen)
        (by
          intro p q hp hpq hq
          rw [hro p (by omega) (by omega), hro q (by omega) (by omega)]
          exact h1 p q hp hpq (by omega))
        (by
          intro p q hp hpq hq
          by_cases hpj : p = j
          · subst hpj
            rw [hrj]
            by_cases hqj : q = p + 1
            · subst hqj
              rw [hrj1]
              omega
            · rw [hro q (by omega) (by omega)]
              exact h2 (p + 1) q (by omega) (by omega) hq
          · by_cases hpj1 : p = j + 1
            · subst hpj1
              rw [hrj1, hro q (by omega) (by omega)]
              exact h3 j q (by omega) (by omega) (by omega) (by omega)
            · rw [hro p (by omega) (by omega), hro q (by omega) (by omega)]
              exact h2 p q (by omega) hpq hq)
        (by
          intro p q hp hpj hjq hq
          rw [hro p (by omega) (by omega)]
          by_cases hqj : q = j + 1
          · subst hqj
            rw [hrj1]
            exact h1 p j hp hpj (by omega)
          · rw [hro q (by omega) (by omega)]
            exact h3 p q hp (by omega) (by omega) hq)
      exact ⟨(SwapsIn.one a (i + 1) d (j + 1) j (by omega) (by omega) (by omega)
        (by omega)).trans hih.1, hih.2⟩
    · have hcond : ¬ (decide (j + 1 > a) && decide (rankAt rank d (j + 1) < rankAt rank d j))
          = true := by
        simp only [Bool.and_eq_true, decide_eq_true_eq]
        exact hc
      rw [if_neg hcond]
      refine ⟨SwapsIn.refl d, ?_⟩
      intro p q hp hpq hq
      by_cases hq1 : q < j + 1
      · exact h1 p q hp hpq hq1
      · by_cases hp1 : j + 1 ≤ p
        · exact h2 p q hp1 hpq hq
        · by_cases hq2 : q = j + 1
          · subst hq2
            have hja : j + 1 > a := by omega
            have hle : rankAt rank d j ≤ rankAt rank d (j + 1) := by
              by_contra hcon
              exact hc ⟨hja, by omega⟩
            by_cases hpj : p = j
            · subst hpj
              exact hle
            · have := h1 p j hp (by omega) (by omega)
              omega
          · exact h3 p q hp (by omega) (by omega) (by omega)

theorem insertionSortFunc_spec {α : Type} (less : α → α → Bool) (rank : α → Int)
    (hless : ∀ x y, less x y = decide (rank x < rank y)) (d : List α) (a b : Nat)
    (hb : b ≤ d.length) :
    SwapsIn a b d (insertionSortFunc less d a b) ∧
      SortedIn rank (insertionSortFunc less d a b) a b := by
  unfold insertionSortFunc
  have key : ∀ (n : Nat) (d : List α) (i : Nat), a + 1 ≤ i → i + n ≤ b ∨ n = 0 → b ≤ d.length →
      SortedIn rank d a i →
      SwapsIn a (max i (i + n)) d
          ((List.range' i n).foldl (fun d i => insertionShift less a i d) d) ∧
        SortedIn rank ((List.range' i n).foldl (fun d i => insertionShift less a i d) d)
          a (i + n) := by
    intro n
    induction n with
    | zero =>
      intro d i _ _ _ hs
      exact ⟨SwapsIn.refl d, hs⟩
    | succ n ih =>
      intro d i hai hin hlen hs
      simp only [List.range'_succ, List.foldl_cons]
      have h1 := insertionShift_spec less rank hless a i i d (by omega) (le_refl i) (by omega)
        hs (by intro p q hp hpq hq; omega) (by intro p q _ hp hq hqi; omega)
      have h2 := ih (insertionShift less a i d) (i + 1) (by omega) (by omega)
        (by rw [h1.1.length_eq]; exact hlen) h1.2
      refine ⟨(h1.1.mono (le_refl a) (by omega)).trans (h2.1.mono (le_refl a) (by omega)), ?_⟩
      have : i + 1 + n = i + (n + 1) := by omega
      rw [← this]
      exact h2.2
  by_cases hab : a + 1 ≤ b
  · have h := key (b - (a + 1)) d (a + 1) (le_refl _) (by omega) hb
      (by intro p q hp hpq hq; omega)
    have e : a + 1 + (b - (a + 1)) = b := by omega
    rw [e] at h
    exact ⟨h.1.mono (le_refl a) (by omega), h.2⟩
  · have e : b - (a + 1) = 0 := by omega
    rw [e]
    exact ⟨SwapsIn.refl d, by intro p q hp hpq hq; omega⟩

theorem scanUp_spec (p : Nat → Bool) (j : Nat) :
    ∀ (fuel i : Nat), j + 1 - i ≤ fuel →
      i ≤ scanUp p j fuel i ∧ (scanUp p j fuel i ≤ j + 1 ∨ scanUp p j fuel i = i) ∧
        (∀ k, i ≤ k → k < scanUp p j fuel i → p k = true) ∧
        (scanUp p j fuel i ≤ j → p (scanUp p j fuel i) = false) := by
  intro fuel
  induction fuel with
  | zero =>
    intro i h
    simp only [scanUp]
    exact ⟨le_refl i, Or.inr trivial, by intro k h1 h2; omega, by intro h2; omega⟩
  | succ fuel ih =>
    intro i h
    simp only [scanUp]
    by_cases hc : i ≤ j ∧ p i = true
    · have hcond : (decide (i ≤ j) && p i) = true := by simp [hc.1, hc.2]
      rw [if_pos hcond]
      obtain ⟨h1, h2, h3, h4⟩ := ih (i + 1) (by omega)
      refine ⟨by omega, ?_, ?_, h4⟩
      · rcases h2 with h2 | h2
        · exact Or.inl h2
        · left
          omega
      · intro k hk1 hk2
        by_cases hki : k = i
        · subst hki
          exact hc.2
        · exact h3 k (by omega) hk2
    · have hcond : ¬ (decide (i ≤ j) && p i) = true := by
        simp only [Bool.and_eq_true, decide_eq_true_eq]
        exact hc
      rw [if_neg hcond]
      refine ⟨le_refl i, Or.inr rfl, by intro k h1 h2; omega, ?_⟩
      intro hij
      by_contra hp
      exact hc ⟨hij, by simpa using hp⟩

theorem scanDown_spec (p : Nat → Bool) (i : Nat) (hi : 1 ≤ i) :
    ∀ (j : Nat), scanDown p i j ≤ j ∧ (i ≤ scanDown p i j + 1 ∨ scanDown p i j = j) ∧
      (∀ k, scanDown p i j < k → k ≤ j → p k = true) ∧
      (i ≤ scanDown p i j → p (scanDown p i j) = false) := by
  intro j
  induction j with
  | zero =>
    simp only [scanDown]
    exact ⟨le_refl 0, Or.inr trivial, by intro k h1 h2; omega, by intro h; omega⟩
  | succ j ih =>
    simp only [scanDown]
    by_cases hc : i ≤ j + 1 ∧ p (j + 1) = true
    · have hcond : (decide (i ≤ j + 1) && p (j + 1)) = true := by simp [hc.1, hc.2]
      rw [if_pos hcond]
      obtain ⟨h1, h2, h3, h4⟩ := ih
      refine ⟨by omega, ?_, ?_, h4⟩
      · rcases h2 with h2 | h2
        · exact Or.inl h2
        · left
          omega
      · intro k hk1 hk2
        by_cases hkj : k = j + 1
        · subst hkj
          exact hc.2
        · exact h3 k hk1 (by omega)
    · have hcond : ¬ (decide (i ≤ j + 1) && p (j + 1)) = true := by
        simp only [Bool.and_eq_true, decide_eq_true_eq]
        exact hc
      rw [if_neg hcond]
      refine ⟨le_refl _, Or.inr rfl, by intro k h1 h2; omega, ?_⟩
      intro hij
      by_contra hp
      exact hc ⟨hij, by simpa using hp⟩

theorem partitionLoop_spec {α : Type} (less : α → α → Bool) (rank : α → Int)
    (hless : ∀ x y, less x y = decide (rank x < rank y)) (a b : Nat) :
    ∀ (fuel : Nat) (d : List α) (i j : Nat), a + 1 ≤ i → j < b → b ≤ d.length → i ≤ j + 1 →
      j + 1 - i ≤ fuel →
      (∀ k, a + 1 ≤ k → k < i → rankAt rank d k < rankAt rank d a) →
      (∀ k, j < k → k < b → rankAt rank d a ≤ rankAt rank d k) →
      SwapsIn (a + 1) b d (partitionLoop less a fuel d i j).1 ∧
        a ≤ (partitionLoop less a fuel d i j).2 ∧ (partitionLoop less a fuel d i j).2 < b ∧
        (∀ k, a + 1 ≤ k → k ≤ (partitionLoop less a fuel d i j).2 →
          rankAt rank (partitionLoop less a fuel d i j).1 k <
            rankAt rank (partitionLoop less a fuel d i j).1 a) ∧
        (∀ k, (partitionLoop less a fuel d i j).2 < k → k < b →
          rankAt rank (partitionLoop less a fuel d i j).1 a ≤
            rankAt rank (partitionLoop less a fuel d i j).1 k) := by
  intro fuel
  induction fuel with
  | zero =>
    intro d i j hai hjb hlen hij hfuel hlo hhi
    simp only [partitionLoop]
    exact ⟨SwapsIn.refl d, by omega, hjb, fun k h1 h2 => hlo k h1 (by omega), hhi⟩
  | succ fuel ih =>
    intro d i j hai hjb hlen hij hfuel hlo hhi
    simp only [partitionLoop]
    obtain ⟨u1, u2, u3, u4⟩ := scanUp_spec (fun i => lessAt less d i a) j (j + 1 - i) i
      (le_refl _)
    generalize scanUp (fun i => lessAt less d i a) j (j + 1 - i) i = i2 at u1 u2 u3 u4 ⊢
    have hi2 : i2 ≤ j + 1 := by omega
    obtain ⟨v1, v2, v3, v4⟩ := scanDown_spec (fun j => !lessAt less d j a) i2 (by omega) j
    generalize scanDown (fun j => !lessAt less d j a) i2 j = j2 at v1 v2 v3 v4 ⊢
    have hup : ∀ k, a + 1 ≤ k → k < i2 → rankAt rank d k < rankAt rank d a := by
      intro k h1 h2
      by_cases hk : k < i
      · exact hlo k h1 hk
      · have := u3 k (by omega) h2
        rw [lessAt_eq less rank hless d k a (by omega) (by omega)] at this
        simpa using this
    have hdown : ∀ k, j2 < k → k < b → rankAt rank d a ≤ rankAt rank d k := by
      intro k h1 h2
      by_cases hk : j < k
      · exact hhi k hk h2
      · have := v3 k h1 (by omega)
        rw [lessAt_eq less rank hless d k a (by omega) (by omega)] at this
        simp only [Bool.not_eq_true', decide_eq_false_iff_not, not_lt] at this
        exact this
    by_cases hc : i2 > j2
    · rw [if_pos hc]
      exact ⟨SwapsIn.refl d, by omega, by omega, fun k h1 h2 => hup k h1 (by omega),
        fun k h1 h2 => hdown k h1 h2⟩
    · rw [if_neg hc]
      have hi2v : rankAt rank d a ≤ rankAt rank d i2 := by
        have := u4 (by omega)
        rw [lessAt_eq less rank hless d i2 a (by omega) (by omega)] at this
        simpa using this
      have hj2v : rankAt rank d j2 < rankAt rank d a := by
        have := v4 (by omega)
        rw [lessAt_eq less rank hless d j2 a (by omega) (by omega)] at this
        simpa using this
      have hne : i2 < j2 := by
        by_contra hcon
        have : i2 = j2 := by omega
        subst this
        omega
      have hsw_i : rankAt rank (swapAt d i2 j2) i2 = rankAt rank d j2 :=
        rankAt_swapAt_left rank d i2 j2 (by omega) (by omega)
      have hsw_j : rankAt rank (swapAt d i2 j2) j2 = rankAt rank d i2 :=
        rankAt_swapAt_right rank d i2 j2 (by omega) (by omega)
      have hsw_o : ∀ k, k ≠ i2 → k ≠ j2 → rankAt rank (swapAt d i2 j2) k = rankAt rank d k :=
        fun k h1 h2 => rankAt_swapAt_of_ne rank d i2 j2 k h1 h2
      have hih := ih (swapAt d i2 j2) (i2 + 1) (j2 - 1) (by omega) (by omega)
        (by rw [swapAt_length]; exact hlen) (by omega) (by omega)
        (by
          intro k h1 h2
          rw [hsw_o a (by omega) (by omega)]
          by_cases hk : k = i2
          · subst hk
            rw [hsw_i]
            exact hj2v
          · rw [hsw_o k hk (by omega)]
            exact hup k h1 (by omega))
        (by
          intro k h1 h2
          rw [hsw_o a (by omega) (by omega)]
          by_cases hk : k = j2
          · subst hk
            rw [hsw_j]
            exact hi2v
          · rw [hsw_o k (by omega) hk]
            exact hdown k (by omega) h2)
      exact ⟨(SwapsIn.one (a + 1) b d i2 j2 (by omega) (by omega) (by omega)
        (by omega)).trans hih.1, hih.2⟩

theorem partitionFunc_eq {α : Type} (less : α → α → Bool) (d : List α) (a b pivot : Nat) :
    (partitionFunc less d a b pivot).1 =
        swapAt (partitionLoop less a (b - a + 1) (swapAt d a pivot) (a + 1) (b - 1)).1
          (partitionLoop less a (b - a + 1) (swapAt d a pivot) (a + 1) (b - 1)).2 a ∧
      (partitionFunc less d a b pivot).2.1 =
        (partitionLoop less a (b - a + 1) (swapAt d a pivot) (a + 1) (b - 1)).2 := by
  simp only [partitionFunc, partitionLoop]
  split <;> exact ⟨rfl, rfl⟩

theorem partitionFunc_spec {α : Type} (less : α → α → Bool) (rank : α → Int)
    (hless : ∀ x y, less x y = decide (rank x < rank y)) (d : List α) (a b pivot : Nat)
    (hap : a ≤ pivot) (hpb : pivot < b) (hlen : b ≤ d.length) :
    SwapsIn a b d (partitionFunc less d a b pivot).1 ∧
      a ≤ (partitionFunc less d a b pivot).2.1 ∧ (partitionFunc less d a b pivot).2.1 < b ∧
      (∀ k, a ≤ k → k < (partitionFunc less d a b pivot).2.1 →
        rankAt rank (partitionFunc less d a b pivot).1 k <
          rankAt rank (partitionFunc less d a b pivot).1 (partitionFunc less d a b pivot).2.1) ∧
      (∀ k, (partitionFunc less d a b pivot).2.1 < k → k < b →
        rankAt rank (partitionFunc less d a b pivot).1 (partitionFunc less d a b pivot).2.1 ≤
          rankAt rank (partitionFunc less d a b pivot).1 k) := by
  obtain ⟨e1, e2⟩ := partitionFunc_eq less d a b pivot
  rw [e1, e2]
  have hlen1 : b ≤ (swapAt d a pivot).length := by rw [swapAt_length]; exact hlen
  obtain ⟨s1, s2, s3, s4, s5⟩ := partitionLoop_spec less rank hless a b (b - a + 1)
    (swapAt d a pivot) (a + 1) (b - 1) (le_refl _) (by omega) hlen1 (by omega) (by omega)
    (by intro k h1 h2; omega) (by intro k h1 h2; omega)
  generalize partitionLoop less a (b - a + 1) (swapAt d a pivot) (a + 1) (b - 1) = r
    at s1 s2 s3 s4 s5 ⊢
  have hrlen : r.1.length = d.length := by rw [s1.length_eq, swapAt_length]
  have hm : rankAt rank (swapAt r.1 r.2 a) r.2 = rankAt rank r.1 a :=
    rankAt_swapAt_left rank r.1 r.2 a (by omega) (by omega)
  have ha : rankAt rank (swapAt r.1 r.2 a) a = rankAt rank r.1 r.2 :=
    rankAt_swapAt_right rank r.1 r.2 a (by omega) (by omega)
  have ho : ∀ k, k ≠ r.2 → k ≠ a → rankAt rank (swapAt r.1 r.2 a) k = rankAt rank r.1 k :=
    fun k h1 h2 => rankAt_swapAt_of_ne rank r.1 r.2 a k h1 h2
  refine ⟨?_, s2, s3, ?_, ?_⟩
  · exact ((SwapsIn.one a b d a pivot (le_refl a) (by omega) hap hpb).trans
      (s1.mono (by omega) (le_refl b))).trans
      (SwapsIn.one a b r.1 r.2 a s2 s3 (le_refl a) (by omega))
  · intro k h1 h2
    rw [hm]
    by_cases hk : k = a
    · subst hk
      rw [ha]
      exact s4 r.2 (by omega) (le_refl _)
    · rw [ho k (by omega) hk]
      exact s4 k (by omega) (by omega)
  · intro k h1 h2
    rw [hm, ho k (by omega) (by omega)]
    exact s5 k h1 h2

theorem partitionEqualLoop_spec {α : Type} (less : α → α → Bool) (rank : α → Int)
    (hless : ∀ x y, less x y = decide (rank x < rank y)) (a b : Nat) :
    ∀ (fuel : Nat) (d : List α) (i j : Nat), a + 1 ≤ i → j < b → b ≤ d.length → i ≤ j + 1 →
      j + 1 - i ≤ fuel →
      (∀ k, a + 1 ≤ k → k < i → rankAt rank d k ≤ rankAt rank d a) →
      (∀ k, j < k → k < b → rankAt rank d a < rankAt rank d k) →
      SwapsIn (a + 1) b d (partitionEqualLoop less a fuel d i j).1 ∧
        a + 1 ≤ (partitionEqualLoop less a fuel d i j).2 ∧
        (partitionEqualLoop less a fuel d i j).2 ≤ b ∧
        (∀ k, a + 1 ≤ k → k < (partitionEqualLoop less a fuel d i j).2 →
          rankAt rank (partitionEqualLoop less a fuel d i j).1 k ≤
            rankAt rank (partitionEqualLoop less a fuel d i j).1 a) ∧
        (∀ k, (partitionEqualLoop less a fuel d i j).2 ≤ k → k < b →
          rankAt rank (partitionEqualLoop less a fuel d i j).1 a <
            rankAt rank (partitionEqualLoop less a fuel d i j).1 k) := by
  intro fuel
  induction fuel with
  | zero =>
    intro d i j hai hjb hlen hij hfuel hlo hhi
    simp only [partitionEqualLoop]
    exact ⟨SwapsIn.refl d, hai, by omega, hlo, fun k h1 h2 => hhi k (by omega) h2⟩
  | succ fuel ih =>
    intro d i j hai hjb hlen hij hfuel hlo hhi
    simp only [partitionEqualLoop]
    obtain ⟨u1, u2, u3, u4⟩ := scanUp_spec (fun i => !lessAt less d a i) j (j + 1 - i) i
      (le_refl _)
    generalize scanUp (fun i => !lessAt less d a i) j (j + 1 - i) i = i2 at u1 u2 u3 u4 ⊢
    have hi2 : i2 ≤ j + 1 := by omega
    obtain ⟨v1, v2, v3, v4⟩ := scanDown_spec (fun j => lessAt less d a j) i2 (by omega) j
    generalize scanDown (fun j => lessAt less d a j) i2 j = j2 at v1 v2 v3 v4 ⊢
    have hup : ∀ k, a + 1 ≤ k → k < i2 → rankAt rank d k ≤ rankAt rank d a := by
      intro k h1 h2
      by_cases hk : k < i
      · exact hlo k h1 hk
      · have := u3 k (by omega) h2
        rw [lessAt_eq less rank hless d a k (by omega) (by omega)] at this
        simp only [Bool.not_eq_true', decide_eq_false_iff_not, not_lt] at this
        exact this
    have hdown : ∀ k, j2 < k → k < b → rankAt rank d a < rankAt rank d k := by
      intro k h1 h2
      by_cases hk : j < k
      · exact hhi k hk h2
      · have := v3 k h1 (by omega)
        rw [lessAt_eq less rank hless d a k (by omega) (by omega)] at this
        simpa using this
    by_cases hc : i2 > j2
    · rw [if_pos hc]
      exact ⟨SwapsIn.refl d, by omega, by omega, fun k h1 h2 => hup k h1 h2,
        fun k h1 h2 => hdown k (by omega) h2⟩
    · rw [if_neg hc]
      have hi2v : rankAt rank d a < rankAt rank d i2 := by
        have := u4 (by omega)
        rw [lessAt_eq less rank hless d a i2 (by omega) (by omega)] at this
        simpa using this
      have hj2v : rankAt rank d j2 ≤ rankAt rank d a := by
        have := v4 (by omega)
        rw [lessAt_eq less rank hless d a j2 (by omega) (by omega)] at this
        simpa using this
      have hne : i2 < j2 := by
        by_contra hcon
        have : i2 = j2 := by omega
        subst this
        omega
      have hsw_i : rankAt rank (swapAt d i2 j2) i2 = rankAt rank d j2 :=
        rankAt_swapAt_left rank d i2 j2 (by omega) (by omega)
      have hsw_j : rankAt rank (swapAt d i2 j2) j2 = rankAt rank d i2 :=
        rankAt_swapAt_right rank d i2 j2 (by omega) (by omega)
      have hsw_o : ∀ k, k ≠ i2 → k ≠ j2 → rankAt rank (swapAt d i2 j2) k = rankAt rank d k :=
        fun k h1 h2 => rankAt_swapAt_of_ne rank d i2 j2 k h1 h2
      have hih := ih (swapAt d i2 j2) (i2 + 1) (j2 - 1) (by omega) (by omega)
        (by rw [swapAt_length]; exact hlen) (by omega) (by omega)
        (by
          intro k h1 h2
          rw [hsw_o a (by omega) (by omega)]
          by_cases hk : k = i2
          · subst hk
            rw [hsw_i]
            exact hj2v
          · rw [hsw_o k hk (by omega)]
            exact hup k h1 (by omega))
        (by
          intro k h1 h2
          rw [hsw_o a (by omega) (by omega)]
          by_cases hk : k = j2
          · subst hk
            rw [hsw_j]
            exact hi2v
          · rw [hsw_o k (by omega) hk]
            exact hdown k (by omega) h2)
      exact ⟨(SwapsIn.one (a + 1) b d i2 j2 (by omega) (by omega) (by omega)
        (by omega)).trans hih.1, hih.2⟩

theorem partitionEqualFunc_spec {α : Type} (less : α → α → Bool) (rank : α → Int)
    (hless : ∀ x y, less x y = decide (rank x < rank y)) (d : List α) (a b pivot : Nat)
    (hap : a ≤ pivot) (hpb : pivot < b) (hlen : b ≤ d.length) :
    SwapsIn a b d (partitionEqualFunc less d a b pivot).1 ∧
      a + 1 ≤ (partitionEqualFunc less d a b pivot).2 ∧
      (partitionEqualFunc less d a b pivot).2 ≤ b ∧
      (∀ k, a ≤ k → k < (partitionEqualFunc less d a b pivot).2 →
        rankAt rank (partitionEqualFunc less d a b pivot).1 k ≤ rankAt rank d pivot) ∧
      (∀ k, (partitionEqualFunc less d a b pivot).2 ≤ k → k < b →
        rankAt rank d pivot < rankAt rank (partitionEqualFunc less d a b pivot).1 k) := by
  unfold partitionEqualFunc
  have hlen1 : b ≤ (swapAt d a pivot).length := by rw [swapAt_length]; exact hlen
  obtain ⟨s1, s2, s3, s4, s5⟩ := partitionEqualLoop_spec less rank hless a b (b - a)
    (swapAt d a pivot) (a + 1) (b - 1) (le_refl _) (by omega) hlen1 (by omega) (by omega)
    (by intro k h1 h2; omega) (by intro k h1 h2; omega)
  generalize partitionEqualLoop less a (b - a) (swapAt d a pivot) (a + 1) (b - 1) = r
    at s1 s2 s3 s4 s5 ⊢
  have hpv : rankAt rank r.1 a = rankAt rank d pivot := by
    rw [s1.rankAt_outside rank a (by omega)]
    exact rankAt_swapAt_left rank d a pivot (by omega) (by omega)
  rw [hpv] at s4 s5
  refine ⟨(SwapsIn.one a b d a pivot (le_refl a) (by omega) hap hpb).trans
    (s1.mono (by omega) (le_refl b)), s2, s3, ?_, s5⟩
  intro k h1 h2
  by_cases hk : k = a
  · subst hk
    rw [hpv]
  · exact s4 k (by omega) h2

theorem siftDownFunc_spec {α : Type} (less : α → α → Bool) (rank : α → Int)
    (hless : ∀ x y, less x y = decide (rank x < rank y)) (first lo hi : Nat) :
    ∀ (fuel : Nat) (d : List α) (root : Nat), hi - root ≤ fuel → lo ≤ root →
      first + hi ≤ d.length →
      (∀ r c, lo ≤ r → r ≠ root → (c = 2 * r + 1 ∨ c = 2 * r + 2) → c < hi →
        rankAt rank d (first + c) ≤ rankAt rank d (first + r)) →
      (∀ p c, lo ≤ p → (root = 2 * p + 1 ∨ root = 2 * p + 2) →
        (c = 2 * root + 1 ∨ c = 2 * root + 2) → c < hi →
        rankAt rank d (first + c) ≤ rankAt rank d (first + p)) →
      SwapsIn first (first + hi) d (siftDownFunc less first hi fuel d root) ∧
        HeapFrom rank (siftDownFunc less first hi fuel d root) first lo hi := by
  intro fuel
  induction fuel with
  | zero =>
    intro d root hfuel hlo hlen h1 h2
    simp only [siftDownFunc]
    refine ⟨SwapsIn.refl d, ?_⟩
    intro r c hr hc hch
    by_cases hrr : r = root
    · omega
    · exact h1 r c hr hrr hc hch
  | succ fuel ih =>
    intro d root hfuel hlo hlen h1 h2
    simp only [siftDownFunc]
    by_cases hleaf : 2 * root + 1 ≥ hi
    · rw [if_pos hleaf]
      refine ⟨SwapsIn.refl d, ?_⟩
      intro r c hr hc hch
      by_cases hrr : r = root
      · omega
      · exact h1 r c hr hrr hc hch
    · rw [if_neg hleaf]
      have hchild : ∃ child, child =
          (if (decide (2 * root + 1 + 1 < hi) &&
              lessAt less d (first + (2 * root + 1)) (first + (2 * root + 1) + 1)) = true then
            2 * root + 1 + 1
          else 2 * root + 1) ∧
          (child = 2 * root + 1 ∨ child = 2 * root + 2) ∧ child < hi ∧
          rankAt rank d (first + (2 * root + 1)) ≤ rankAt rank d (first + child) ∧
          (2 * root + 2 < hi →
            rankAt rank d (first + (2 * root + 2)) ≤ rankAt rank d (first + child)) := by
        by_cases h22 : 2 * root + 1 + 1 < hi
        · rw [lessAt_eq less rank hless d _ _ (by omega) (by omega)]
          by_cases hl : rankAt rank d (first + (2 * root + 1)) <
              rankAt rank d (first + (2 * root + 1) + 1)
          · refine ⟨2 * root + 1 + 1, ?_, Or.inr rfl, h22, ?_, ?_⟩
            · simp [h22, hl]
            · have e : first + (2 * root + 1 + 1) = first + (2 * root + 1) + 1 := by omega
              rw [e]
              omega
            · intro _
              exact le_refl _
          · refine ⟨2 * root + 1, ?_, Or.inl rfl, by omega, le_refl _, ?_⟩
            · simp [h22, hl]
            · intro _
              have e : first + (2 * root + 2) = first + (2 * root + 1) + 1 := by omega
              rw [e]
              omega
        · refine ⟨2 * root + 1, ?_, Or.inl rfl, by omega, le_refl _, ?_⟩
          · simp [h22]
          · intro h
            omega
      obtain ⟨child, hceq, hcc, hchi, hc1, hc2⟩ := hchild
      rw [← hceq]
      rw [lessAt_eq less rank hless d _ _ (by omega) (by omega)]
      by_cases hl : rankAt rank d (first + root) < rankAt rank d (first + child)
      · have hcond : ¬ (!decide (rankAt rank d (first + root) < rankAt rank d (first + child)))
            = true := by simp [hl]
        rw [if_neg hcond]
        have hsr : rankAt rank (swapAt d (first + root) (first + child)) (first + root) =
            rankAt rank d (first + child) :=
          rankAt_swapAt_left rank d _ _ (by omega) (by omega)
        have hsc : rankAt rank (swapAt d (first + root) (first + child)) (first + child) =
            rankAt rank d (first + root) :=
          rankAt_swapAt_right rank d _ _ (by omega) (by omega)
        have hso : ∀ k, k ≠ root → k ≠ child →
            rankAt rank (swapAt d (first + root) (first + child)) (first + k) =
              rankAt rank d (first + k) :=
          fun k h1 h2 => rankAt_swapAt_of_ne rank d _ _ _ (by omega) (by omega)
        have hih := ih (swapAt d (first + root) (first + child)) child (by omega) (by omega)
          (by rw [swapAt_length]; exact hlen)
          (by
            intro r c hr hrc hc hch
            by_cases hrr : r = root
            · subst hrr
              rw [hsr]
              by_cases hcch : c = child
              · subst hcch
                rw [hsc]
                omega
              · rw [hso c (by omega) hcch]
                rcases hc with hc | hc
                · subst hc
                  exact hc1
                · subst hc
                  exact hc2 hch
            · rw [hso r hrr hrc]
              by_cases hcr : c = root
              · subst hcr
                rw [hsr]
                exact h2 r child hr (by omega) hcc hchi
              · rw [hso c hcr (by omega)]
                exact h1 r c hr hrr hc hch)
          (by
            intro p c hp hpc hc hch
            have hpr : p = root := by omega
            subst hpr
            rw [hsr, hso c (by omega) (by omega)]
            exact h1 child c (by omega) (by omega) hc hch)
        exact ⟨(SwapsIn.one first (first + hi) d (first + root) (first + child) (by omega)
          (by omega) (by omega) (by omega)).trans hih.1, hih.2⟩
      · have hcond : (!decide (rankAt rank d (first + root) < rankAt rank d (first + child)))
            = true := by simp [hl]
        rw [if_pos hcond]
        refine ⟨SwapsIn.refl d, ?_⟩
        intro r c hr hc hch
        by_cases hrr : r = root
        · subst hrr
          rcases hc with hc | hc
          · subst hc
            omega
          · subst hc
            have := hc2 hch
            omega
        · exact h1 r c hr hrr hc hch

theorem HeapFrom.root_max {α : Type} (rank : α → Int) (d : List α) (first n : Nat)
    (h : HeapFrom rank d first 0 n) :
    ∀ p, p < n → rankAt rank d (first + p) ≤ rankAt rank d (first + 0) := by
  intro p
  induction p using Nat.strong_induction_on with
  | _ p ih =>
    intro hp
    by_cases h0 : p = 0
    · subst h0
      exact le_refl _
    · have h1 := h ((p - 1) / 2) p (Nat.zero_le _) (by omega) hp
      have h2 := ih ((p - 1) / 2) (by omega) (by omega)
      omega

theorem heapBuild_spec {α : Type} (less : α → α → Bool) (rank : α → Int)
    (hless : ∀ x y, less x y = decide (rank x < rank y)) (first hi : Nat) :
    ∀ (n : Nat) (d : List α), first + hi ≤ d.length → HeapFrom rank d first n hi →
      SwapsIn first (first + hi) d
          ((List.range n).reverse.foldl (fun d i => siftDownFunc less first hi hi d i) d) ∧
        HeapFrom rank
          ((List.range n).reverse.foldl (fun d i => siftDownFunc less first hi hi d i) d)
          first 0 hi := by
  intro n
  induction n with
  | zero =>
    intro d _ h
    exact ⟨SwapsIn.refl d, h⟩
  | succ n ih =>
    intro d hlen h
    rw [List.range_succ, List.reverse_append, List.reverse_singleton, List.singleton_append,
      List.foldl_cons]
    have h1 := siftDownFunc_spec less rank hless first n hi hi d n (by omega) (le_refl n) hlen
      (fun r c hr hrn hc hch => h r c (by omega) hc hch)
      (fun p c hp hpc _ _ => by omega)
    have h2 := ih (siftDownFunc less first hi hi d n) (by rw [h1.1.length_eq]; exact hlen) h1.2
    exact ⟨h1.1.trans h2.1, h2.2⟩

theorem heapPop_spec {α : Type} (less : α → α → Bool) (rank : α → Int)
    (hless : ∀ x y, less x y = decide (rank x < rank y)) (first hi : Nat) :
    ∀ (n : Nat) (d : List α), n ≤ hi → first + hi ≤ d.length → HeapFrom rank d first 0 n →
      SortedIn rank d (first + n) (first + hi) →
      (∀ p q, p < n → n ≤ q → q < hi →
        rankAt rank d (first + p) ≤ rankAt rank d (first + q)) →
      SwapsIn first (first + hi) d ((List.range n).reverse.foldl
          (fun d i => siftDownFunc less first i i (swapAt d first (first + i)) 0) d) ∧
        SortedIn rank ((List.range n).reverse.foldl
          (fun d i => siftDownFunc less first i i (swapAt d first (first + i)) 0) d)
          first (first + hi) := by
  intro n
  induction n with
  | zero =>
    intro d _ _ _ hs _
    exact ⟨SwapsIn.refl d, hs⟩
  | succ n ih =>
    intro d hn hlen hheap hsorted hcross
    rw [List.range_succ, List.reverse_append, List.reverse_singleton, List.singleton_append,
      List.foldl_cons]
    have hmax := HeapFrom.root_max rank d first (n + 1) hheap
    have hs0 : rankAt rank (swapAt d first (first + n)) first = rankAt rank d (first + n) :=
      rankAt_swapAt_left rank d _ _ (by omega) (by omega)
    have hsn : rankAt rank (swapAt d first (first + n)) (first + n) = rankAt rank d first :=
      rankAt_swapAt_right rank d _ _ (by omega) (by omega)
    have hso : ∀ k, k ≠ first → k ≠ first + n →
        rankAt rank (swapAt d first (first + n)) k = rankAt rank d k :=
      fun k h1 h2 => rankAt_swapAt_of_ne rank d _ _ _ h1 h2
    have hlen1 : first + hi ≤ (swapAt d first (first + n)).length := by
      rw [swapAt_length]; exact hlen
    have h1 := siftDownFunc_spec less rank hless first 0 n n (swapAt d first (first + n)) 0
      (by omega) (le_refl 0) (by omega)
      (by
        intro r c _ hr hc hch
        rw [hso (first + c) (by omega) (by omega), hso (first + r) (by omega) (by omega)]
        exact hheap r c (Nat.zero_le _) hc (by omega))
      (fun p c _ hpc _ _ => by omega)
    generalize siftDownFunc less first n n (swapAt d first (first + n)) 0 = d2 at h1 ⊢
    obtain ⟨hsw, hheap2⟩ := h1
    have hout : ∀ k, first + n ≤ k → rankAt rank d2 k =
        rankAt rank (swapAt d first (first + n)) k :=
      fun k hk => hsw.rankAt_outside rank k (Or.inr hk)
    have hin : ∀ (P : Int → Prop),
        (∀ k, first ≤ k → k < first + n → P (rankAt rank (swapAt d first (first + n)) k)) →
        ∀ k, first ≤ k → k < first + n → P (rankAt rank d2 k) :=
      fun P hP => hsw.rankAt_inside rank (by omega) P hP
    have hd1 : ∀ (bound : Int), rankAt rank d (first + n) ≤ bound →
        (∀ k, k < n → rankAt rank d (first + k) ≤ bound) →
        ∀ k, first ≤ k → k < first + n →
          rankAt rank (swapAt d first (first + n)) k ≤ bound := by
      intro bound hb1 hb2 k hk1 hk2
      by_cases hkf : k = first
      · subst hkf
        rw [hs0]
        exact hb1
      · rw [hso k hkf (by omega)]
        have := hb2 (k - first) (by omega)
        have e : first + (k - first) = k := by omega
        rw [e] at this
        exact this
    have h2 := ih d2 (by omega) (by rw [hsw.length_eq]; exact hlen1) hheap2
      (by
        intro p q hp hpq hq
        rw [hout p hp, hout q (by omega)]
        rw [hso q (by omega) (by omega)]
        by_cases hpn : p = first + n
        · subst hpn
          rw [hsn]
          have := hcross 0 (q - first) (by omega) (by omega) (by omega)
          have e : first + (q - first) = q := by omega
          rw [e] at this
          exact this
        · rw [hso p (by omega) hpn]
          exact hsorted p q (by omega) hpq hq)
      (by
        intro p q hp hnq hq
        rw [hout (first + q) (by omega)]
        by_cases hqn : q = n
        · subst hqn
          rw [hsn]
          exact hin (fun r => r ≤ rankAt rank d first)
            (hd1 _ (hmax q (by omega)) (fun k hk => hmax k (by omega))) (first + p) (by omega)
            (by omega)
        · rw [hso (first + q) (by omega) (by omega)]
          exact hin (fun r => r ≤ rankAt rank d (first + q))
            (hd1 _ (hcross n q (by omega) (by omega) hq)
              (fun k hk => hcross k q (by omega) (by omega) hq)) (first + p) (by omega)
            (by omega))
    exact ⟨(SwapsIn.one first (first + hi) d first (first + n) (le_refl _) (by omega)
      (by omega) (by omega)).trans ((hsw.mono (le_refl _) (by omega)).trans h2.1), h2.2⟩

theorem heapSortFunc_spec {α : Type} (less : α → α → Bool) (rank : α → Int)
    (hless : ∀ x y, less x y = decide (rank x < rank y)) (d : List α) (a b : Nat)
    (hab : a ≤ b) (hb : b ≤ d.length) :
    SwapsIn a b d (heapSortFunc less d a b) ∧ SortedIn rank (heapSortFunc less d a b) a b := by
  unfold heapSortFunc
  simp only []
  have e : a + (b - a) = b := by omega
  have h1 := heapBuild_spec less rank hless a (b - a) ((b - a - 1) / 2 + 1) d (by omega)
    (by intro r c hr hc hch; omega)
  generalize (List.range ((b - a - 1) / 2 + 1)).reverse.foldl
    (fun d i => siftDownFunc less a (b - a) (b - a) d i) d = d1 at h1 ⊢
  have h2 := heapPop_spec less rank hless a (b - a) (b - a) d1 (le_refl _)
    (by rw [h1.1.length_eq]; omega) h1.2 (by intro p q hp hpq hq; omega)
    (by intro p q hp hpq hq; omega)
  rw [e] at h1 h2
  exact ⟨h1.1.trans h2.1, h2.2⟩

theorem scanOrdered_spec {α : Type} (less : α → α → Bool) (rank : α → Int)
    (hless : ∀ x y, less x y = decide (rank x < rank y)) (d : List α) (b : Nat)
    (hlen : b ≤ d.length) :
    ∀ (fuel i : Nat), b - i ≤ fuel → 1 ≤ i →
      i ≤ scanOrdered less d b fuel i ∧
        (scanOrdered less d b fuel i ≤ b ∨ scanOrdered less d b fuel i = i) ∧
        (∀ k, i ≤ k → k < scanOrdered less d b fuel i →
          rankAt rank d (k - 1) ≤ rankAt rank d k) ∧
        (scanOrdered less d b fuel i < b →
          rankAt rank d (scanOrdered less d b fuel i) <
            rankAt rank d (scanOrdered less d b fuel i - 1)) := by
  intro fuel
  induction fuel with
  | zero =>
    intro i h hi
    simp only [scanOrdered]
    exact ⟨le_refl i, Or.inr trivial, by intro k h1 h2; omega, by intro h2; omega⟩
  | succ fuel ih =>
    intro i h hi
    simp only [scanOrdered]
    by_cases hib : i < b
    · rw [lessAt_eq less rank hless d i (i - 1) (by omega) (by omega)]
      by_cases hl : rankAt rank d i < rankAt rank d (i - 1)
      · have hcond : ¬ (decide (i < b) && !decide (rankAt rank d i < rankAt rank d (i - 1)))
            = true := by simp [hl]
        rw [if_neg hcond]
        exact ⟨le_refl i, Or.inr rfl, by intro k h1 h2; omega, fun _ => hl⟩
      · have hcond : (decide (i < b) && !decide (rankAt rank d i < rankAt rank d (i - 1)))
            = true := by simp [hl, hib]
        rw [if_pos hcond]
        obtain ⟨h1, h2, h3, h4⟩ := ih (i + 1) (by omega) (by omega)
        refine ⟨by omega, ?_, ?_, h4⟩
        · rcases h2 with h2 | h2
          · exact Or.inl h2
          · left
            omega
        · intro k hk1 hk2
          by_cases hki : k = i
          · subst hki
            omega
          · exact h3 k (by omega) hk2
    · have hcond : ¬ (decide (i < b) && !lessAt less d i (i - 1)) = true := by simp [hib]
      rw [if_neg hcond]
      exact ⟨le_refl i, Or.inr rfl, by intro k h1 h2; omega, by intro h2; omega⟩

theorem shiftSmaller_eq {α : Type} (less : α → α → Bool) (rank : α → Int)
    (hless : ∀ x y, less x y = decide (rank x < rank y)) (a b : Nat) :
    ∀ (j : Nat) (d : List α), a ≤ j → j < b → b ≤ d.length → LowerBounded rank d a b →
      shiftSmaller less j d = insertionShift less a j d := by
  intro j
  induction j with
  | zero =>
    intro d _ _ _ _
    rfl
  | succ j ih =>
    intro d haj hjb hlen hlb
    simp only [shiftSmaller, insertionShift]
    rw [lessAt_eq less rank hless d (j + 1) j (by omega) (by omega)]
    by_cases hl : rankAt rank d (j + 1) < rankAt rank d j
    · by_cases hja : j + 1 > a
      · have c1 : ¬ (!decide (rankAt rank d (j + 1) < rankAt rank d j)) = true := by simp [hl]
        have c2 : (decide (j + 1 > a) && decide (rankAt rank d (j + 1) < rankAt rank d j))
            = true := by simp [hl, hja]
        rw [if_neg c1, if_pos c2]
        exact ih (swapAt d (j + 1) j) (by omega) (by omega)
          (by rw [swapAt_length]; exact hlen)
          (hlb.of_swaps rank (SwapsIn.one a b d (j + 1) j (by omega) (by omega) (by omega)
            (by omega)) hlen)
      · have haeq : a = j + 1 := by omega
        rcases hlb with h0 | hlb
        · omega
        · have := hlb (j + 1) (by omega) hjb
          have e : a - 1 = j := by omega
          rw [e] at this
          omega
    · have c1 : (!decide (rankAt rank d (j + 1) < rankAt rank d j)) = true := by simp [hl]
      have c2 : ¬ (decide (j + 1 > a) && decide (rankAt rank d (j + 1) < rankAt rank d j))
          = true := by simp [hl]
      rw [if_pos c1, if_neg c2]

theorem shiftGreater_spec {α : Type} (less : α → α → Bool) (lo b : Nat) :
    ∀ (fuel j : Nat) (d : List α), lo + 1 ≤ j →
      SwapsIn lo b d (shiftGreater less b fuel j d) := by
  intro fuel
  induction fuel with
  | zero =>
    intro j d _
    exact SwapsIn.refl d
  | succ fuel ih =>
    intro j d hj
    simp only [shiftGreater]
    split
    · next hjb =>
      split
      · exact SwapsIn.refl d
      · exact (SwapsIn.one lo b d j (j - 1) (by omega) hjb (by omega) (by omega)).trans
          (ih (j + 1) _ (by omega))
    · exact SwapsIn.refl d

theorem partialInsertionLoop_spec {α : Type} (less : α → α → Bool) (rank : α → Int)
    (hless : ∀ x y, less x y = decide (rank x < rank y)) (a b : Nat) :
    ∀ (steps : Nat) (d : List α) (i : Nat), a + 1 ≤ i → i ≤ b → b ≤ d.length →
      LowerBounded rank d a b → SortedIn rank d a i →
      SwapsIn a b d (partialInsertionLoop less a b steps d i).1 ∧
        ((partialInsertionLoop less a b steps d i).2 = true →
          SortedIn rank (partialInsertionLoop less a b steps d i).1 a b) := by
  intro steps
  induction steps with
  | zero =>
    intro d i _ _ _ _ _
    simp only [partialInsertionLoop]
    exact ⟨SwapsIn.refl d, by intro h; cases h⟩
  | succ steps ih =>
    intro d i hai hib hlen hlb hsorted
    simp only [partialInsertionLoop]
    obtain ⟨u1, u2, u3, u4⟩ := scanOrdered_spec less rank hless d b hlen (b - i) i (le_refl _)
      (by omega)
    generalize scanOrdered less d b (b - i) i = i2 at u1 u2 u3 u4 ⊢
    have hi2b : i2 ≤ b := by omega
    have hs2 : SortedIn rank d a i2 := by
      apply SortedIn.of_adjacent
      intro k hk1 hk2
      by_cases hki : k + 1 < i
      · exact hsorted k (k + 1) hk1 (by omega) hki
      · have := u3 (k + 1) (by omega) hk2
        simpa using this
    by_cases he : i2 = b
    · rw [if_pos he]
      subst he
      exact ⟨SwapsIn.refl d, fun _ => hs2⟩
    · rw [if_neg he]
      by_cases hshort : b - a < 50
      · rw [if_pos hshort]
        exact ⟨SwapsIn.refl d, by intro h; cases h⟩
      · rw [if_neg hshort]
        have hsw1 : SwapsIn a b d (swapAt d i2 (i2 - 1)) :=
          SwapsIn.one a b d i2 (i2 - 1) (by omega) (by omega) (by omega) (by omega)
        have hlen1 : b ≤ (swapAt d i2 (i2 - 1)).length := by rw [swapAt_length]; exact hlen
        have hlb1 := hlb.of_swaps rank hsw1 hlen
        have h2 : SwapsIn a i2 (swapAt d i2 (i2 - 1))
            (if i2 - a ≥ 2 then shiftSmaller less (i2 - 1) (swapAt d i2 (i2 - 1))
              else swapAt d i2 (i2 - 1)) ∧
            SortedIn rank (if i2 - a ≥ 2 then shiftSmaller less (i2 - 1) (swapAt d i2 (i2 - 1))
              else swapAt d i2 (i2 - 1)) a i2 := by
          by_cases hge : i2 - a ≥ 2
          · rw [if_pos hge]
            rw [shiftSmaller_eq less rank hless a b (i2 - 1) _ (by omega) (by omega) hlen1 hlb1]
            have := insertionShift_spec less rank hless a (i2 - 1) (i2 - 1)
              (swapAt d i2 (i2 - 1)) (by omega) (le_refl _) (by omega)
              (by
                intro p q hp hpq hq
                rw [rankAt_swapAt_of_ne rank d _ _ p (by omega) (by omega),
                  rankAt_swapAt_of_ne rank d _ _ q (by omega) (by omega)]
                exact hs2 p q hp hpq (by omega))
              (by intro p q hp hpq hq; omega)
              (by intro p q hp hpq hq hqi; omega)
            have e : i2 - 1 + 1 = i2 := by omega
            rw [e] at this
            exact this
          · rw [if_neg hge]
            exact ⟨SwapsIn.refl _, by intro p q hp hpq hq; omega⟩
        generalize (if i2 - a ≥ 2 then shiftSmaller less (i2 - 1) (swapAt d i2 (i2 - 1))
              else swapAt d i2 (i2 - 1)) = d2 at h2 ⊢
        have h3 : SwapsIn i2 b d2
            (if b - i2 ≥ 2 then shiftGreater less b (b - (i2 + 1)) (i2 + 1) d2 else d2) := by
          split
          · exact shiftGreater_spec less i2 b _ _ d2 (le_refl _)
          · exact SwapsIn.refl _
        generalize (if b - i2 ≥ 2 then shiftGreater less b (b - (i2 + 1)) (i2 + 1) d2 else d2)
          = d3 at h3 ⊢
        have hsw : SwapsIn a b d d3 :=
          (hsw1.trans (h2.1.mono (le_refl a) hi2b)).trans (h3.mono (by omega) (le_refl b))
        have hs3 : SortedIn rank d3 a i2 := by
          intro p q hp hpq hq
          rw [h3.rankAt_outside rank p (by omega), h3.rankAt_outside rank q (by omega)]
          exact h2.2 p q hp hpq hq
        have hih := ih d3 i2 (by omega) hi2b (by rw [hsw.length_eq]; exact hlen)
          (hlb.of_swaps rank hsw hlen) hs3
        exact ⟨hsw.trans hih.1, hih.2⟩

theorem partialInsertionSortFunc_spec {α : Type} (less : α → α → Bool) (rank : α → Int)
    (hless : ∀ x y, less x y = decide (rank x < rank y)) (d : List α) (a b : Nat)
    (hab : a + 1 ≤ b) (hlen : b ≤ d.length) (hlb : LowerBounded rank d a b) :
    SwapsIn a b d (partialInsertionSortFunc less d a b).1 ∧
      ((partialInsertionSortFunc less d a b).2 = true →
        SortedIn rank (partialInsertionSortFunc less d a b).1 a b) :=
  partialInsertionLoop_spec less rank hless a b 5 d (a + 1) (le_refl _) hab hlen hlb
    (by intro p q hp hpq hq; omega)

theorem reverseLoop_spec {α : Type} (a b : Nat) :
    ∀ (fuel : Nat) (d : List α) (i j : Nat), a ≤ i → j < b →
      SwapsIn a b d (reverseLoop fuel d i j) := by
  intro fuel
  induction fuel with
  | zero =>
    intro d i j _ _
    exact SwapsIn.refl d
  | succ fuel ih =>
    intro d i j hi hj
    simp only [reverseLoop]
    split
    · next hij =>
      exact (SwapsIn.one a b d i j hi (by omega) (by omega) hj).trans
        (ih _ (i + 1) (j - 1) (by omega) (by omega))
    · exact SwapsIn.refl d

theorem reverseRangeFunc_spec {α : Type} (d : List α) (a b : Nat) (hab : a < b) :
    SwapsIn a b d (reverseRangeFunc d a b) :=
  reverseLoop_spec a b (b - a) d a (b - 1) (le_refl a) (by omega)

theorem bitsLenAux_zero (fuel : Nat) : bitsLenAux fuel 0 = 0 := by
  cases fuel <;> simp [bitsLenAux]

theorem two_pow_bitsLenAux_le :
    ∀ (fuel n : Nat), n ≤ fuel → 0 < n → 2 ^ bitsLenAux fuel n ≤ 2 * n := by
  intro fuel
  induction fuel with
  | zero =>
    intro n h1 h2
    omega
  | succ fuel ih =>
    intro n h1 h2
    simp only [bitsLenAux]
    rw [if_neg (by omega)]
    by_cases hn : n / 2 = 0
    · rw [hn, bitsLenAux_zero]
      simp
      omega
    · have := ih (n / 2) (by omega) (by omega)
      rw [pow_succ]
      omega

theorem nextPowerOfTwo_le (length : Nat) (h : 0 < length) :
    nextPowerOfTwo length ≤ 2 * length :=
  two_pow_bitsLenAux_le length length (le_refl _) h

theorem breakPatternsFunc_spec {α : Type} (d : List α) (a b : Nat) :
    SwapsIn a b d (breakPatternsFunc d a b) := by
  unfold breakPatternsFunc
  simp only []
  split
  · next hlen =>
    have hmod := nextPowerOfTwo_le (b - a) (by omega)
    have hpos : 0 < nextPowerOfTwo (b - a) := by
      unfold nextPowerOfTwo
      exact Nat.pos_pow_of_pos _ (by decide)
    have key : ∀ (steps : List Nat) (st : Nat × List α), (∀ i ∈ steps, i ≤ 2) →
        SwapsIn a b st.2 (steps.foldl (fun (st : Nat × List α) i =>
          (xorshiftNext st.1,
            swapAt st.2 (a + (b - a) / 4 * 2 - 1 - 1 + i)
              (a + if xorshiftNext st.1 &&& (nextPowerOfTwo (b - a) - 1) ≥ b - a then
                  (xorshiftNext st.1 &&& (nextPowerOfTwo (b - a) - 1)) - (b - a)
                else xorshiftNext st.1 &&& (nextPowerOfTwo (b - a) - 1)))) st).2 := by
      intro steps
      induction steps with
      | nil =>
        intro st _
        exact SwapsIn.refl _
      | cons i rest ih =>
        intro st hi
        rw [List.foldl_cons]
        have hi2 := hi i (List.mem_cons_self _ _)
        have hand : xorshiftNext st.1 &&& (nextPowerOfTwo (b - a) - 1) ≤
            nextPowerOfTwo (b - a) - 1 := Nat.and_le_right
        have hother : (if xorshiftNext st.1 &&& (nextPowerOfTwo (b - a) - 1) ≥ b - a then
              (xorshiftNext st.1 &&& (nextPowerOfTwo (b - a) - 1)) - (b - a)
            else xorshiftNext st.1 &&& (nextPowerOfTwo (b - a) - 1)) < b - a := by
          split <;> omega
        exact (SwapsIn.one a b st.2 (a + (b - a) / 4 * 2 - 1 - 1 + i)
          (a + if xorshiftNext st.1 &&& (nextPowerOfTwo (b - a) - 1) ≥ b - a then
              (xorshiftNext st.1 &&& (nextPowerOfTwo (b - a) - 1)) - (b - a)
            else xorshiftNext st.1 &&& (nextPowerOfTwo (b - a) - 1))
          (by omega) (by omega) (by omega) (by omega)).trans
          (ih (xorshiftNext st.1,
            swapAt st.2 (a + (b - a) / 4 * 2 - 1 - 1 + i)
              (a + if xorshiftNext st.1 &&& (nextPowerOfTwo (b - a) - 1) ≥ b - a then
                  (xorshiftNext st.1 &&& (nextPowerOfTwo (b - a) - 1)) - (b - a)
                else xorshiftNext st.1 &&& (nextPowerOfTwo (b - a) - 1)))
            (fun k hk => hi k (List.mem_cons_of_mem _ hk)))
    exact key (List.range 3) (b - a, d) (by
      intro i hi
      have := List.mem_range.mp hi
      omega)
  · exact SwapsIn.refl d

theorem order2Func_mem {α : Type} (less : α → α → Bool) (d : List α) (a b s : Nat) :
    ((order2Func less d a b s).1 = a ∧ (order2Func less d a b s).2.1 = b) ∨
      ((order2Func less d a b s).1 = b ∧ (order2Func less d a b s).2.1 = a) := by
  unfold order2Func
  split
  · exact Or.inr ⟨rfl, rfl⟩
  · exact Or.inl ⟨rfl, rfl⟩

theorem medianFunc_mem {α : Type} (less : α → α → Bool) (d : List α) (a b c s : Nat) :
    (medianFunc less d a b c s).1 = a ∨ (medianFunc less d a b c s).1 = b ∨
      (medianFunc less d a b c s).1 = c := by
  unfold medianFunc
  simp only []
  have h1 := order2Func_mem less d a b s
  generalize order2Func less d a b s = r1 at h1 ⊢
  have h2 := order2Func_mem less d r1.2.1 c r1.2.2
  generalize order2Func less d r1.2.1 c r1.2.2 = r2 at h2 ⊢
  have h3 := order2Func_mem less d r1.1 r2.1 r2.2.2
  generalize order2Func less d r1.1 r2.1 r2.2.2 = r3 at h3 ⊢
  rcases h1 with ⟨e1, e2⟩ | ⟨e1, e2⟩ <;> rcases h2 with ⟨f1, f2⟩ | ⟨f1, f2⟩ <;>
    rcases h3 with ⟨g1, g2⟩ | ⟨g1, g2⟩ <;> simp_all

theorem choosePivotFunc_range {α : Type} (less : α → α → Bool) (d : List α) (a b : Nat)
    (h : 8 ≤ b - a) :
    a ≤ (choosePivotFunc less d a b).1 ∧ (choosePivotFunc less d a b).1 < b := by
  have key : ∀ r : Nat × Nat, (a ≤ r.1 ∧ r.1 < b) →
      a ≤ (if r.2 = 0 then (r.1, SortedHint.increasingHint)
        else if r.2 = 4 * 3 then (r.1, SortedHint.decreasingHint)
        else (r.1, SortedHint.unknownHint)).1 ∧
      (if r.2 = 0 then (r.1, SortedHint.increasingHint)
        else if r.2 = 4 * 3 then (r.1, SortedHint.decreasingHint)
        else (r.1, SortedHint.unknownHint)).1 < b := by
    intro r hr
    split
    · exact hr
    · split <;> exact hr
  unfold choosePivotFunc
  simp only []
  apply key
  rw [if_pos h]
  split
  · next h50 =>
    unfold medianAdjacentFunc
    have m1 := medianFunc_mem less d (a + (b - a) / 4 * 1 - 1) (a + (b - a) / 4 * 1)
      (a + (b - a) / 4 * 1 + 1) 0
    generalize medianFunc less d (a + (b - a) / 4 * 1 - 1) (a + (b - a) / 4 * 1)
      (a + (b - a) / 4 * 1 + 1) 0 = ri at m1 ⊢
    have m2 := medianFunc_mem less d (a + (b - a) / 4 * 2 - 1) (a + (b - a) / 4 * 2)
      (a + (b - a) / 4 * 2 + 1) ri.2
    generalize medianFunc less d (a + (b - a) / 4 * 2 - 1) (a + (b - a) / 4 * 2)
      (a + (b - a) / 4 * 2 + 1) ri.2 = rj at m2 ⊢
    have m3 := medianFunc_mem less d (a + (b - a) / 4 * 3 - 1) (a + (b - a) / 4 * 3)
      (a + (b - a) / 4 * 3 + 1) rj.2
    generalize medianFunc less d (a + (b - a) / 4 * 3 - 1) (a + (b - a) / 4 * 3)
      (a + (b - a) / 4 * 3 + 1) rj.2 = rk at m3 ⊢
    have m4 := medianFunc_mem less d ri.1 rj.1 rk.1 rk.2
    generalize medianFunc less d ri.1 rj.1 rk.1 rk.2 = r at m4 ⊢
    omega
  · have m := medianFunc_mem less d (a + (b - a) / 4 * 1) (a + (b - a) / 4 * 2)
      (a + (b - a) / 4 * 3) 0
    generalize medianFunc less d (a + (b - a) / 4 * 1) (a + (b - a) / 4 * 2)
      (a + (b - a) / 4 * 3) 0 = r at m ⊢
    omega

theorem LowerBounded.shrink {α : Type} (rank : α → Int) {d : List α} {a b b2 : Nat}
    (h : LowerBounded rank d a b) (hb : b2 ≤ b) : LowerBounded rank d a b2 := by
  rcases h with h | h
  · exact Or.inl h
  · exact Or.inr (fun k h1 h2 => h k h1 (by omega))

theorem SortedIn.join {α : Type} (rank : α → Int) (d : List α) (a mid b : Nat)
    (h1 : SortedIn rank d a mid) (h2 : SortedIn rank d (mid + 1) b)
    (h3 : ∀ k, a ≤ k → k < mid → rankAt rank d k ≤ rankAt rank d mid)
    (h4 : ∀ k, mid < k → k < b → rankAt rank d mid ≤ rankAt rank d k) :
    SortedIn rank d a b := by
  intro p q hp hpq hq
  by_cases hqm : q < mid
  · exact h1 p q hp hpq hqm
  · by_cases hpm : mid < p
    · exact h2 p q (by omega) hpq hq
    · by_cases hq2 : q = mid
      · subst hq2
        exact h3 p hp (by omega)
      · by_cases hp2 : p = mid
        · subst hp2
          exact h4 q (by omega) hq
        · have := h3 p hp (by omega)
          have := h4 q (by omega) hq
          omega

theorem pdqsortFunc_spec {α : Type} (less : α → α → Bool) (rank : α → Int)
    (hless : ∀ x y, less x y = decide (rank x < rank y)) :
    ∀ (fuel : Nat) (d : List α) (a b limit : Nat) (wasBalanced wasPartitioned : Bool),
      b - a ≤ fuel → a ≤ b → b ≤ d.length → LowerBounded rank d a b →
      SwapsIn a b d (pdqsortFunc less fuel d a b limit wasBalanced wasPartitioned) ∧
        SortedIn rank (pdqsortFunc less fuel d a b limit wasBalanced wasPartitioned) a b := by
  intro fuel
  induction fuel with
  | zero =>
    intro d a b limit wb wp hfuel hab hlen hlb
    simp only [pdqsortFunc]
    exact ⟨SwapsIn.refl d, by intro p q hp hpq hq; omega⟩
  | succ fuel ih =>
    intro d a b limit wb wp hfuel hab hlen hlb
    simp only [pdqsortFunc]
    by_cases hshort : b - a ≤ 12
    · rw [if_pos hshort]
      exact insertionSortFunc_spec less rank hless d a b hlen
    · rw [if_neg hshort]
      by_cases hlim : limit = 0
      · rw [if_pos hlim]
        exact heapSortFunc_spec less rank hless d a b hab hlen
      · rw [if_neg hlim]
        have hD1 : SwapsIn a b d (if (!wb) = true then breakPatternsFunc d a b else d) := by
          split
          · exact breakPatternsFunc_spec d a b
          · exact SwapsIn.refl d
        generalize (if (!wb) = true then breakPatternsFunc d a b else d) = D1 at hD1 ⊢
        generalize (if (!wb) = true then limit - 1 else limit) = limit1
        have hC := choosePivotFunc_range less D1 a b (by omega)
        generalize choosePivotFunc less D1 a b = C at hC ⊢
        have hD2 : SwapsIn a b D1
            (if C.2 = SortedHint.decreasingHint then reverseRangeFunc D1 a b else D1) := by
          split
          · exact reverseRangeFunc_spec D1 a b (by omega)
          · exact SwapsIn.refl D1
        generalize (if C.2 = SortedHint.decreasingHint then reverseRangeFunc D1 a b else D1)
          = D2 at hD2 ⊢
        have hpiv : a ≤ (if C.2 = SortedHint.decreasingHint then b - 1 - (C.1 - a) else C.1) ∧
            (if C.2 = SortedHint.decreasingHint then b - 1 - (C.1 - a) else C.1) < b := by
          split <;> omega
        generalize (if C.2 = SortedHint.decreasingHint then b - 1 - (C.1 - a) else C.1)
          = pivot at hpiv ⊢
        generalize (wb && wp && decide ((if C.2 = SortedHint.decreasingHint then
          SortedHint.increasingHint else C.2) = SortedHint.increasingHint)) = tryPartial
        have hsw2 : SwapsIn a b d D2 := hD1.trans hD2
        have hlen2 : b ≤ D2.length := by rw [hsw2.length_eq]; exact hlen
        have hlb2 : LowerBounded rank D2 a b := hlb.of_swaps rank hsw2 hlen
        have hP : SwapsIn a b D2
            (if tryPartial = true then partialInsertionSortFunc less D2 a b else (D2, false)).1 ∧
            ((if tryPartial = true then partialInsertionSortFunc less D2 a b
                else (D2, false)).2 = true →
              SortedIn rank (if tryPartial = true then partialInsertionSortFunc less D2 a b
                else (D2, false)).1 a b) := by
          split
          · exact partialInsertionSortFunc_spec less rank hless D2 a b (by omega) hlen2 hlb2
          · exact ⟨SwapsIn.refl D2, by intro h; cases h⟩
        generalize (if tryPartial = true then partialInsertionSortFunc less D2 a b
          else (D2, false)) = P at hP ⊢
        obtain ⟨hP1, hP2⟩ := hP
        have hsw3 : SwapsIn a b d P.1 := hsw2.trans hP1
        have hlen3 : b ≤ P.1.length := by rw [hsw3.length_eq]; exact hlen
        have hlb3 : LowerBounded rank P.1 a b := hlb.of_swaps rank hsw3 hlen
        by_cases hdone : P.2 = true
        · rw [if_pos hdone]
          exact ⟨hsw3, hP2 hdone⟩
        · rw [if_neg hdone]
          by_cases heq : (decide (a > 0) && !lessAt less P.1 (a - 1) pivot) = true
          · rw [if_pos heq]
            simp only [Bool.and_eq_true, decide_eq_true_eq, Bool.not_eq_true'] at heq
            obtain ⟨ha0, hnl⟩ := heq
            rw [lessAt_eq less rank hless P.1 (a - 1) pivot (by omega) (by omega)] at hnl
            simp only [decide_eq_false_iff_not, not_lt] at hnl
            obtain ⟨e1, e2, e3, e4, e5⟩ := partitionEqualFunc_spec less rank hless P.1 a b pivot
              hpiv.1 hpiv.2 hlen3
            generalize partitionEqualFunc less P.1 a b pivot = E at e1 e2 e3 e4 e5 ⊢
            have hlenE : b ≤ E.1.length := by rw [e1.length_eq]; exact hlen3
            have hlbE : LowerBounded rank E.1 a b := hlb3.of_swaps rank e1 hlen3
            have hlow : ∀ k, a ≤ k → k < b → rankAt rank P.1 pivot ≤ rankAt rank E.1 k := by
              rcases hlbE with h0 | hlbE
              · omega
              · intro k h1 h2
                have := hlbE k h1 h2
                rw [e1.rankAt_outside rank (a - 1) (by omega)] at this
                omega
            have hih := ih E.1 E.2 b limit1 wb wp (by omega) e3 hlenE
              (Or.inr (fun k h1 h2 => by
                have := e4 (E.2 - 1) (by omega) (by omega)
                have := e5 k h1 h2
                omega))
            generalize pdqsortFunc less fuel E.1 E.2 b limit1 wb wp = R at hih ⊢
            obtain ⟨r1, r2⟩ := hih
            refine ⟨hsw3.trans (e1.trans (r1.mono (by omega) (le_refl b))), ?_⟩
            have hin := r1.rankAt_inside rank hlenE (fun r => rankAt rank P.1 pivot < r) e5
            intro p q hp hpq hq
            by_cases hq2 : q < E.2
            · rw [r1.rankAt_outside rank p (by omega), r1.rankAt_outside rank q (by omega)]
              have := e4 p hp (by omega)
              have := hlow q (by omega) hq
              omega
            · by_cases hp2 : p < E.2
              · rw [r1.rankAt_outside rank p (by omega)]
                have := e4 p hp hp2
                have := hin q (by omega) hq
                omega
              · exact r2 p q (by omega) hpq hq
          · rw [if_neg heq]
            obtain ⟨q1, q2, q3, q4, q5⟩ := partitionFunc_spec less rank hless P.1 a b pivot
              hpiv.1 hpiv.2 hlen3
            generalize partitionFunc less P.1 a b pivot = Q at q1 q2 q3 q4 q5 ⊢
            have hlenQ : b ≤ Q.1.length := by rw [q1.length_eq]; exact hlen3
            have hlbQ : LowerBounded rank Q.1 a b := hlb3.of_swaps rank q1 hlen3
            have hswQ : SwapsIn a b d Q.1 := hsw3.trans q1
            by_cases hside : Q.2.1 - a < b - Q.2.1
            · rw [if_pos hside]
              have hL := ih Q.1 a Q.2.1 limit1 true true (by omega) q2 (by omega)
                (hlbQ.shrink rank (by omega))
              generalize pdqsortFunc less fuel Q.1 a Q.2.1 limit1 true true = L at hL ⊢
              obtain ⟨l1, l2⟩ := hL
              have hlenL : b ≤ L.length := by rw [l1.length_eq]; exact hlenQ
              have hLmid : rankAt rank L Q.2.1 = rankAt rank Q.1 Q.2.1 :=
                l1.rankAt_outside rank Q.2.1 (by omega)
              have hLright : ∀ k, Q.2.1 < k → k < b → rankAt rank L Q.2.1 ≤ rankAt rank L k := by
                intro k h1 h2
                rw [hLmid, l1.rankAt_outside rank k (by omega)]
                exact q5 k h1 h2
              have hLleft : ∀ k, a ≤ k → k < Q.2.1 → rankAt rank L k < rankAt rank L Q.2.1 := by
                rw [hLmid]
                exact l1.rankAt_inside rank (by omega) (fun r => r < rankAt rank Q.1 Q.2.1) q4
              have hR := ih L (Q.2.1 + 1) b limit1
                (decide (Q.2.1 - a ≥ (b - a) / 8)) Q.2.2 (by omega) (by omega) hlenL
                (Or.inr (fun k h1 h2 => by
                  have := hLright k (by omega) h2
                  simpa using this))
              generalize pdqsortFunc less fuel L (Q.2.1 + 1) b limit1
                (decide (Q.2.1 - a ≥ (b - a) / 8)) Q.2.2 = R at hR ⊢
              obtain ⟨r1, r2⟩ := hR
              refine ⟨hswQ.trans ((l1.mono (le_refl a) (by omega)).trans
                (r1.mono (by omega) (le_refl b))), ?_⟩
              have hRmid : rankAt rank R Q.2.1 = rankAt rank L Q.2.1 :=
                r1.rankAt_outside rank Q.2.1 (by omega)
              apply SortedIn.join rank R a Q.2.1 b
              · intro p q hp hpq hq
                rw [r1.rankAt_outside rank p (by omega), r1.rankAt_outside rank q (by omega)]
                exact l2 p q hp hpq hq
              · exact r2
              · intro k h1 h2
                rw [hRmid, r1.rankAt_outside rank k (by omega)]
                exact le_of_lt (hLleft k h1 h2)
              · rw [hRmid]
                intro k h1 h2
                exact r1.rankAt_inside rank hlenL (fun r => rankAt rank L Q.2.1 ≤ r)
                  (fun k h1 h2 => hLright k (by omega) h2) k (by omega) h2
            · rw [if_neg hside]
              have hRr := ih Q.1 (Q.2.1 + 1) b limit1 true true (by omega) (by omega) hlenQ
                (Or.inr (fun k h1 h2 => by
                  have := q5 k (by omega) h2
                  simpa using this))
              generalize pdqsortFunc less fuel Q.1 (Q.2.1 + 1) b limit1 true true = R at hRr ⊢
              obtain ⟨r1, r2⟩ := hRr
              have hlenR : b ≤ R.length := by rw [r1.length_eq]; exact hlenQ
              have hRmid : rankAt rank R Q.2.1 = rankAt rank Q.1 Q.2.1 :=
                r1.rankAt_outside rank Q.2.1 (by omega)
              have hRleft : ∀ k, a ≤ k → k < Q.2.1 → rankAt rank R k < rankAt rank R Q.2.1 := by
                intro k h1 h2
                rw [hRmid, r1.rankAt_outside rank k (by omega)]
                exact q4 k h1 h2
              have hRright : ∀ k, Q.2.1 + 1 ≤ k → k < b →
                  rankAt rank R Q.2.1 ≤ rankAt rank R k := by
                rw [hRmid]
                exact r1.rankAt_inside rank hlenQ (fun r => rankAt rank Q.1 Q.2.1 ≤ r)
                  (fun k h1 h2 => q5 k (by omega) h2)
              have hlbR : LowerBounded rank R a Q.2.1 :=
                (hlbQ.of_swaps rank (r1.mono (by omega) (le_refl b)) hlenQ).shrink rank (by omega)
              have hL := ih R a Q.2.1 limit1 (decide (b - Q.2.1 ≥ (b - a) / 8)) Q.2.2
                (by omega) q2 (by omega) hlbR
              generalize pdqsortFunc less fuel R a Q.2.1 limit1
                (decide (b - Q.2.1 ≥ (b - a) / 8)) Q.2.2 = L at hL ⊢
              obtain ⟨l1, l2⟩ := hL
              refine ⟨hswQ.trans ((r1.mono (by omega) (le_refl b)).trans
                (l1.mono (le_refl a) (by omega))), ?_⟩
              have hLmid : rankAt rank L Q.2.1 = rankAt rank R Q.2.1 :=
                l1.rankAt_outside rank Q.2.1 (by omega)
              apply SortedIn.join rank L a Q.2.1 b
              · exact l2
              · intro p q hp hpq hq
                rw [l1.rankAt_outside rank p (by omega), l1.rankAt_outside rank q (by omega)]
                exact r2 p q hp hpq hq
              · rw [hLmid]
                intro k h1 h2
                exact le_of_lt (l1.rankAt_inside rank (by omega)
                  (fun r => r < rankAt rank R Q.2.1) hRleft k h1 h2)
              · intro k h1 h2
                rw [hLmid, l1.rankAt_outside rank k (by omega)]
                exact hRright k (by omega) h2

/-- The library sort on a comparator that compares ranks: the result is the
input rearranged by swaps and its ranks do not decrease. -/
theorem sortSlice_spec {α : Type} (less : α → α → Bool) (rank : α → Int)
    (hless : ∀ x y, less x y = decide (rank x < rank y)) (xs : List α) :
    SwapsIn 0 xs.length xs (sortSlice less xs) ∧
      SortedIn rank (sortSlice less xs) 0 xs.length :=
  pdqsortFunc_spec less rank hless xs.length xs 0 xs.length (bitsLen xs.length) true true
    (by omega) (Nat.zero_le _) (le_refl _) (Or.inl rfl)

theorem After_eq_rank (a b : ResourceClaimInfo) :
    After a.CreationTimestamp b.CreationTimestamp =
      decide (-a.CreationTimestamp < -b.CreationTimestamp) := by
  unfold After
  by_cases h : b.CreationTimestamp < a.CreationTimestamp
  · simp [h]
  · simp [h]

theorem sortByTime_perm (claims : List ResourceClaimInfo) : (sortByTime claims).Perm claims :=
  (sortSlice_spec _ (fun rc => -rc.CreationTimestamp) After_eq_rank claims).1.perm

theorem sortByTime_pairwise (claims : List ResourceClaimInfo) :
    (sortByTime claims).Pairwise (fun a b => b.CreationTimestamp ≤ a.CreationTimestamp) := by
  obtain ⟨hs, hsorted⟩ := sortSlice_spec _ (fun rc : ResourceClaimInfo => -rc.CreationTimestamp)
    After_eq_rank claims
  have hlen := hs.length_eq
  rw [List.pairwise_iff_getElem]
  intro i j hi hj hij
  have h := hsorted i j (Nat.zero_le _) hij (by
    have : j < (sortByTime claims).length := hj
    unfold sortByTime at this
    omega)
  unfold rankAt at h
  have ei : (sortSlice (fun a b => After a.CreationTimestamp b.CreationTimestamp) claims)[i]?
      = some (sortByTime claims)[i] := List.getElem?_eq_getElem hi
  have ej : (sortSlice (fun a b => After a.CreationTimestamp b.CreationTimestamp) claims)[j]?
      = some (sortByTime claims)[j] := List.getElem?_eq_getElem hj
  rw [ei, ej] at h
  simp only at h
  omega

/-- On thirteen claims the sort partitions around a pivot before it inserts:
claims created at the same instant do not keep the order they were given in. -/
theorem sortByTime_thirteen :
    (sortByTime thirteenClaims).map (fun rc => rc.Name) =
      ["k8", "k2", "k11", "k5", "k1", "k4", "k10", "k7", "k6", "k9", "k0", "k3", "k12"] := by
  decide

/-- C4. `sortByTime` orders the claims newest first: the sorted slice is a
permutation of the input and, for positions `i < j`, the creation timestamp at
`j` is not after the one at `i`; equal timestamps are allowed. -/
theorem sortByTime_newest_first (claims : List ResourceClaimInfo) :
    (sortByTime claims).Perm claims ∧
      ∀ (i j : Nat) (a b : ResourceClaimInfo), i < j →
        (sortByTime claims)[i]? = some a → (sortByTime claims)[j]? = some b →
        After b.CreationTimestamp a.CreationTimestamp = false := by
  refine ⟨sortByTime_perm claims, ?_⟩
  intro i j a b hij ha hb
  have hs := sortByTime_pairwise claims
  rw [List.pairwise_iff_getElem] at hs
  obtain ⟨hi, rfl⟩ := List.getElem?_eq_some_iff.mp ha
  obtain ⟨hj, rfl⟩ := List.getElem?_eq_some_iff.mp hb
  have := hs i j hi hj hij
  simp only [After, decide_eq_false_iff_not, not_lt]
  exact this

/-- C4, on three claims of which two were created at the same instant: the
two tied claims come first, and the second of them is not after the first. -/
theorem sortByTime_newest_first_witness :
    (sortByTime [claimOfA "c1" 1, claimOfA "c2" 2, claimOfA "c3" 2])[0]?
        = some (claimOfA "c2" 2) ∧
      (sortByTime [claimOfA "c1" 1, claimOfA "c2" 2, claimOfA "c3" 2])[1]?
        = some (claimOfA "c3" 2) ∧
      After (claimOfA "c3" 2).CreationTimestamp (claimOfA "c2" 2).CreationTimestamp = false :=
  ⟨by decide, by decide,
    (sortByTime_newest_first [claimOfA "c1" 1, claimOfA "c2" 2, claimOfA "c3" 2]).2 0 1
      (claimOfA "c2" 2) (claimOfA "c3" 2) (by decide) (by decide) (by decide)⟩

/-! ## Failing a claim -/

/-- C2. `setDevicesFailed` on a claim with a `Preparing` device, the fetch of
the claim object succeeding: the loop copy of the device becomes `Failed`, and
the device in the claim's device sequence is still `Preparing`. -/
theorem setDevicesFailed_keeps_preparing :
    (setDevicesFailed quietClient (claimOfA "c1" 1)).err = none ∧
      (setDevicesFailed quietClient (claimOfA "c1" 1)).deviceCopies.map (fun d => d.State)
        = ["Failed"] ∧
      (setDevicesFailed quietClient (claimOfA "c1" 1)).claim.Devices.map (fun d => d.State)
        = ["Preparing"] := by
  decide

/-- C1. The capacity scenario: constraint `{A, 2}`, three claims each with one
`Preparing` device of model `A`. The configured count of `A` is 3, the pass
calls `setDevicesFailed` on the three claims, returns nil, and leaves the three
devices `Preparing`. -/
theorem RescheduleFailedNotification_capacity_scenario :
    (GetConfiguredDeviceCount quietClient threeClaimsOfA).toOption.map (fun f => f "A")
        = some 3 ∧
      (RescheduleFailedNotification quietClient nodeTwoA threeClaimsOfA).ret = none ∧
      (RescheduleFailedNotification quietClient nodeTwoA threeClaimsOfA).calls.map
        (fun c => c.target.Name) = ["c3", "c2", "c1"] ∧
      (RescheduleFailedNotification quietClient nodeTwoA threeClaimsOfA).claims.map
        (fun rc => rc.Devices.map (fun d => (d.Model, d.State)))
        = [[("A", "Preparing")], [("A", "Preparing")], [("A", "Preparing")]] := by
  refine ⟨by decide, by decide, by decide, by decide⟩

/-- C7. A store whose `Get` fails, a request for three `A` against the
constraint `{A, 2}`, one claim with a `Preparing` device of model `A`: the pass
decides to fail the claim, `setDevicesFailed` returns the error of the fetch,
and the pass returns nil. -/
theorem RescheduleFailedNotification_drops_get_error :
    claimVetoed nodeTwoA [{ Spec := { Resource := { Model := "A", Size := 3 } } }]
        [claimOfA "c1" 1] (claimOfA "c1" 1) = true ∧
      (RescheduleFailedNotification getFailsClient nodeTwoA [claimOfA "c1" 1]).calls.map
        (fun c => c.result.err)
        = [some (.wrap "failed to get ResourceClaim: %v" (.external "connection refused"))] ∧
      (RescheduleFailedNotification getFailsClient nodeTwoA [claimOfA "c1" 1]).ret = none := by
  refine ⟨by decide, by decide, by decide⟩

/-! ## The coexistence policy -/

/-- C6. In the table where `A` excludes the index of `B` the spec's policy
forbids the pair, and `isDeviceCoexistence` allows it. -/
theorem isDeviceCoexistence_ignores_table :
    specCanCoexist tableAB "A" "B" = false ∧ isDeviceCoexistence "A" "B" = true := by
  refine ⟨by decide, rfl⟩

/-! ## The cooldown -/

theorem Sub_gt_Minute (t u : Int) : Sub t u > Minute ↔ t - u > Minute := by
  unfold Sub Minute maxDuration minDuration
  split
  · constructor <;> intro _ <;> omega
  · split
    · constructor <;> intro _ <;> omega
    · exact Iff.rfl

/-- C3 as stated fails: a device released exactly one minute ago is reported
not eligible, so eligibility is not "elapsed time at least one minute". -/
theorem isLastUsedOverMinute_not_at_least :
    ¬ ∀ (clock : Clock) (resource : ComposableResource) (annotations : List (String × String))
        (s : String) (t : Int),
        resource.Annotations = some annotations → annotations.lookup lastUsedKey = some s →
        clock.parse s = .ok t →
        ((isLastUsedOverMinute clock resource).1 = true ↔ clock.now - t ≥ Minute) := by
  intro h
  have h1 := h (clockAt Minute) releasedAtZero [(lastUsedKey, "1970-01-01T00:00:00Z")]
    "1970-01-01T00:00:00Z" 0 rfl (by decide) rfl
  have h2 : (isLastUsedOverMinute (clockAt Minute) releasedAtZero).1 = false := by decide
  rw [h2] at h1
  have h3 : (clockAt Minute).now - 0 ≥ Minute := by decide
  exact absurd (h1.mpr h3) (by decide)

/-- C3, amended. For a live device whose last-used annotation parses as the
instant `t`, `isLastUsedOverMinute` returns no error and reports the device
eligible exactly when `now - t` is more than one minute. -/
theorem isLastUsedOverMinute_strict (clock : Clock) (resource : ComposableResource)
    (annotations : List (String × String)) (s : String) (t : Int)
    (hmap : resource.Annotations = some annotations)
    (hkey : annotations.lookup lastUsedKey = some s) (hparse : clock.parse s = .ok t) :
    (isLastUsedOverMinute clock resource).2 = none ∧
      ((isLastUsedOverMinute clock resource).1 = true ↔ clock.now - t > Minute) := by
  unfold isLastUsedOverMinute
  simp only [hmap, hkey, hparse, decide_eq_true_eq, true_and]
  exact Sub_gt_Minute _ _

/-- C3, amended, one nanosecond past the minute: the device is eligible. -/
theorem isLastUsedOverMinute_strict_witness :
    releasedAtZero.Annotations = some [(lastUsedKey, "1970-01-01T00:00:00Z")] ∧
      (clockAt (Minute + 1)).parse "1970-01-01T00:00:00Z" = .ok 0 ∧
      (isLastUsedOverMinute (clockAt (Minute + 1)) releasedAtZero).2 = none ∧
      ((isLastUsedOverMinute (clockAt (Minute + 1)) releasedAtZero).1 = true ↔
        (clockAt (Minute + 1)).now - 0 > Minute) :=
  ⟨rfl, rfl,
    isLastUsedOverMinute_strict (clockAt (Minute + 1)) releasedAtZero
      [(lastUsedKey, "1970-01-01T00:00:00Z")] "1970-01-01T00:00:00Z" 0 rfl (by decide) rfl⟩

/-! ## The reclaim evaluator -/

theorem isResourceSliceRed_of_list_ok (kubeClient : KubeClient) (name : String)
    (slices : List ResourceSlice) (h : kubeClient.ListResourceSlice = .ok slices) :
    isResourceSliceRed kubeClient name = (false, none) := by
  unfold isResourceSliceRed
  rw [h]

theorem isResourceSliceRed_list_ok (kubeClient : KubeClient) (name : String)
    (h : isResourceSliceRed kubeClient name = (false, none)) :
    ∃ slices, kubeClient.ListResourceSlice = .ok slices := by
  unfold isResourceSliceRed at h
  cases hl : kubeClient.ListResourceSlice with
  | error err => rw [hl] at h; simp at h
  | ok slices => exact ⟨slices, rfl⟩

theorem deviceLoop_of_list_ok (kubeClient : KubeClient) (clock : Clock) (used : GoMap Bool)
    (items : List ComposableResource) (slices : List ResourceSlice)
    (h : kubeClient.ListResourceSlice = .ok slices) (devices : List ResourceClaimDevice) :
    deviceLoop kubeClient clock used items devices =
      if devices.any (fun device => decide (device.State = "Preparing")) then .skip used
      else .fallThrough := by
  induction devices with
  | nil => simp [deviceLoop]
  | cons device rest ih =>
    unfold deviceLoop
    by_cases hp : device.State = "Preparing"
    · simp [hp, isResourceSliceRed_of_list_ok kubeClient device.Name slices h]
    · simp [hp, ih]

theorem flag_nil_map (name : String) : GoMap.flag none name = false := rfl

theorem stampLoop_nil_map (kubeClient : KubeClient) (clock : Clock)
    (items : List ComposableResource) :
    stampLoop kubeClient clock none items = { items := items, updates := [], stop := none } := by
  induction items with
  | nil => rfl
  | cons resource rest ih =>
    unfold stampLoop
    simp [flag_nil_map, ih]

/-- With the slices listed and the reservation map nil, `outerLoop` runs to its
end: it calls `setDevicesReschedule` on the visited claims without a
`Preparing` device, in order, and changes nothing else. -/
theorem claimLoop_of_list_ok (kubeClient : KubeClient) (clock : Clock)
    (slices : List ResourceSlice) (h : kubeClient.ListResourceSlice = .ok slices)
    (visit : List Nat) (st : ReclaimState) (hused : st.resourceUsed = none) :
    claimLoop kubeClient clock visit st =
      ({ st with calls := st.calls ++
          (((visit.filterMap (fun i => st.claims[i]?)).filter (fun rc => !hasPreparing rc)).map
            (fun rc => { target := rc, result := setDevicesReschedule kubeClient rc })) },
        .returned none) := by
  induction visit generalizing st with
  | nil => simp [claimLoop]
  | cons i rest ih =>
    obtain ⟨claims, calls, used, items, updates⟩ := st
    simp only at hused
    subst hused
    unfold claimLoop
    cases hget : claims[i]? with
    | none =>
      simp only []
      rw [ih _ rfl]
      simp [hget]
    | some rc =>
      simp only []
      rw [deviceLoop_of_list_ok kubeClient clock none items slices h]
      by_cases hp : hasPreparing rc = true
      · have hp2 : (rc.Devices.any fun device => decide (device.State = "Preparing")) = true := hp
        simp only [hp2, if_true]
        rw [ih _ rfl]
        simp [hget, hp]
      · have hp2 : (rc.Devices.any fun device => decide (device.State = "Preparing")) = false := by
          simpa [hasPreparing] using hp
        simp only [hp2, Bool.false_eq_true, if_false, stampLoop_nil_map,
          setDevicesReschedule_claim, writeDevices_self _ _ _ hget, List.append_nil]
        rw [ih _ rfl]
        simp [hget, hp]

theorem filterMap_getElem?_range {α : Type} (l : List α) :
    (List.range l.length).filterMap (fun i => l[i]?) = l := by
  induction l with
  | nil => rfl
  | cons x xs ih =>
    have hshift : ((fun i => (x :: xs)[i]?) ∘ Nat.succ) = fun i => xs[i]? := by
      funext i
      simp
    rw [List.length_cons, List.range_succ_eq_map, List.filterMap_cons]
    simp only [List.getElem?_cons_zero, List.filterMap_map, hshift, ih]

/-- The reclaim pass when the live devices and the resource slices are
listed: it returns nil, leaves the sorted claims as they are, reserves and
updates nothing, and has called `setDevicesReschedule` on exactly the claims
without a `Preparing` device. -/
theorem RescheduleNotification_of_lists_ok (kubeClient : KubeClient) (clock : Clock)
    (node : NodeInfo) (claims : List ResourceClaimInfo) (items : List ComposableResource)
    (slices : List ResourceSlice) (hitems : kubeClient.ListComposableResource = .ok items)
    (hslices : kubeClient.ListResourceSlice = .ok slices) :
    RescheduleNotification kubeClient clock node claims =
      { ret := .returned none
        state :=
          { claims := sortByTime claims
            calls := ((sortByTime claims).filter (fun rc => !hasPreparing rc)).map
              (fun rc => { target := rc, result := setDevicesReschedule kubeClient rc })
            resourceUsed := none
            items := items
            updates := [] } } := by
  unfold RescheduleNotification
  rw [hitems]
  simp only []
  rw [claimLoop_of_list_ok kubeClient clock slices hslices _ _ rfl]
  simp [filterMap_getElem?_range]

theorem deviceLoop_nil_map_skip (kubeClient : KubeClient) (clock : Clock)
    (items : List ComposableResource) (devices : List ResourceClaimDevice) (used : GoMap Bool)
    (h : deviceLoop kubeClient clock none items devices = .skip used) : used = none := by
  induction devices with
  | nil => simp [deviceLoop] at h
  | cons device rest ih =>
    unfold deviceLoop at h
    split at h
    · split at h
      · cases h
      · split at h
        · injection h with h; exact h.symm
        · split at h
          · simp [GoMap.store] at h
          · exact ih h
    · exact ih h

theorem deviceLoop_abort (kubeClient : KubeClient) (clock : Clock) (used : GoMap Bool)
    (items : List ComposableResource) (devices : List ResourceClaimDevice) (err : Err)
    (h : deviceLoop kubeClient clock used items devices = .abort err) :
    ∃ cause, err = .wrap "failed to list ResourceClaims: %v" cause := by
  induction devices with
  | nil => simp [deviceLoop] at h
  | cons device rest ih =>
    unfold deviceLoop at h
    split at h
    · split at h
      · next e hred =>
        injection h with h
        subst h
        unfold isResourceSliceRed at hred
        split at hred
        · next cause _ => exact ⟨cause, by injection hred with _ h2; injection h2 with h3; exact h3.symm⟩
        · simp at hred
      · split at h
        · cases h
        · split at h
          · split at h <;> cases h
          · exact ih h
    · exact ih h

theorem stampLoop_returned (kubeClient : KubeClient) (clock : Clock) (used : GoMap Bool)
    (items : List ComposableResource) (err : Err)
    (h : (stampLoop kubeClient clock used items).stop = some (.returned (some err))) :
    ∃ cause, err = .wrap "failed to update ComposableResource: %w" cause := by
  induction items with
  | nil => simp [stampLoop] at h
  | cons resource rest ih =>
    unfold stampLoop at h
    split at h
    · dsimp only at h
      split at h
      · simp at h
      · split at h
        · next cause _ => exact ⟨cause, by simpa using h.symm⟩
        · exact ih h
    · exact ih h

/-- Every error that `outerLoop` returns comes from the listing of the slices
or from the update of a live device, and the reservation map stays nil. -/
theorem claimLoop_shape (kubeClient : KubeClient) (clock : Clock) (visit : List Nat)
    (st : ReclaimState) (hused : st.resourceUsed = none) :
    (claimLoop kubeClient clock visit st).1.resourceUsed = none ∧
      ∀ err, (claimLoop kubeClient clock visit st).2 = .returned (some err) →
        ∃ cause, err = .wrap "failed to list ResourceClaims: %v" cause ∨
          err = .wrap "failed to update ComposableResource: %w" cause := by
  induction visit generalizing st with
  | nil => simp [claimLoop, hused]
  | cons i rest ih =>
    unfold claimLoop
    split
    · exact ih st hused
    · next rc _ =>
      rw [hused]
      split
      · next err hdev =>
        refine ⟨hused, ?_⟩
        intro e he
        simp only [Outcome.returned.injEq, Option.some.injEq] at he
        subst he
        obtain ⟨cause, hc⟩ := deviceLoop_abort _ _ _ _ _ _ hdev
        exact ⟨cause, Or.inl hc⟩
      · exact ⟨hused, by intro e he; cases he⟩
      · next used hdev =>
        have := deviceLoop_nil_map_skip _ _ _ _ _ hdev
        subst this
        exact ih _ rfl
      · simp only []
        split
        · next out hstop =>
          refine ⟨rfl, ?_⟩
          intro e he
          subst he
          obtain ⟨cause, hc⟩ := stampLoop_returned _ _ _ _ _ hstop
          exact ⟨cause, Or.inr hc⟩
        · exact ih _ rfl

/-- Every error the reclaim pass returns is one of its three wrapped errors,
and the reservation map is nil when it ends. -/
theorem RescheduleNotification_shape (kubeClient : KubeClient) (clock : Clock) (node : NodeInfo)
    (claims : List ResourceClaimInfo) :
    (RescheduleNotification kubeClient clock node claims).state.resourceUsed = none ∧
      ∀ err, (RescheduleNotification kubeClient clock node claims).ret = .returned (some err) →
        ∃ cause, err = .wrap "failed to list ComposableResourceList: %v" cause ∨
          err = .wrap "failed to list ResourceClaims: %v" cause ∨
          err = .wrap "failed to update ComposableResource: %w" cause := by
  unfold RescheduleNotification
  split
  · next cause _ =>
    refine ⟨rfl, ?_⟩
    intro err herr
    simp only [Outcome.returned.injEq, Option.some.injEq] at herr
    exact ⟨cause, Or.inl herr.symm⟩
  · next items _ =>
    have hshape := claimLoop_shape kubeClient clock (List.range (sortByTime claims).length)
      { claims := sortByTime claims, calls := [], resourceUsed := none, items := items
        updates := [] } rfl
    refine ⟨hshape.1, ?_⟩
    intro err herr
    obtain ⟨cause, hc⟩ := hshape.2 err herr
    exact ⟨cause, Or.inr hc⟩

theorem isLastUsedOverMinute_unreadable (clock : Clock) (resource : ComposableResource)
    (h : lastUsedUnreadable clock resource = true) :
    ∃ err, isLastUsedOverMinute clock resource = (false, some err) ∧
      ((∃ text, err = .errorf text) ∨ ∃ cause, err = .wrap "failed to parse time: %v" cause) := by
  unfold lastUsedUnreadable at h
  unfold isLastUsedOverMinute
  split
  · exact ⟨_, rfl, Or.inl ⟨_, rfl⟩⟩
  · next annotations hmap =>
    rw [hmap] at h
    simp only at h
    split
    · exact ⟨_, rfl, Or.inl ⟨_, rfl⟩⟩
    · next s hkey =>
      rw [hkey] at h
      simp only at h
      split
      · next cause _ => exact ⟨_, rfl, Or.inr ⟨cause, rfl⟩⟩
      · next t hparse =>
        rw [hparse] at h
        simp at h

theorem resourceLoop_skips_unreadable (clock : Clock) (resource : ComposableResource)
    (h : lastUsedUnreadable clock resource = true) (used : GoMap Bool)
    (device : ResourceClaimDevice) (rest : List ComposableResource) :
    resourceLoop clock used device (resource :: rest) = resourceLoop clock used device rest := by
  obtain ⟨err, herr, _⟩ := isLastUsedOverMinute_unreadable clock resource h
  rw [resourceLoop]
  split
  · rfl
  · split
    · simp [herr]
    · rfl

/-- C8. A live device whose annotation map is absent, or lacks the last-used
key, or holds a text that is not a valid RFC3339 time, is reported not
eligible with an error by `isLastUsedOverMinute`; the reclaim pass never
returns that error; the search loop passes over the device and goes on with
the next live device, whatever the reservation map and the claim device; and
the device is not reserved when the pass ends. -/
theorem unreadable_last_used_is_soft (kubeClient : KubeClient) (clock : Clock) (node : NodeInfo)
    (claims : List ResourceClaimInfo) (resource : ComposableResource)
    (h : lastUsedUnreadable clock resource = true) :
    (∃ err, isLastUsedOverMinute clock resource = (false, some err) ∧
        (RescheduleNotification kubeClient clock node claims).ret ≠ .returned (some err)) ∧
      (∀ (used : GoMap Bool) (device : ResourceClaimDevice) (rest : List ComposableResource),
        resourceLoop clock used device (resource :: rest) =
          resourceLoop clock used device rest) ∧
      (RescheduleNotification kubeClient clock node claims).state.resourceUsed.flag
        resource.Name = false := by
  obtain ⟨err, herr, hkind⟩ := isLastUsedOverMinute_unreadable clock resource h
  have hshape := RescheduleNotification_shape kubeClient clock node claims
  refine ⟨⟨err, herr, ?_⟩, resourceLoop_skips_unreadable clock resource h, ?_⟩
  · intro hret
    obtain ⟨cause, hc⟩ := hshape.2 err hret
    rcases hkind with ⟨text, ht⟩ | ⟨cause2, ht⟩
    · subst ht
      rcases hc with hc | hc | hc <;> cases hc
    · subst ht
      rcases hc with hc | hc | hc <;> · injection hc with hf _; exact absurd hf (by decide)
  · rw [hshape.1]
    rfl

/-- C8, on a live device without annotation map in an inventory of two. -/
theorem unreadable_last_used_is_soft_witness :
    lastUsedUnreadable (clockAt 0) (liveDevice "res-nil" none) = true ∧
      (∃ err, isLastUsedOverMinute (clockAt 0) (liveDevice "res-nil" none) = (false, some err) ∧
        (RescheduleNotification inventoryClient (clockAt 0) nodeTwoA threeClaimsOfA).ret
          ≠ .returned (some err)) :=
  ⟨rfl, (unreadable_last_used_is_soft inventoryClient (clockAt 0) nodeTwoA threeClaimsOfA
    (liveDevice "res-nil" none) rfl).1⟩

/-- C9. A claim whose first `Preparing` device is reported not binding-pending
is left untouched by the reclaim pass, whatever the live devices are:
`setDevicesReschedule` is not called on it, the claim is still in the slice and
the slice is a permutation of the input (so no device state has changed), no
live device is reserved and none is updated. -/
theorem RescheduleNotification_skips_unblocked (kubeClient : KubeClient) (clock : Clock)
    (node : NodeInfo) (claims : List ResourceClaimInfo) (rc : ResourceClaimInfo)
    (d : ResourceClaimDevice) (hrc : rc ∈ claims)
    (hfirst : rc.Devices.find? (fun device => decide (device.State = "Preparing")) = some d)
    (hred : isResourceSliceRed kubeClient d.Name = (false, none)) :
    (∀ c ∈ (RescheduleNotification kubeClient clock node claims).state.calls, c.target ≠ rc) ∧
      (RescheduleNotification kubeClient clock node claims).state.claims.Perm claims ∧
      rc ∈ (RescheduleNotification kubeClient clock node claims).state.claims ∧
      (∀ name, (RescheduleNotification kubeClient clock node claims).state.resourceUsed.flag
        name = false) ∧
      (RescheduleNotification kubeClient clock node claims).state.updates = [] := by
  obtain ⟨slices, hslices⟩ := isResourceSliceRed_list_ok kubeClient d.Name hred
  have hprep : hasPreparing rc = true := by
    unfold hasPreparing
    rw [List.any_eq_true]
    have hd : decide (d.State = "Preparing") = true :=
      @List.find?_some ResourceClaimDevice
        (fun device => decide (device.State = "Preparing")) d rc.Devices hfirst
    exact ⟨d, List.mem_of_find?_eq_some hfirst, hd⟩
  cases hitems : kubeClient.ListComposableResource with
  | error err =>
    have hpass : RescheduleNotification kubeClient clock node claims =
        { ret := .returned (some (.wrap "failed to list ComposableResourceList: %v" err))
          state := { claims := claims, calls := [], resourceUsed := none
                     items := [], updates := [] } } := by
      unfold RescheduleNotification
      rw [hitems]
    rw [hpass]
    exact ⟨by simp, List.Perm.refl _, hrc, fun _ => rfl, rfl⟩
  | ok items =>
    rw [RescheduleNotification_of_lists_ok kubeClient clock node claims items slices hitems
      hslices]
    refine ⟨?_, sortByTime_perm claims, (sortByTime_perm claims).mem_iff.mpr hrc,
      fun _ => rfl, rfl⟩
    intro c hc heq
    simp only [List.mem_map, List.mem_filter] at hc
    obtain ⟨rc2, ⟨_, hidle⟩, hc2⟩ := hc
    subst hc2
    simp only at heq
    subst heq
    simp [hprep] at hidle

/-- C9, on the first of three claims with a `Preparing` device, with two live
devices in the inventory. -/
theorem RescheduleNotification_skips_unblocked_witness :
    claimOfA "c1" 1 ∈ threeClaimsOfA ∧
      isResourceSliceRed inventoryClient "gpu-c1" = (false, none) ∧
      (∀ c ∈ (RescheduleNotification inventoryClient (clockAt 0) nodeTwoA
          threeClaimsOfA).state.calls, c.target ≠ claimOfA "c1" 1) :=
  ⟨by decide, rfl,
    (RescheduleNotification_skips_unblocked inventoryClient (clockAt 0) nodeTwoA threeClaimsOfA
      (claimOfA "c1" 1) (preparingDevice "gpu-c1" "A") (by decide) (by decide) rfl).1⟩

theorem setDevicesReschedule_of_get_ok (kubeClient : KubeClient) (rc : ResourceClaimInfo)
    (obj : ResourceClaim) (h : kubeClient.Get rc.Name rc.Namespace = .ok obj) :
    (setDevicesReschedule kubeClient rc).err = none ∧
      (setDevicesReschedule kubeClient rc).statusCopies = obj.Status.Devices.map
        (fun s => { s with Conditions := s.Conditions ++
          [{ Type_ := "FabricDeviceReschedule", Status := "True" }] }) := by
  unfold setDevicesReschedule setDevices
  simp only [rangeByValue_fst, rangeByValue_snd]
  rw [h]
  exact ⟨rfl, rfl⟩

/-- C10. In a pass whose listings succeed, every supplied claim without a
`Preparing` device is handed to `setDevicesReschedule` (and the pass returns
nil); when the fetch of its claim object succeeds too, that call returns no
error and puts the `FabricDeviceReschedule` condition on its copy of every
device status entry of the fetched object. -/
theorem RescheduleNotification_passes_idle (kubeClient : KubeClient) (clock : Clock)
    (node : NodeInfo) (claims : List ResourceClaimInfo) (items : List ComposableResource)
    (slices : List ResourceSlice) (rc : ResourceClaimInfo)
    (hitems : kubeClient.ListComposableResource = .ok items)
    (hslices : kubeClient.ListResourceSlice = .ok slices) (hrc : rc ∈ claims)
    (hidle : ∀ device ∈ rc.Devices, device.State ≠ "Preparing") :
    (RescheduleNotification kubeClient clock node claims).ret = .returned none ∧
      ∃ c ∈ (RescheduleNotification kubeClient clock node claims).state.calls,
        c.target = rc ∧ c.result = setDevicesReschedule kubeClient rc ∧
        ∀ obj, kubeClient.Get rc.Name rc.Namespace = .ok obj →
          c.result.err = none ∧
          c.result.statusCopies = obj.Status.Devices.map
            (fun s => { s with Conditions := s.Conditions ++
              [{ Type_ := "FabricDeviceReschedule", Status := "True" }] }) := by
  rw [RescheduleNotification_of_lists_ok kubeClient clock node claims items slices hitems
    hslices]
  refine ⟨rfl, { target := rc, result := setDevicesReschedule kubeClient rc }, ?_, rfl, rfl,
    fun obj hobj => setDevicesReschedule_of_get_ok kubeClient rc obj hobj⟩
  simp only [List.mem_map, List.mem_filter]
  refine ⟨rc, ⟨(sortByTime_perm claims).mem_iff.mpr hrc, ?_⟩, rfl⟩
  simp only [hasPreparing, Bool.not_eq_true', List.any_eq_false, decide_eq_true_eq]
  exact hidle

/-- C10, on a claim whose only device is `Bound`, among claims that are still
preparing. -/
theorem RescheduleNotification_passes_idle_witness :
    boundClaim "c9" 5 ∈ [claimOfA "c1" 1, boundClaim "c9" 5] ∧
      (∀ device ∈ (boundClaim "c9" 5).Devices, device.State ≠ "Preparing") ∧
      (RescheduleNotification inventoryClient (clockAt 0) nodeTwoA
        [claimOfA "c1" 1, boundClaim "c9" 5]).ret = .returned none :=
  ⟨by decide, by decide,
    (RescheduleNotification_passes_idle inventoryClient (clockAt 0) nodeTwoA
      [claimOfA "c1" 1, boundClaim "c9" 5] _ _ (boundClaim "c9" 5) rfl rfl (by decide)
      (by decide)).1⟩

/-! ## The node label synchronizer -/

theorem notIn_eq_true {α : Type} [DecidableEq α] (x : α) (l : List α) :
    notIn x l = true ↔ x ∉ l := by
  simp [notIn]

theorem mem_foldl_addNew {β : Type} (p : β → Prop) [DecidablePred p] (key : β → String)
    (xs : List β) (init : List String) (m : String) :
    m ∈ xs.foldl (fun devices x =>
        if p x then (if notIn (key x) devices then devices ++ [key x] else devices)
        else devices) init ↔
      m ∈ init ∨ ∃ x ∈ xs, p x ∧ key x = m := by
  induction xs generalizing init with
  | nil => simp
  | cons x xs ih =>
    rw [List.foldl_cons, ih]
    by_cases hp : p x
    · by_cases hn : notIn (key x) init = true
      · simp only [hp, hn, if_true, List.mem_append, List.mem_cons, List.not_mem_nil, or_false,
          exists_eq_or_imp, true_and]
        constructor
        · rintro ((h | h) | h)
          · exact Or.inl h
          · exact Or.inr (Or.inl h.symm)
          · exact Or.inr (Or.inr h)
        · rintro (h | h | h)
          · exact Or.inl (Or.inl h)
          · exact Or.inl (Or.inr h.symm)
          · exact Or.inr h
      · have hmem : key x ∈ init := by
          by_contra hc
          exact hn ((notIn_eq_true _ _).mpr hc)
        simp only [hp, hn, if_true, if_false, List.mem_cons, exists_eq_or_imp, true_and]
        constructor
        · rintro (h | h)
          · exact Or.inl h
          · exact Or.inr (Or.inr h)
        · rintro (h | h | h)
          · exact Or.inl h
          · exact Or.inl (h ▸ hmem)
          · exact Or.inr h
    · simp [hp]

theorem mem_presentModels (requests : List ComposabilityRequest)
    (resources : List ComposableResource) (m : String) :
    m ∈ presentModels requests resources ↔ modelPresent requests resources m = true := by
  unfold presentModels modelPresent
  simp only []
  rw [mem_foldl_addNew (fun rs : ComposableResource => rs.Status.State = "Online")
    (fun rs => rs.Spec.Model) resources,
    mem_foldl_addNew (fun cr : ComposabilityRequest => cr.Spec.Resource.Size > 0)
    (fun cr => cr.Spec.Resource.Model) requests]
  simp [List.any_eq_true]

theorem mem_foldl_exclusions (device : String) (infos : List DeviceInfo) (init : List Int)
    (idx : Int) :
    idx ∈ infos.foldl (fun notCoexistID deviceInfo =>
        if device = deviceInfo.CDIModelName then notCoexistID ++ deviceInfo.CannotCoexistWith
        else notCoexistID) init ↔
      idx ∈ init ∨ ∃ e ∈ infos, device = e.CDIModelName ∧ idx ∈ e.CannotCoexistWith := by
  induction infos generalizing init with
  | nil => simp
  | cons e es ih =>
    rw [List.foldl_cons, ih]
    by_cases hd : device = e.CDIModelName
    · simp only [hd, if_true, List.mem_append, List.mem_cons, exists_eq_or_imp, true_and]
      tauto
    · simp [hd]

theorem mem_foldl_notCoexist (devices : List String) (infos : List DeviceInfo) (init : List Int)
    (idx : Int) :
    idx ∈ devices.foldl (fun notCoexistID device =>
        infos.foldl (fun notCoexistID deviceInfo =>
          if device = deviceInfo.CDIModelName then notCoexistID ++ deviceInfo.CannotCoexistWith
          else notCoexistID) notCoexistID) init ↔
      idx ∈ init ∨ ∃ e ∈ infos, e.CDIModelName ∈ devices ∧ idx ∈ e.CannotCoexistWith := by
  induction devices generalizing init with
  | nil => simp
  | cons device rest ih =>
    rw [List.foldl_cons, ih, mem_foldl_exclusions]
    simp only [List.mem_cons]
    constructor
    · rintro ((h | ⟨e, he, hd, hi⟩) | ⟨e, he, hd, hi⟩)
      · exact Or.inl h
      · exact Or.inr ⟨e, he, Or.inl hd.symm, hi⟩
      · exact Or.inr ⟨e, he, Or.inr hd, hi⟩
    · rintro (h | ⟨e, he, hd | hd, hi⟩)
      · exact Or.inl (Or.inl h)
      · exact Or.inl (Or.inr ⟨e, he, hd.symm, hi⟩)
      · exact Or.inr ⟨e, he, hd, hi⟩

/-- The indices the code collects are the suppressed ones. -/
theorem mem_notCoexistIDs (requests : List ComposabilityRequest)
    (resources : List ComposableResource) (infos : List DeviceInfo) (idx : Int) :
    idx ∈ notCoexistIDs (presentModels requests resources) infos ↔
      indexSuppressed requests resources infos idx = true := by
  unfold notCoexistIDs indexSuppressed
  rw [mem_foldl_notCoexist]
  simp [List.any_eq_true, mem_presentModels]

theorem splitLabels_fold (spec : ComposableDRASpec) (ids : List Int) (infos : List DeviceInfo)
    (acc : List String × List String) :
    infos.foldl (fun acc deviceInfo =>
        if notIn deviceInfo.Index ids then
          (acc.1 ++ [spec.LabelPrefix ++ "/" ++ deviceInfo.K8sDeviceName], acc.2)
        else
          (acc.1, acc.2 ++ [spec.LabelPrefix ++ "/" ++ deviceInfo.K8sDeviceName])) acc =
      (acc.1 ++ (infos.filter (fun e => notIn e.Index ids)).map (labelOf spec),
        acc.2 ++ (infos.filter (fun e => !notIn e.Index ids)).map (labelOf spec)) := by
  induction infos generalizing acc with
  | nil => simp
  | cons e es ih =>
    rw [List.foldl_cons, ih]
    by_cases hn : notIn e.Index ids = true
    · simp [hn, labelOf]
    · simp [hn, labelOf]

theorem splitLabels_eq (spec : ComposableDRASpec) (ids : List Int) :
    splitLabels spec ids =
      ((spec.DeviceInfos.filter (fun e => notIn e.Index ids)).map (labelOf spec),
        (spec.DeviceInfos.filter (fun e => !notIn e.Index ids)).map (labelOf spec)) := by
  unfold splitLabels
  rw [splitLabels_fold]
  simp

theorem lookup_foldl_add (adds : List String) (labels : List (String × String)) (k : String) :
    (adds.foldl (fun m label => (label, "true") :: m) labels).lookup k =
      if k ∈ adds then some "true" else labels.lookup k := by
  induction adds generalizing labels with
  | nil => simp
  | cons a rest ih =>
    rw [List.foldl_cons, ih]
    by_cases hr : k ∈ rest
    · simp [hr]
    · by_cases ha : k = a
      · simp [ha, List.lookup_cons]
      · have hb : (k == a) = false := by simpa using ha
        simp [hr, ha, List.lookup_cons, hb]

theorem lookup_filter_ne (labels : List (String × String)) (label k : String) :
    (labels.filter (fun kv => !(kv.1 == label))).lookup k =
      if k = label then none else labels.lookup k := by
  induction labels with
  | nil => simp
  | cons kv rest ih =>
    obtain ⟨a, v⟩ := kv
    by_cases ha : a = label
    · subst ha
      rw [List.filter_cons_of_neg (by simp), ih]
      by_cases hk : k = a
      · simp [hk]
      · have hb : (k == a) = false := by simpa using hk
        simp [hk, List.lookup_cons, hb]
    · have hfa : (!(a == label)) = true := by simpa using ha
      rw [List.filter_cons_of_pos (by simpa using hfa), List.lookup_cons, List.lookup_cons, ih]
      by_cases hk : k = label
      · subst hk
        have hka : (k == a) = false := by
          simp only [beq_eq_false_iff_ne, ne_eq]
          intro h
          exact ha h.symm
        simp [hka]
      · simp [hk]

theorem lookup_foldl_delete (dels : List String) (labels : List (String × String)) (k : String) :
    (dels.foldl (fun m label => m.filter (fun kv => !(kv.1 == label))) labels).lookup k =
      if k ∈ dels then none else labels.lookup k := by
  induction dels generalizing labels with
  | nil => simp
  | cons a rest ih =>
    rw [List.foldl_cons, ih, lookup_filter_ne]
    by_cases hr : k ∈ rest
    · simp [hr]
    · by_cases ha : k = a
      · simp [ha]
      · simp [hr, ha]

theorem lookup_applyLabels (labels : List (String × String)) (adds dels : List String)
    (k : String) :
    (applyLabels labels adds dels).lookup k =
      if k ∈ dels then none else if k ∈ adds then some "true" else labels.lookup k := by
  unfold applyLabels
  simp only []
  rw [lookup_foldl_delete, lookup_foldl_add]

theorem labelOf_inj (spec : ComposableDRASpec) (e e2 : DeviceInfo)
    (h : labelOf spec e = labelOf spec e2) : e.K8sDeviceName = e2.K8sDeviceName := by
  unfold labelOf at h
  have hd := congrArg String.data h
  simp only [String.data_append, List.append_assoc] at hd
  exact String.ext (List.append_cancel_left (List.append_cancel_left hd))

theorem notIn_notCoexistIDs (requests : List ComposabilityRequest)
    (resources : List ComposableResource) (infos : List DeviceInfo) (idx : Int) :
    notIn idx (notCoexistIDs (presentModels requests resources) infos) =
      !indexSuppressed requests resources infos idx := by
  cases hs : indexSuppressed requests resources infos idx with
  | true =>
    have hm := (mem_notCoexistIDs requests resources infos idx).mpr hs
    simpa [notIn] using hm
  | false =>
    have hm : idx ∉ notCoexistIDs (presentModels requests resources) infos := by
      intro hc
      rw [mem_notCoexistIDs, hs] at hc
      cases hc
    simpa [notIn] using hm

/-- The label pass when every read and the update succeed. -/
theorem UpdateNodeLabel_of_reads_ok (kubeClient : KubeClient) (clientSet : Clientset)
    (nodeInfo : NodeInfo) (requests : List ComposabilityRequest)
    (resources : List ComposableResource) (spec : ComposableDRASpec) (node : Node)
    (hreq : kubeClient.ListComposabilityRequest = .ok requests)
    (hres : kubeClient.ListComposableResource = .ok resources)
    (hcfg : clientSet.GetConfigMapInfo = .ok spec)
    (hnode : clientSet.GetNode nodeInfo.Name = .ok node)
    (hupd : ∀ n, clientSet.UpdateNode n = none) :
    UpdateNodeLabel kubeClient clientSet nodeInfo =
      { ret := none
        updateNode := some
          { node with
            Labels := some (applyLabels (match node.Labels with
                | none => []
                | some kvs => kvs)
              (splitLabels spec
                (notCoexistIDs (presentModels requests resources) spec.DeviceInfos)).1
              (splitLabels spec
                (notCoexistIDs (presentModels requests resources) spec.DeviceInfos)).2) } } := by
  unfold UpdateNodeLabel
  rw [hreq]
  simp only []
  rw [hres]
  simp only []
  rw [hcfg]
  simp only []
  rw [hnode]
  simp only []
  rw [hupd]

/-- C5. With the reads and the update succeeding and the label names of the
config table pairwise distinct, the node handed to the update carries, for
every config entry `e`, the label `LabelPrefix + "/" + e.K8sDeviceName` with
value `"true"` when `e.Index` is not suppressed and does not carry that label
when `e.Index` is suppressed. -/
theorem UpdateNodeLabel_label_set (kubeClient : KubeClient) (clientSet : Clientset)
    (nodeInfo : NodeInfo) (requests : List ComposabilityRequest)
    (resources : List ComposableResource) (spec : ComposableDRASpec) (node : Node)
    (hreq : kubeClient.ListComposabilityRequest = .ok requests)
    (hres : kubeClient.ListComposableResource = .ok resources)
    (hcfg : clientSet.GetConfigMapInfo = .ok spec)
    (hnode : clientSet.GetNode nodeInfo.Name = .ok node)
    (hupd : ∀ n, clientSet.UpdateNode n = none)
    (hdistinct : (spec.DeviceInfos.map (fun e => e.K8sDeviceName)).Nodup) :
    (UpdateNodeLabel kubeClient clientSet nodeInfo).ret = none ∧
      ∃ updated, (UpdateNodeLabel kubeClient clientSet nodeInfo).updateNode = some updated ∧
        ∀ e ∈ spec.DeviceInfos,
          updated.Labels.get (labelOf spec e) =
            if indexSuppressed requests resources spec.DeviceInfos e.Index then none
            else some "true" := by
  rw [UpdateNodeLabel_of_reads_ok kubeClient clientSet nodeInfo requests resources spec node
    hreq hres hcfg hnode hupd]
  refine ⟨rfl, _, rfl, ?_⟩
  intro e he
  have hsplit := splitLabels_eq spec
    (notCoexistIDs (presentModels requests resources) spec.DeviceInfos)
  simp only [notIn_notCoexistIDs, Bool.not_not] at hsplit
  simp only [GoMap.get]
  rw [lookup_applyLabels, hsplit]
  cases hs : indexSuppressed requests resources spec.DeviceInfos e.Index with
  | true =>
    have hdel : labelOf spec e ∈ (spec.DeviceInfos.filter
        (fun e => indexSuppressed requests resources spec.DeviceInfos e.Index)).map
        (labelOf spec) :=
      List.mem_map.mpr ⟨e, List.mem_filter.mpr ⟨he, hs⟩, rfl⟩
    rw [if_pos hdel]
    rfl
  | false =>
    have hdel : labelOf spec e ∉ (spec.DeviceInfos.filter
        (fun e => indexSuppressed requests resources spec.DeviceInfos e.Index)).map
        (labelOf spec) := by
      intro hmem
      obtain ⟨a, hfa, hlabel⟩ := List.mem_map.mp hmem
      obtain ⟨ha, hsa⟩ := List.mem_filter.mp hfa
      have hname := labelOf_inj spec a e hlabel
      have hae : a = e := List.inj_on_of_nodup_map hdistinct ha he hname
      rw [hae, hs] at hsa
      cases hsa
    have hadd : labelOf spec e ∈ (spec.DeviceInfos.filter
        (fun e => !indexSuppressed requests resources spec.DeviceInfos e.Index)).map
        (labelOf spec) :=
      List.mem_map.mpr ⟨e, List.mem_filter.mpr ⟨he, by simp [hs]⟩, rfl⟩
    rw [if_neg hdel, if_pos hadd]
    rfl

/-- C5, on the scenario of the spec: model `A` is present and excludes `B`,
`B` is not present; the label of `B` is removed and the label of `A` added. -/
theorem UpdateNodeLabel_label_set_witness :
    (specAB.DeviceInfos.map (fun e => e.K8sDeviceName)).Nodup ∧
      (UpdateNodeLabel requestAClient clientsetAB nodeTwoA).ret = none ∧
      ∃ updated, (UpdateNodeLabel requestAClient clientsetAB nodeTwoA).updateNode
          = some updated ∧
        ∀ e ∈ specAB.DeviceInfos,
          updated.Labels.get (labelOf specAB e) =
            if indexSuppressed [{ Spec := { Resource := { Model := "A", Size := 1 } } }] []
              specAB.DeviceInfos e.Index then none
            else some "true" :=
  ⟨by decide,
    UpdateNodeLabel_label_set requestAClient clientsetAB nodeTwoA
      [{ Spec := { Resource := { Model := "A", Size := 1 } } }] [] specAB
      { Name := "node1", Labels := some [("composable.test/b", "true"), ("zone", "z1")] }
      rfl rfl rfl rfl (fun _ => rfl) (by decide)⟩

/-! ## Rescheduling a claim -/

/-- C11. `setDevicesReschedule` on a claim with a `Preparing` device, the fetch
of the claim object succeeding: the loop copy of the device becomes
`Reschedule`, and the device in the claim's device sequence is still
`Preparing`. -/
theorem setDevicesReschedule_keeps_preparing :
    (setDevicesReschedule quietClient (claimOfA "c1" 1)).err = none ∧
      (setDevicesReschedule quietClient (claimOfA "c1" 1)).deviceCopies.map (fun d => d.State)
        = ["Reschedule"] ∧
      (setDevicesReschedule quietClient (claimOfA "c1" 1)).claim.Devices.map (fun d => d.State)
        = ["Preparing"] := by
  decide

/-! ## The binding-pending check -/

/-- C14. `isResourceSliceRed` is a stub: whenever the slices are listed, also
when one of them holds a device of the given name, it returns `(false, nil)`;
and it returns an error exactly when the listing fails. -/
theorem isResourceSliceRed_stub (kubeClient : KubeClient) (claimDeviceName : String) :
    (∀ slices, kubeClient.ListResourceSlice = .ok slices →
        isResourceSliceRed kubeClient claimDeviceName = (false, none)) ∧
      ((isResourceSliceRed kubeClient claimDeviceName).2 ≠ none ↔
        ∃ err, kubeClient.ListResourceSlice = .error err) := by
  refine ⟨fun slices h => isResourceSliceRed_of_list_ok kubeClient claimDeviceName slices h, ?_⟩
  unfold isResourceSliceRed
  cases h : kubeClient.ListResourceSlice with
  | error err => simp
  | ok slices => simp

/-- C14, on a listing that holds a device of the name asked for. -/
theorem isResourceSliceRed_stub_witness :
    inventoryClient.ListResourceSlice = .ok [{ Spec := { Devices := [{ Name := "gpu-c1" }] } }] ∧
      isResourceSliceRed inventoryClient "gpu-c1" = (false, none) :=
  ⟨rfl, (isResourceSliceRed_stub inventoryClient "gpu-c1").1 _ rfl⟩

/-! ## Failure of the first listing -/

/-- C16. When the first listing fails, the pass returns a non-nil error, the
claim slice is the one supplied, in the same order and with the same devices,
and neither `setDevicesFailed` nor `setDevicesReschedule` has been called:
for the failure pass on the listing of the pending requests, for the reclaim
pass on the listing of the live devices. -/
theorem list_failure_aborts (kubeClient : KubeClient) (clock : Clock) (node : NodeInfo)
    (claims : List ResourceClaimInfo) :
    (∀ err, kubeClient.ListComposabilityRequest = .error err →
        (RescheduleFailedNotification kubeClient node claims).ret = some err ∧
        (RescheduleFailedNotification kubeClient node claims).claims = claims ∧
        (RescheduleFailedNotification kubeClient node claims).calls = []) ∧
      (∀ err, kubeClient.ListComposableResource = .error err →
        (RescheduleNotification kubeClient clock node claims).ret =
          .returned (some (.wrap "failed to list ComposableResourceList: %v" err)) ∧
        (RescheduleNotification kubeClient clock node claims).state.claims = claims ∧
        (RescheduleNotification kubeClient clock node claims).state.calls = []) := by
  constructor
  · intro err h
    unfold RescheduleFailedNotification
    rw [h]
    exact ⟨rfl, rfl, rfl⟩
  · intro err h
    unfold RescheduleNotification
    rw [h]
    exact ⟨rfl, rfl, rfl⟩

/-- C16, on a store whose listings fail and three claims given oldest first:
the failure pass returns the error and leaves the claims in the order given. -/
theorem list_failure_aborts_witness :
    listFailsClient.ListComposabilityRequest = .error (.external "requests unavailable") ∧
      (RescheduleFailedNotification listFailsClient nodeTwoA threeClaimsOfA).ret
        = some (.external "requests unavailable") ∧
      (RescheduleFailedNotification listFailsClient nodeTwoA threeClaimsOfA).claims
        = threeClaimsOfA ∧
      (RescheduleFailedNotification listFailsClient nodeTwoA threeClaimsOfA).calls = [] :=
  ⟨rfl, (list_failure_aborts listFailsClient (clockAt 0) nodeTwoA threeClaimsOfA).1 _ rfl⟩

/-! ## Labels outside the config table -/

/-- C19. With the reads and the update succeeding, a label whose key is not
`LabelPrefix + "/" + K8sDeviceName` of any config entry is present with the
same value, or absent, in the node handed to the update exactly as in the node
read from the store. -/
theorem UpdateNodeLabel_keeps_other_labels (kubeClient : KubeClient) (clientSet : Clientset)
    (nodeInfo : NodeInfo) (requests : List ComposabilityRequest)
    (resources : List ComposableResource) (spec : ComposableDRASpec) (node : Node)
    (key : String)
    (hreq : kubeClient.ListComposabilityRequest = .ok requests)
    (hres : kubeClient.ListComposableResource = .ok resources)
    (hcfg : clientSet.GetConfigMapInfo = .ok spec)
    (hnode : clientSet.GetNode nodeInfo.Name = .ok node)
    (hupd : ∀ n, clientSet.UpdateNode n = none)
    (hkey : ∀ e ∈ spec.DeviceInfos, labelOf spec e ≠ key) :
    ∃ updated, (UpdateNodeLabel kubeClient clientSet nodeInfo).updateNode = some updated ∧
      updated.Labels.get key = node.Labels.get key := by
  rw [UpdateNodeLabel_of_reads_ok kubeClient clientSet nodeInfo requests resources spec node
    hreq hres hcfg hnode hupd]
  refine ⟨_, rfl, ?_⟩
  simp only [GoMap.get]
  rw [lookup_applyLabels, splitLabels_eq]
  have hdel : key ∉ (spec.DeviceInfos.filter (fun e => !notIn e.Index
      (notCoexistIDs (presentModels requests resources) spec.DeviceInfos))).map
      (labelOf spec) := by
    intro hmem
    obtain ⟨e, he, hlabel⟩ := List.mem_map.mp hmem
    exact hkey e (List.mem_filter.mp he).1 hlabel
  have hadd : key ∉ (spec.DeviceInfos.filter (fun e => notIn e.Index
      (notCoexistIDs (presentModels requests resources) spec.DeviceInfos))).map
      (labelOf spec) := by
    intro hmem
    obtain ⟨e, he, hlabel⟩ := List.mem_map.mp hmem
    exact hkey e (List.mem_filter.mp he).1 hlabel
  rw [if_neg hdel, if_neg hadd]
  cases node.Labels with
  | none => rfl
  | some kvs => rfl

/-- C19, on the label `zone` of the node of the label scenario. -/
theorem UpdateNodeLabel_keeps_other_labels_witness :
    (∀ e ∈ specAB.DeviceInfos, labelOf specAB e ≠ "zone") ∧
      ∃ updated, (UpdateNodeLabel requestAClient clientsetAB nodeTwoA).updateNode
          = some updated ∧
        updated.Labels.get "zone" = GoMap.get (some [("composable.test/b", "true"),
          ("zone", "z1")]) "zone" :=
  ⟨by decide,
    UpdateNodeLabel_keeps_other_labels requestAClient clientsetAB nodeTwoA
      [{ Spec := { Resource := { Model := "A", Size := 1 } } }] [] specAB
      { Name := "node1", Labels := some [("composable.test/b", "true"), ("zone", "z1")] }
      "zone" rfl rfl rfl rfl (fun _ => rfl) (by decide)⟩

/-! ## Frame of the two passes -/

theorem isResourceSliceRed_of_list_error (kubeClient : KubeClient) (name : String) (err : Err)
    (h : kubeClient.ListResourceSlice = .error err) :
    isResourceSliceRed kubeClient name =
      (false, some (.wrap "failed to list ResourceClaims: %v" err)) := by
  unfold isResourceSliceRed
  rw [h]

/-- The walk over the devices of a claim ends in `continue outerLoop` with the
reservation map untouched, at the end of the loop, or in the return of the
listing error; it never reaches the store into the reservation map. -/
theorem deviceLoop_cases (kubeClient : KubeClient) (clock : Clock) (used : GoMap Bool)
    (items : List ComposableResource) (devices : List ResourceClaimDevice) :
    deviceLoop kubeClient clock used items devices = .skip used ∨
      deviceLoop kubeClient clock used items devices = .fallThrough ∨
      ∃ cause, deviceLoop kubeClient clock used items devices =
        .abort (.wrap "failed to list ResourceClaims: %v" cause) := by
  induction devices with
  | nil => exact Or.inr (Or.inl rfl)
  | cons device rest ih =>
    unfold deviceLoop
    by_cases hp : device.State = "Preparing"
    · cases hl : kubeClient.ListResourceSlice with
      | error err =>
        rw [isResourceSliceRed_of_list_error kubeClient device.Name err hl]
        simp [hp]
      | ok slices =>
        rw [isResourceSliceRed_of_list_ok kubeClient device.Name slices hl]
        simp [hp]
    · simpa [hp] using ih

/-- With the reservation map nil, `outerLoop` keeps the claims, the map, the
live devices and the list of updates, and ends by returning nil or the error
of the listing of the slices. -/
theorem claimLoop_nil_map (kubeClient : KubeClient) (clock : Clock) (visit : List Nat)
    (st : ReclaimState) (hused : st.resourceUsed = none) :
    (claimLoop kubeClient clock visit st).1.claims = st.claims ∧
      (claimLoop kubeClient clock visit st).1.resourceUsed = none ∧
      (claimLoop kubeClient clock visit st).1.items = st.items ∧
      (claimLoop kubeClient clock visit st).1.updates = st.updates ∧
      ((claimLoop kubeClient clock visit st).2 = .returned none ∨
        ∃ cause, (claimLoop kubeClient clock visit st).2 =
          .returned (some (.wrap "failed to list ResourceClaims: %v" cause))) := by
  induction visit generalizing st with
  | nil => simp [claimLoop, hused]
  | cons i rest ih =>
    obtain ⟨claims, calls, used, items, updates⟩ := st
    simp only at hused
    subst hused
    unfold claimLoop
    cases hget : claims[i]? with
    | none => exact ih _ rfl
    | some rc =>
      simp only []
      rcases deviceLoop_cases kubeClient clock none items rc.Devices with h | h | ⟨cause, h⟩
      · rw [h]
        exact ih _ rfl
      · rw [h]
        simp only [stampLoop_nil_map, setDevicesReschedule_claim, writeDevices_self _ _ _ hget,
          List.append_nil]
        exact ih _ rfl
      · rw [h]
        exact ⟨rfl, rfl, rfl, rfl, Or.inr ⟨cause, rfl⟩⟩

/-- The reclaim pass, for every input: the claim slice is a rearrangement of
the one supplied, the reservation map is nil, no live device has been handed
to `Update`, the live devices are as listed, and the pass has returned nil or
the error of one of the two listings. -/
theorem RescheduleNotification_frame (kubeClient : KubeClient) (clock : Clock) (node : NodeInfo)
    (claims : List ResourceClaimInfo) :
    (RescheduleNotification kubeClient clock node claims).state.claims.Perm claims ∧
      (RescheduleNotification kubeClient clock node claims).state.resourceUsed = none ∧
      (RescheduleNotification kubeClient clock node claims).state.updates = [] ∧
      (∀ items, kubeClient.ListComposableResource = .ok items →
        (RescheduleNotification kubeClient clock node claims).state.items = items) ∧
      ((RescheduleNotification kubeClient clock node claims).ret = .returned none ∨
        (∃ cause, (RescheduleNotification kubeClient clock node claims).ret =
          .returned (some (.wrap "failed to list ComposableResourceList: %v" cause))) ∨
        ∃ cause, (RescheduleNotification kubeClient clock node claims).ret =
          .returned (some (.wrap "failed to list ResourceClaims: %v" cause))) := by
  unfold RescheduleNotification
  cases hitems : kubeClient.ListComposableResource with
  | error err =>
    refine ⟨List.Perm.refl _, rfl, rfl, ?_, Or.inr (Or.inl ⟨err, rfl⟩)⟩
    intro items h
    cases h
  | ok items =>
    have hloop := claimLoop_nil_map kubeClient clock (List.range (sortByTime claims).length)
      { claims := sortByTime claims, calls := [], resourceUsed := none, items := items
        updates := [] } rfl
    obtain ⟨hc, hu, hi, hup, hret⟩ := hloop
    refine ⟨?_, hu, hup, ?_, ?_⟩
    · simp only [hc]
      exact sortByTime_perm claims
    · intro items2 h
      injection h with h
      subst h
      exact hi
    · rcases hret with h | ⟨cause, h⟩
      · exact Or.inl h
      · exact Or.inr (Or.inr ⟨cause, h⟩)

theorem RescheduleFailedNotification_perm (kubeClient : KubeClient) (node : NodeInfo)
    (claims : List ResourceClaimInfo) :
    (RescheduleFailedNotification kubeClient node claims).claims.Perm claims := by
  cases h : kubeClient.ListComposabilityRequest with
  | error err =>
    unfold RescheduleFailedNotification
    rw [h]
  | ok requests =>
    rw [RescheduleFailedNotification_claims kubeClient node claims requests h]
    exact sortByTime_perm claims

theorem claimForward_same (target : String) (claims : List ResourceClaimInfo) :
    List.Forall₂ (claimForward target) claims claims := by
  rw [List.forall₂_same]
  intro rc _
  refine ⟨rfl, rfl, ?_⟩
  rw [List.forall₂_same]
  intro d _
  exact ⟨fun _ => rfl, fun h => Or.inl h⟩

/-- C13. Device states only move forward. For every input, the claims after the
failure pass are, in the order the pass leaves them, the supplied claims with
every device state kept, or `Preparing` kept or turned into `Failed`; and the
same for the reclaim pass with `Reschedule`. -/
theorem passes_move_states_forward (kubeClient : KubeClient) (clock : Clock) (node : NodeInfo)
    (claims : List ResourceClaimInfo) :
    (∃ before, before.Perm claims ∧ List.Forall₂ (claimForward "Failed") before
        (RescheduleFailedNotification kubeClient node claims).claims) ∧
      (∃ before, before.Perm claims ∧ List.Forall₂ (claimForward "Reschedule") before
        (RescheduleNotification kubeClient clock node claims).state.claims) :=
  ⟨⟨_, RescheduleFailedNotification_perm kubeClient node claims, claimForward_same _ _⟩,
    ⟨_, (RescheduleNotification_frame kubeClient clock node claims).1, claimForward_same _ _⟩⟩

/-- C18. The reclaim pass never writes a live device: for every input no name
is flagged in the reservation map when it ends, no object has been handed to
`Update`, the live devices (with their annotation maps) are as listed, and the
pass has not returned the "failed to update ComposableResource" error. -/
theorem RescheduleNotification_writes_no_device (kubeClient : KubeClient) (clock : Clock)
    (node : NodeInfo) (claims : List ResourceClaimInfo) :
    (∀ name, (RescheduleNotification kubeClient clock node claims).state.resourceUsed.flag
        name = false) ∧
      (RescheduleNotification kubeClient clock node claims).state.updates = [] ∧
      (∀ items, kubeClient.ListComposableResource = .ok items →
        (RescheduleNotification kubeClient clock node claims).state.items = items) ∧
      ∀ cause, (RescheduleNotification kubeClient clock node claims).ret ≠
        .returned (some (.wrap "failed to update ComposableResource: %w" cause)) := by
  obtain ⟨_, hu, hup, hi, hret⟩ := RescheduleNotification_frame kubeClient clock node claims
  refine ⟨?_, hup, hi, ?_⟩
  · intro name
    rw [hu]
    rfl
  · intro cause hc
    rw [hc] at hret
    rcases hret with h | ⟨c, h⟩ | ⟨c, h⟩
    · cases h
    · injection h with h
      injection h with h
      injection h with hf _
      exact absurd hf (by decide)
    · injection h with h
      injection h with h
      injection h with hf _
      exact absurd hf (by decide)

/-- C18, on an inventory of two live devices and three claims. -/
theorem RescheduleNotification_writes_no_device_witness :
    inventoryClient.ListComposableResource = .ok [liveDevice "res-nil" none, releasedAtZero] ∧
      (RescheduleNotification inventoryClient (clockAt (Minute + 1)) nodeTwoA
        threeClaimsOfA).state.items = [liveDevice "res-nil" none, releasedAtZero] :=
  ⟨rfl, (RescheduleNotification_writes_no_device inventoryClient (clockAt (Minute + 1)) nodeTwoA
    threeClaimsOfA).2.2.1 _ rfl⟩

/-- C15. In a pass over three claims in which every call succeeds, the
reservation map is the nil map when the pass ends (nothing allocates it), and
a store into the nil map is a panic; the pass returns nil because it never
reaches that store. -/
theorem RescheduleNotification_reservation_map_nil :
    (RescheduleNotification quietClient (clockAt 0) nodeTwoA threeClaimsOfA).state.resourceUsed
        = none ∧
      GoMap.store (none : GoMap Bool) "res-0" true = none ∧
      (RescheduleNotification quietClient (clockAt 0) nodeTwoA threeClaimsOfA).ret
        = .returned none := by
  refine ⟨by decide, rfl, by decide⟩

/-! ## Exclusive reservation -/

theorem resourceLoop_unreserved (clock : Clock) (used : GoMap Bool) (device : ResourceClaimDevice)
    (items : List ComposableResource) (name : String)
    (h : resourceLoop clock used device items = some name) :
    used.flag name = false ∧ ∃ r ∈ items, r.Name = name := by
  induction items with
  | nil => simp [resourceLoop] at h
  | cons resource rest ih =>
    rw [resourceLoop] at h
    split at h
    · obtain ⟨hf, r, hr, hn⟩ := ih h
      exact ⟨hf, r, List.mem_cons_of_mem _ hr, hn⟩
    · next hflag =>
      split at h
      · dsimp only at h
        split at h
        · obtain ⟨hf, r, hr, hn⟩ := ih h
          exact ⟨hf, r, List.mem_cons_of_mem _ hr, hn⟩
        · injection h with h
          subst h
          exact ⟨by simpa using hflag, resource, List.mem_cons_self _ _, rfl⟩
      · obtain ⟨hf, r, hr, hn⟩ := ih h
        exact ⟨hf, r, List.mem_cons_of_mem _ hr, hn⟩

/-- C12. Reservation is exclusive. The search for a live device to reuse never
returns a name that is flagged in the reservation map, whatever the map, so a
name reserved for one claim is not matched to a later one; the walk over the
devices of a claim leaves the reservation map as it found it; and when the pass
ends no name is flagged, so no live device has been matched to two claims. -/
theorem reservation_is_exclusive (kubeClient : KubeClient) (clock : Clock) (node : NodeInfo)
    (claims : List ResourceClaimInfo) :
    (∀ (used : GoMap Bool) (device : ResourceClaimDevice) (items : List ComposableResource)
        (name : String), resourceLoop clock used device items = some name →
        used.flag name = false ∧ ∃ r ∈ items, r.Name = name) ∧
      (∀ (used used2 : GoMap Bool) (items : List ComposableResource)
        (devices : List ResourceClaimDevice),
        deviceLoop kubeClient clock used items devices = .skip used2 → used2 = used) ∧
      ∀ name, (RescheduleNotification kubeClient clock node claims).state.resourceUsed.flag
        name = false := by
  refine ⟨fun used device items name h => resourceLoop_unreserved clock used device items name h,
    ?_, ?_⟩
  · intro used used2 items devices h
    rcases deviceLoop_cases kubeClient clock used items devices with h2 | h2 | ⟨cause, h2⟩
    · rw [h2] at h
      injection h with h
      exact h.symm
    · rw [h2] at h
      cases h
    · rw [h2] at h
      cases h
  · intro name
    rw [(RescheduleNotification_frame kubeClient clock node claims).2.1]
    rfl

/-- C12, on a live device released more than a minute ago that fits the claim
device: the search returns it while the reservation map is empty. -/
theorem reservation_is_exclusive_witness :
    resourceLoop (clockAt (Minute + 1)) (some []) (preparingDevice "gpu-c1" "A")
        [releasedAtZero] = some "res-0" ∧
      (GoMap.flag (some []) "res-0" = false ∧ ∃ r ∈ [releasedAtZero], r.Name = "res-0") :=
  ⟨by decide,
    (reservation_is_exclusive quietClient (clockAt (Minute + 1)) nodeTwoA threeClaimsOfA).1
      (some []) (preparingDevice "gpu-c1" "A") [releasedAtZero] "res-0" (by decide)⟩

/-! ## Selection of the first pass -/

theorem intraClaimVeto_false (rc : ResourceClaimInfo) (i : Nat) (rcDevice : ResourceClaimDevice) :
    intraClaimVeto rc i rcDevice = false := by
  simp [intraClaimVeto, isDeviceCoexistence]

theorem crossClaimVeto_false (claims : List ResourceClaimInfo) (rc : ResourceClaimInfo)
    (rcDevice : ResourceClaimDevice) : crossClaimVeto claims rc rcDevice = false := by
  simp [crossClaimVeto, isDeviceCoexistence]

theorem requestVeto_eq (node : NodeInfo) (requests : List ComposabilityRequest)
    (rcDevice : ResourceClaimDevice) :
    requestVeto node requests rcDevice =
      requests.any (fun request =>
        decide (request.Spec.Resource.Model = rcDevice.Model) &&
          node.Models.any (fun modelConstraint =>
            decide (modelConstraint.Model = rcDevice.Model) &&
              decide (request.Spec.Resource.Size > modelConstraint.MaxDevice))) := by
  unfold requestVeto
  induction requests with
  | nil => rfl
  | cons request rest ih =>
    rw [List.any_cons, List.any_cons, ih]
    congr 1
    by_cases hm : rcDevice.Model = request.Spec.Resource.Model
    · simp [hm]
    · have hm2 : ¬ request.Spec.Resource.Model = rcDevice.Model := fun h => hm h.symm
      simp [hm, hm2, isDeviceCoexistence]

theorem any_enumFrom_snd {α : Type} (g : α → Bool) (l : List α) (n : Nat) :
    (l.enumFrom n).any (fun id => g id.2) = l.any g := by
  induction l generalizing n with
  | nil => rfl
  | cons x xs ih => simp [List.enumFrom, ih]

/-- The walk of `outerLoop` over one claim selects it exactly on the capacity
condition. -/
theorem claimVetoed_eq (node : NodeInfo) (requests : List ComposabilityRequest)
    (claims : List ResourceClaimInfo) (rc : ResourceClaimInfo) :
    claimVetoed node requests claims rc = capacityVetoed node requests rc := by
  unfold claimVetoed capacityVetoed
  simp only [intraClaimVeto_false, crossClaimVeto_false, Bool.false_or, Bool.or_false,
    requestVeto_eq]
  exact any_enumFrom_snd (fun d => decide (d.State = "Preparing") &&
    requests.any (fun request =>
      decide (request.Spec.Resource.Model = d.Model) &&
        node.Models.any (fun modelConstraint =>
          decide (modelConstraint.Model = d.Model) &&
            decide (request.Spec.Resource.Size > modelConstraint.MaxDevice)))) rc.Devices 0

theorem vetoLoop_fold (kubeClient : KubeClient) (node : NodeInfo)
    (requests : List ComposabilityRequest) (visit : List Nat) (st : FailedState) :
    visit.foldl (fun st i =>
        match st.claims[i]? with
        | none => st
        | some rc =>
          if claimVetoed node requests st.claims rc then failClaim kubeClient st i rc else st) st =
      { claims := st.claims
        calls := st.calls ++
          (((visit.filterMap (fun i => st.claims[i]?)).filter
            (capacityVetoed node requests)).map
            (fun rc => { target := rc, result := setDevicesFailed kubeClient rc })) } := by
  induction visit generalizing st with
  | nil => simp
  | cons i rest ih =>
    obtain ⟨claims, calls⟩ := st
    rw [List.foldl_cons, ih]
    simp only []
    cases hget : claims[i]? with
    | none => simp [hget]
    | some rc =>
      simp only [claimVetoed_eq]
      by_cases hv : capacityVetoed node requests rc = true
      · simp [hv, hget, failClaim, setDevicesFailed_claim, writeDevices_self _ _ _ hget]
      · simp [hv, hget]

/-- The calls of the first loop: `setDevicesFailed` on the claims that meet the
capacity condition, in the order of the slice. -/
theorem vetoLoop_calls (kubeClient : KubeClient) (node : NodeInfo)
    (requests : List ComposabilityRequest) (st : FailedState) :
    (vetoLoop kubeClient node requests st).calls =
      st.calls ++ ((st.claims.filter (capacityVetoed node requests)).map
        (fun rc => { target := rc, result := setDevicesFailed kubeClient rc })) := by
  unfold vetoLoop
  rw [vetoLoop_fold, filterMap_getElem?_range]

/-- C17. The first pass of the failure evaluator calls the failure routine on
exactly the claims that have a `Preparing` device whose model is asked for by a
pending request with a size above `MaxDevice` of a node constraint for that
model, in the order of the sorted slice; the intra-claim and the cross-claim
coexistence checks select no claim, and neither does the cross-request one:
the walk over a claim selects it on the capacity condition alone. -/
theorem first_pass_selects_on_capacity (kubeClient : KubeClient) (node : NodeInfo)
    (requests : List ComposabilityRequest) (claims : List ResourceClaimInfo) :
    (vetoLoop kubeClient node requests { claims := sortByTime claims, calls := [] }).calls.map
        (fun c => c.target) = (sortByTime claims).filter (capacityVetoed node requests) ∧
      (∀ (rc : ResourceClaimInfo) (i : Nat) (d : ResourceClaimDevice),
        intraClaimVeto rc i d = false) ∧
      (∀ (rc : ResourceClaimInfo) (d : ResourceClaimDevice),
        crossClaimVeto (sortByTime claims) rc d = false) ∧
      ∀ rc : ResourceClaimInfo,
        claimVetoed node requests (sortByTime claims) rc = capacityVetoed node requests rc := by
  refine ⟨?_, intraClaimVeto_false, crossClaimVeto_false _, claimVetoed_eq node requests _⟩
  rw [vetoLoop_calls]
  simp [Function.comp_def]

end DDS
